import Mathlib

/-!
Workbook evaluator: dependency graph, topological scheduler, address codec.

A shallow embedding of `src/grammar/workbook/evaluator.js`.

Modelling conventions:

* a JavaScript `Set<α>` is an insertion-ordered list without duplicates (`JSSet`);
* a plain object used as a string-keyed dictionary is an association list (`JSObject`);
  reads return the first binding, writes replace an existing binding in place or append a new
  one, and `Object.keys` lists array-index keys in ascending numeric order before all other keys
  in insertion order.  Only own properties are modelled, so the embedding is exact for keys
  that are not names a plain object inherits from `Object.prototype` (`constructor`,
  `toString`, `valueOf`, `hasOwnProperty`, `__proto__` and the like).  For such a key the
  source reads the inherited member instead of `undefined`, and the assignment
  `o['__proto__'] = v` replaces the prototype without creating a key; the predicate
  `PlainIds` says that no id of a list of nodes is such a key;
* a `Map` is an association list read through its first binding;
* row and column numbers are natural numbers, printed in decimal by template literals;
  differences of rows and columns are computed in `Int`;
* `undefined` for an optional string is `none`;
* the `while` loop of `_topologicalSorting` takes a fuel argument and returns `none` when the
  fuel runs out before the queue is empty; the loop of `_rowColToA1` runs on a counter that
  strictly decreases and is given the counter's start value as fuel;
* the external `DepParser` is a parameter: a function from the formula text and the position
  to the list of references it reports, or `none` when it throws;
* the external `FormulaParser` is a parameter as well: a function from the three resolver
  callbacks, the formula text and the position to the value of `parse`, or `none` when it
  throws;
* `evaluateWorkbook` assigns to cell and variable objects in place.  A cell object is named by
  its place in `workbook.sheets` (sheet key and address key), a variable object by its
  position in `workbook.variables`, and the two lookup objects of the driver hold these
  places; a workbook is a tree, no object is stored in two places;
* `evaluateWorkbookTrace` returns, next to the workbook, the list of the evaluator calls made
  so far, a ghost value that lets theorems say how often and in which order the evaluator is
  called.
-/

namespace ExcelFormulate

/-! ## JavaScript containers -/

/-- A JavaScript `Set`: elements in insertion order, each at most once. -/
structure JSSet (α : Type) where
  elems : List α
  nodup : elems.Nodup

namespace JSSet

variable {α : Type}

instance [DecidableEq α] : DecidableEq (JSSet α) := fun a b =>
  match a, b with
  | ⟨xs, _⟩, ⟨ys, _⟩ =>
    if h : xs = ys then isTrue (by subst h; rfl)
    else isFalse (fun hab => h (congrArg JSSet.elems hab))

/-- The empty set, `new Set()`. -/
def empty : JSSet α := ⟨[], List.nodup_nil⟩

/-- The `size` property. -/
def size (s : JSSet α) : Nat := s.elems.length

/-- The method `delete(x)`. -/
def delete [DecidableEq α] (s : JSSet α) (x : α) : JSSet α :=
  ⟨s.elems.erase x, s.nodup.erase x⟩

/-- The method `add(x)`: a new element goes to the end, a known one changes nothing. -/
def add [DecidableEq α] (s : JSSet α) (x : α) : JSSet α :=
  if h : x ∈ s.elems then s
  else ⟨s.elems ++ [x], List.Nodup.append s.nodup (List.nodup_singleton x)
    (by simpa [List.disjoint_singleton] using h)⟩

/-- The constructor `new Set(iterable)`. -/
def ofList [DecidableEq α] (l : List α) : JSSet α := l.foldl add empty

end JSSet

/-- A plain object used as a dictionary from strings to `α`, bindings in creation order. -/
abbrev JSObject (α : Type) := List (String × α)

/-- Property read `o[k]`; `none` is `undefined`. -/
def objGet {α : Type} (o : JSObject α) (k : String) : Option α :=
  (o.find? (fun p => p.1 = k)).map Prod.snd

/-- Property write `o[k] = v`. -/
def objSet {α : Type} (o : JSObject α) (k : String) (v : α) : JSObject α :=
  if (objGet o k).isSome then o.map (fun p => if p.1 = k then (k, v) else p)
  else o ++ [(k, v)]

/-- The number written by a list of decimal digit characters. -/
def digitsValue (cs : List Char) : Nat :=
  cs.foldl (fun n c => 10 * n + (c.toNat - 48)) 0

/-- Whether a property key is an array index: the canonical decimal numeral (no leading zero)
of an integer below `2^32 - 1`. -/
def isArrayIndex (k : String) : Bool :=
  !k.data.isEmpty && k.data.all Char.isDigit
    && (k.data.head? != some '0' || k.data.length == 1)
    && decide (digitsValue k.data < 2 ^ 32 - 1)

/-- The keys `Object.keys(o)`: array indices in ascending numeric order, then the other keys in
creation order. -/
def objKeys {α : Type} (o : JSObject α) : List String :=
  let ks := o.map Prod.fst
  (ks.filter isArrayIndex).insertionSort (fun a b => digitsValue a.data ≤ digitsValue b.data)
    ++ ks.filter (fun k => !isArrayIndex k)

/-! ## Dependency nodes and the topological scheduler -/

/-- The typedef `DependencyNode`. -/
structure DependencyNode where
  id : String
  dependencyIds : JSSet String
deriving DecidableEq

/-- The typedef `TopologicallySortedNodes`. -/
structure TopologicallySortedNodes where
  topologicallySortedNodes : List DependencyNode
  recursiveNodes : List DependencyNode
deriving DecidableEq

/-- The function `_buildReverseDependencyMappings`: for every id, the ids of the nodes that list
it as a dependency. -/
def _buildReverseDependencyMappings (dependencies : List DependencyNode) :
    JSObject (List String) :=
  dependencies.foldl
    (fun reverseDependencyMappings dependency =>
      dependency.dependencyIds.elems.foldl
        (fun reverseDependencyMappings id =>
          objSet reverseDependencyMappings id
            ((objGet reverseDependencyMappings id).getD [] ++ [dependency.id]))
        reverseDependencyMappings)
    []

/-- The mutable variables of the `while` loop of `_topologicalSorting`. -/
structure SortState where
  indexedDependencies : JSObject DependencyNode
  topologicallySortedNodes : List DependencyNode
  recentlyResolvedDependencies : List DependencyNode

/-- One pass of the inner `for (const id of dependentIds)` body. -/
def resolveDependent (currentId : String)
    (acc : JSObject DependencyNode × List DependencyNode) (id : String) :
    JSObject DependencyNode × List DependencyNode :=
  match objGet acc.1 id with
  | none => acc
  | some dependentNode =>
    let updated : DependencyNode :=
      { dependentNode with dependencyIds := dependentNode.dependencyIds.delete currentId }
    let indexed := objSet acc.1 id updated
    if updated.dependencyIds.size = 0 then (indexed, acc.2 ++ [updated]) else (indexed, acc.2)

/-- One iteration of the `while` loop body, entered with `currentDependency` shifted off the
queue.  The looked-up `currentNode` exists for every id the queue can hold. -/
def sortStep (unmodifiedIndexedDependencies : JSObject DependencyNode)
    (reverseDependencyMappings : JSObject (List String))
    (indexed : JSObject DependencyNode) (sorted : List DependencyNode)
    (currentDependency : DependencyNode) (queue : List DependencyNode) : SortState :=
  let sorted :=
    match objGet unmodifiedIndexedDependencies currentDependency.id with
    | some currentNode => sorted ++ [currentNode]
    | none => sorted
  match objGet reverseDependencyMappings currentDependency.id with
  | none => ⟨indexed, sorted, queue⟩
  | some dependentIds =>
    let r := dependentIds.foldl (resolveDependent currentDependency.id) (indexed, queue)
    ⟨r.1, sorted, r.2⟩

/-- The `while (recentlyResolvedDependencies.length > 0)` loop, at most `fuel` iterations. -/
def sortLoop (unmodifiedIndexedDependencies : JSObject DependencyNode)
    (reverseDependencyMappings : JSObject (List String)) : Nat → SortState → Option SortState
  | fuel, st =>
    match st.recentlyResolvedDependencies with
    | [] => some st
    | currentDependency :: queue =>
      match fuel with
      | 0 => none
      | fuel + 1 =>
        sortLoop unmodifiedIndexedDependencies reverseDependencyMappings fuel
          (sortStep unmodifiedIndexedDependencies reverseDependencyMappings
            st.indexedDependencies st.topologicallySortedNodes currentDependency queue)

/-- The function `_topologicalSorting`, its loop bounded by `fuel` iterations. -/
def _topologicalSorting (fuel : Nat) (dependencies : List DependencyNode) :
    Option TopologicallySortedNodes :=
  let indexedDependencies : JSObject DependencyNode :=
    dependencies.foldl (fun o dependency => objSet o dependency.id
      { id := dependency.id, dependencyIds := dependency.dependencyIds }) []
  let unmodifiedIndexedDependencies : JSObject DependencyNode :=
    dependencies.foldl (fun o dependency => objSet o dependency.id dependency) []
  let reverseDependencyMappings := _buildReverseDependencyMappings dependencies
  let recentlyResolvedDependencies :=
    dependencies.filter (fun dependency => dependency.dependencyIds.size = 0)
  match sortLoop unmodifiedIndexedDependencies reverseDependencyMappings fuel
      ⟨indexedDependencies, [], recentlyResolvedDependencies⟩ with
  | none => none
  | some st =>
    let unresolvedDependencyIds :=
      (objKeys unmodifiedIndexedDependencies).filter (fun id =>
        match objGet st.indexedDependencies id with
        | some node => decide (node.dependencyIds.size > 0)
        | none => false)
    let recursiveNodes :=
      unresolvedDependencyIds.filterMap (fun id => objGet unmodifiedIndexedDependencies id)
    some ⟨st.topologicallySortedNodes, recursiveNodes⟩


/-! ## Values, cells, variables and the workbook -/

/-- A JavaScript value as stored in `value`, `result` and `cachesResult`. -/
inductive JSValue where
  | undefined
  | null
  | number (n : Int)
  | string (s : String)
  | boolean (b : Bool)
deriving DecidableEq

/-- The typedef `CellAddress` (also the shape of `DepParserCellReference`); a `sheet` that is
`undefined` is `none`. -/
structure CellAddress where
  row : Nat
  col : Nat
  sheet : Option String
deriving DecidableEq

/-- The typedef `FormulaData`; an absent `cachesResult` is `JSValue.undefined`. -/
structure FormulaData where
  formulaString : String
  cachesResult : JSValue
deriving DecidableEq

/-- The values of the field `type` of a cell. -/
inductive CellType where
  | formula
  | constant
deriving DecidableEq

/-- The typedef `CellData`; an absent `value` is `JSValue.undefined`. -/
structure CellData where
  type : CellType
  address : CellAddress
  formulaData : Option FormulaData
  value : JSValue
deriving DecidableEq

/-- The typedef `VariableData`. -/
structure VariableData where
  name : String
  formula : Option String
  value : JSValue
  result : JSValue
deriving DecidableEq

/-- The typedef `WorkbookData`; the field `variables_` is the property `variables`. -/
structure WorkbookData where
  variables_ : List VariableData
  sheets : JSObject (JSObject CellData)

/-! ## Address codec -/

/-- The text of a non-negative integer in a template literal: its decimal digits. -/
def decimal (n : Nat) : String := String.mk (Nat.toDigits 10 n)

/-- The text of an optional string in a template literal. -/
def templateText (s : Option String) : String := s.getD "undefined"

/-- Truthiness of an optional string: defined and not empty. -/
def truthy (s : Option String) : Bool :=
  match s with
  | some t => decide (t ≠ "")
  | none => false

/-- The `while (c > 0)` loop of `_rowColToA1`.  `c` strictly decreases, so a run from `c` never
needs more than `c` iterations; that is the fuel `_rowColToA1` passes. -/
def columnLetters : Nat → Nat → List Char → List Char
  | 0, _, colStr => colStr
  | fuel + 1, c, colStr =>
    if c > 0 then
      columnLetters fuel ((c - 1) / 26) (Char.ofNat ((c - 1) % 26 + 65) :: colStr)
    else colStr

/-- The function `_rowColToA1`. -/
def _rowColToA1 (row col : Nat) : String :=
  String.mk (columnLetters col col []) ++ decimal row

/-- The function `_hashCellAddress`. -/
def _hashCellAddress (address : CellAddress) : String :=
  templateText address.sheet ++ "-" ++ decimal address.row ++ "-" ++ decimal address.col

/-- Reading column letters as a zero-free base-26 numeral, `A` = 1 up to `Z` = 26. -/
def lettersValue (cs : List Char) : Nat :=
  cs.foldl (fun n c => 26 * n + (c.toNat - 64)) 0

/-! ## References reported by the reference extractor -/

/-- The typedef `DepParserRangeReference`; the fields `from_` and `to_` are the properties
`from` and `to`. -/
structure DepParserRangeReference where
  sheet : Option String
  from_ : CellAddress
  to_ : CellAddress
deriving DecidableEq

/-- A reference of one of the three typedefs `DepParserCellReference`,
`DepParserRangeReference`, `DepParserVariableReference`. -/
inductive DepParserReference where
  | cell (reference : CellAddress)
  | range (reference : DepParserRangeReference)
  | var (name : String)
deriving DecidableEq

/-- The three answers of `_getDepParserType`. -/
inductive DepParserType where
  | cell
  | range
  | var
deriving DecidableEq

/-- The function `_getDepParserType`; on the three typed shapes the key tests pick the shape,
and the final `return 'cell'` is not reached. -/
def _getDepParserType (reference : DepParserReference) : DepParserType :=
  match reference with
  | .cell _ => .cell
  | .range _ => .range
  | .var _ => .var

/-- A JavaScript `Map`, bindings in insertion order. -/
abbrev JSMap (κ ν : Type) := List (κ × ν)

/-- The method `get(k)`; `none` is `undefined`. -/
def mapGet {κ ν : Type} [DecidableEq κ] (m : JSMap κ ν) (k : κ) : Option ν :=
  (m.find? (fun p => p.1 = k)).map Prod.snd

/-- The method `set(k, v)`. -/
def mapSet {κ ν : Type} [DecidableEq κ] (m : JSMap κ ν) (k : κ) (v : ν) : JSMap κ ν :=
  if (mapGet m k).isSome then m.map (fun p => if p.1 = k then (k, v) else p)
  else m ++ [(k, v)]

/-- The sparse cell index `Map<sheet, Map<col, Set<row>>>`. -/
abbrev CellIndex := JSMap (Option String) (JSMap Nat (JSSet Nat))

/-- The values of the counter of `for (let i = lo; i <= hi; i++)`. -/
def forRange (lo hi : Nat) : List Nat := List.range' lo (hi + 1 - lo)

/-- The constant `MAX_RANGE_SIZE`. -/
def MAX_RANGE_SIZE : Int := 1000

/-- The function `_convertRangeToCellAddresses`. -/
def _convertRangeToCellAddresses (reference : DepParserRangeReference)
    (cellIndex : Option CellIndex) : List CellAddress :=
  let rowCount : Int := (reference.to_.row : Int) - reference.from_.row + 1
  let colCount : Int := (reference.to_.col : Int) - reference.from_.col + 1
  let totalCells := rowCount * colCount
  match cellIndex with
  | some index =>
    if totalCells > MAX_RANGE_SIZE then
      match mapGet index reference.sheet with
      | none => []
      | some sheetIndex =>
        (forRange reference.from_.col reference.to_.col).flatMap (fun col =>
          match mapGet sheetIndex col with
          | none => []
          | some rowsInCol =>
            (rowsInCol.elems.filter (fun row =>
              decide (row ≥ reference.from_.row) && decide (row ≤ reference.to_.row))).map
              (fun row => { row := row, col := col, sheet := reference.sheet }))
    else
      (forRange reference.from_.row reference.to_.row).flatMap (fun row =>
        (forRange reference.from_.col reference.to_.col).map (fun col =>
          { row := row, col := col, sheet := reference.sheet }))
  | none =>
    if totalCells > MAX_RANGE_SIZE then []
    else
      (forRange reference.from_.row reference.to_.row).flatMap (fun row =>
        (forRange reference.from_.col reference.to_.col).map (fun col =>
          { row := row, col := col, sheet := reference.sheet }))

/-- The sheet of a copied reference after
`if (!ref.sheet && defaultSheet) ref.sheet = defaultSheet`. -/
def inheritSheet (sheet defaultSheet : Option String) : Option String :=
  if !truthy sheet && truthy defaultSheet then defaultSheet else sheet

/-- The body of the `for (const reference of references)` loop of
`_convertDepParserReferenceToId`: the ids pushed for one reference. -/
def referenceIds (defaultSheet : Option String) (cellIndex : Option CellIndex)
    (reference : DepParserReference) : List String :=
  match _getDepParserType reference, reference with
  | .cell, .cell cellReference =>
    [_hashCellAddress { cellReference with sheet := inheritSheet cellReference.sheet defaultSheet }]
  | .range, .range rangeReference =>
    (_convertRangeToCellAddresses
      { rangeReference with sheet := inheritSheet rangeReference.sheet defaultSheet }
      cellIndex).map _hashCellAddress
  | .var, .var name => [name]
  | _, _ => []

/-- The function `_convertDepParserReferenceToId`. -/
def _convertDepParserReferenceToId (references : List DepParserReference)
    (defaultSheet : Option String) (cellIndex : Option CellIndex) : List String :=
  if references.length = 0 then []
  else references.foldl (fun result reference =>
    result ++ referenceIds defaultSheet cellIndex reference) []

/-! ## The dependency graph builder -/

/-- A `DepParser` instance: `parse(formula, {row, col})` followed by reading `data`; `none`
when the parser throws. -/
abbrev DepParser := String → Nat → Nat → Option (List DepParserReference)

/-- The text after one leading `=`, if there is one. -/
def stripEquals (formula : String) : String :=
  match formula.data with
  | '=' :: rest => String.mk rest
  | _ => formula

/-- The value of `n || 1`. -/
def orOne (n : Nat) : Nat := if n = 0 then 1 else n

/-- The function `_createDependencyNodeWithFormula`; `row`, `col` are the arguments passed by
its two callers. -/
def _createDependencyNodeWithFormula (parser : DepParser) (id formula : String)
    (row col : Nat) (sheet : Option String) (cellIndex : Option CellIndex) : DependencyNode :=
  match parser (stripEquals formula) (orOne row) (orOne col) with
  | some references =>
    { id := id,
      dependencyIds := JSSet.ofList (_convertDepParserReferenceToId references sheet cellIndex) }
  | none => { id := id, dependencyIds := JSSet.empty }

/-- The function `_convertCellToDependencyNode`. -/
def _convertCellToDependencyNode (parser : DepParser) (cell : CellData)
    (cellIndex : Option CellIndex) : DependencyNode :=
  match cell.type, cell.formulaData with
  | .constant, _ => { id := _hashCellAddress cell.address, dependencyIds := JSSet.empty }
  | .formula, none => { id := _hashCellAddress cell.address, dependencyIds := JSSet.empty }
  | .formula, some formulaData =>
    if formulaData.formulaString = "" then
      { id := _hashCellAddress cell.address, dependencyIds := JSSet.empty }
    else
      _createDependencyNodeWithFormula parser (_hashCellAddress cell.address)
        formulaData.formulaString cell.address.row cell.address.col cell.address.sheet cellIndex

/-- The function `_convertVariableToDependencyNode`. -/
def _convertVariableToDependencyNode (depParser : DepParser) (variableData : VariableData)
    (cellIndex : Option CellIndex) : DependencyNode :=
  if truthy variableData.formula then
    _createDependencyNodeWithFormula depParser variableData.name (variableData.formula.getD "")
      1 1 none cellIndex
  else { id := variableData.name, dependencyIds := JSSet.empty }

/-- One pass of the loop of `_topologicallySortCells` that fills the sparse cell index. -/
def indexCell (cellIndex : CellIndex) (cell : CellData) : CellIndex :=
  let cellIndex :=
    if (mapGet cellIndex cell.address.sheet).isSome then cellIndex
    else mapSet cellIndex cell.address.sheet []
  let sheetIndex := (mapGet cellIndex cell.address.sheet).getD []
  let sheetIndex :=
    if (mapGet sheetIndex cell.address.col).isSome then sheetIndex
    else mapSet sheetIndex cell.address.col JSSet.empty
  let rows := ((mapGet sheetIndex cell.address.col).getD JSSet.empty).add cell.address.row
  mapSet cellIndex cell.address.sheet (mapSet sheetIndex cell.address.col rows)

/-- The sparse cell index built by `_topologicallySortCells`. -/
def buildCellIndex (cells : List CellData) : CellIndex := cells.foldl indexCell []

/-- The `onVariable` callback handed to the `DepParser`: whether `variableIndex[name]` is set,
for the `variableIndex` built from the workbook's variables. -/
def variableRecognizer (variableList : List VariableData) : String → Bool :=
  let variableIndex : JSObject VariableData :=
    variableList.foldl (fun o variableData => objSet o variableData.name variableData) []
  fun name => (objGet variableIndex name).isSome

/-- The list `dependencies` built by `_topologicallySortCells`: one node per cell, then one per
variable.  `newDepParser onVariable` is `new DepParser({ onVariable })`. -/
def buildDependencies (newDepParser : (String → Bool) → DepParser) (cells : List CellData)
    (variableList : List VariableData) : List DependencyNode :=
  let parser := newDepParser (variableRecognizer variableList)
  let cellIndex := buildCellIndex cells
  cells.map (fun cell => _convertCellToDependencyNode parser cell (some cellIndex))
    ++ variableList.map (fun variableData =>
      _convertVariableToDependencyNode parser variableData (some cellIndex))

/-- The function `_topologicallySortCells`, the scheduler loop bounded by `fuel`. -/
def _topologicallySortCells (fuel : Nat) (newDepParser : (String → Bool) → DepParser)
    (cells : List CellData) (variableList : List VariableData) :
    Option TopologicallySortedNodes :=
  _topologicalSorting fuel (buildDependencies newDepParser cells variableList)

/-! ## The recalculation driver -/

/-- The constant `MAX_ITER`. -/
def MAX_ITER : Nat := 30

/-- The three resolver callbacks handed to `new FormulaParser({ onCell, onRange, onVariable })`;
`onRange` is `none` when the callback throws. -/
structure Hooks where
  onCell : CellAddress → JSValue
  onRange : DepParserRangeReference → Option (List (List JSValue))
  onVariable : String → JSValue

/-- A `FormulaParser` class seen from the driver: from the callbacks it was built with, the
formula text and the position to the value of `parse`, or `none` when `parse` throws. -/
abbrev FormulaParser := Hooks → String → CellAddress → Option JSValue

/-- The function `evaluateFormula`; `parse` is `formulaParser.parse`, and an absent `context`
is `none`. -/
def evaluateFormula (parse : String → CellAddress → Option JSValue) (formula : String)
    (context : Option CellAddress) : JSValue :=
  let position := context.getD { row := 1, col := 1, sheet := some "Sheet1" }
  match parse (stripEquals formula) position with
  | some result => result
  | none => JSValue.number 0

/-- The value of `v ?? w`. -/
def nullishOr (v w : JSValue) : JSValue :=
  match v with
  | .undefined => w
  | .null => w
  | _ => v

/-- The values `Object.values(o)`, in the order of `Object.keys(o)`. -/
def objValues {α : Type} (o : JSObject α) : List α := (objKeys o).filterMap (objGet o)

/-- The place of a cell object inside `workbook.sheets`: the sheet key and the address key. -/
structure CellLoc where
  sheetKey : String
  addressKey : String
deriving DecidableEq

/-- The cell object `workbook.sheets[sheetKey]?.[addressKey]`. -/
def cellAt (workbook : WorkbookData) (loc : CellLoc) : Option CellData :=
  (objGet workbook.sheets loc.sheetKey).bind (fun sheet => objGet sheet loc.addressKey)

/-- The places of the cell objects in the order of
`Object.values(workbook.sheets).flatMap(sheet => Object.values(sheet))`. -/
def allCellLocs (workbook : WorkbookData) : List CellLoc :=
  (objKeys workbook.sheets).flatMap (fun sheetKey =>
    match objGet workbook.sheets sheetKey with
    | some sheet => (objKeys sheet).map (fun addressKey => ⟨sheetKey, addressKey⟩)
    | none => [])

/-- The list `allCells` of `evaluateWorkbook`. -/
def allCells (workbook : WorkbookData) : List CellData :=
  (allCellLocs workbook).filterMap (cellAt workbook)

/-- An in-place change of the cell object at `loc`. -/
def updateCell (workbook : WorkbookData) (loc : CellLoc) (f : CellData → CellData) :
    WorkbookData :=
  match objGet workbook.sheets loc.sheetKey with
  | none => workbook
  | some sheet =>
    match objGet sheet loc.addressKey with
    | none => workbook
    | some cell =>
      { workbook with
        sheets := objSet workbook.sheets loc.sheetKey (objSet sheet loc.addressKey (f cell)) }

/-- An in-place change of the variable object at position `i` of `workbook.variables`. -/
def updateVariable (workbook : WorkbookData) (i : Nat) (f : VariableData → VariableData) :
    WorkbookData :=
  { workbook with variables_ := workbook.variables_.modify f i }

/-- The object `cellIndex` of `evaluateWorkbook`: from a cell identity to the cell object that
was stored last under it. -/
def buildEvalCellIndex (workbook : WorkbookData) : JSObject CellLoc :=
  (allCellLocs workbook).foldl (fun o loc =>
    match cellAt workbook loc with
    | some cell => objSet o (_hashCellAddress cell.address) loc
    | none => o) []

/-- The object `variableIndex` of `evaluateWorkbook`: from a name to the position of the
variable object that was stored last under it. -/
def buildEvalVariableIndex (workbook : WorkbookData) : JSObject Nat :=
  workbook.variables_.enum.foldl (fun o p => objSet o p.2.name p.1) []

/-- The value a present cell object gives to `onCell` and `onRange`. -/
def cellResult (cell : CellData) : JSValue :=
  match cell.type, cell.formulaData with
  | .formula, some formulaData =>
    if formulaData.cachesResult ≠ JSValue.undefined then formulaData.cachesResult
    else nullishOr cell.value (JSValue.number 0)
  | _, _ => nullishOr cell.value (JSValue.number 0)

/-- The callback `onCell`. -/
def onCell (workbook : WorkbookData) (ref : CellAddress) : JSValue :=
  match cellAt workbook ⟨templateText ref.sheet, _rowColToA1 ref.row ref.col⟩ with
  | none => JSValue.number 0
  | some cell => cellResult cell

/-- The callback `onRange`; `new Array(n)` throws for a negative `n`. -/
def onRange (workbook : WorkbookData) (ref : DepParserRangeReference) :
    Option (List (List JSValue)) :=
  match objGet workbook.sheets (templateText ref.sheet) with
  | none =>
    if (ref.to_.col : Int) - ref.from_.col + 1 < 0
        ∧ (forRange ref.from_.row ref.to_.row) ≠ [] then none
    else
      some ((forRange ref.from_.row ref.to_.row).map (fun _ =>
        List.replicate (ref.to_.col + 1 - ref.from_.col) (JSValue.number 0)))
  | some sheetData =>
    some ((forRange ref.from_.row ref.to_.row).map (fun row =>
      (forRange ref.from_.col ref.to_.col).map (fun col =>
        match objGet sheetData (_rowColToA1 row col) with
        | none => JSValue.number 0
        | some cell => cellResult cell)))

/-- The callback `onVariable`. -/
def onVariable (workbook : WorkbookData) (variableIndex : JSObject Nat) (name : String) :
    JSValue :=
  match (objGet variableIndex name).bind (fun i => workbook.variables_[i]?) with
  | none => JSValue.number 0
  | some variableData =>
    nullishOr variableData.result (nullishOr variableData.value (JSValue.number 0))

/-- The callbacks of `evaluateWorkbook`, reading the workbook in its current state. -/
def hooksOf (workbook : WorkbookData) (variableIndex : JSObject Nat) : Hooks :=
  { onCell := onCell workbook
    onRange := onRange workbook
    onVariable := onVariable workbook variableIndex }

/-- The pass in which `evaluateFormula` is called: the acyclic pass or sweep `iter` of the
circular pass. -/
inductive Pass where
  | acyclic
  | sweep (iter : Nat)
deriving DecidableEq

/-- One call of `evaluateFormula` made by `evaluateWorkbook`: the pass and the id of the node
being evaluated. -/
structure EvalCall where
  pass : Pass
  nodeId : String
deriving DecidableEq

/-- The state of `evaluateWorkbook` while it runs: the workbook as mutated so far and, as a
ghost field, the calls of `evaluateFormula` made so far, oldest first. -/
structure EvalState where
  workbook : WorkbookData
  calls : List EvalCall

/-- The statement pair `cell.value = result; cell.formulaData.cachesResult = result`. -/
def storeResult (result : JSValue) (cell : CellData) : CellData :=
  { cell with
    value := result
    formulaData := cell.formulaData.map (fun fd => { fd with cachesResult := result }) }

/-- The body of the loop `for (const node of topologicallySortedNodes)`. -/
def evaluateOrderedNode (formulaParser : FormulaParser) (cellIndex : JSObject CellLoc)
    (variableIndex : JSObject Nat) (st : EvalState) (node : DependencyNode) : EvalState :=
  match (objGet cellIndex node.id).bind
      (fun loc => (cellAt st.workbook loc).map (fun c => (loc, c))) with
  | none =>
    match objGet variableIndex node.id with
    | none => st
    | some i =>
      match st.workbook.variables_[i]? with
      | none => st
      | some variableData =>
        if truthy variableData.formula then
          let result := evaluateFormula
            (formulaParser (hooksOf st.workbook variableIndex))
            (variableData.formula.getD "") none
          { workbook := updateVariable st.workbook i (fun v => { v with result := result })
            calls := st.calls ++ [⟨Pass.acyclic, node.id⟩] }
        else st
  | some (loc, cell) =>
    match cell.formulaData with
    | none => st
    | some formulaData =>
      if formulaData.cachesResult ≠ JSValue.undefined
          ∧ formulaData.cachesResult ≠ JSValue.null then
        { workbook := updateCell st.workbook loc
            (fun c => { c with value := formulaData.cachesResult })
          calls := st.calls }
      else if cell.type = CellType.formula ∧ formulaData.formulaString ≠ "" then
        let result := evaluateFormula
          (formulaParser (hooksOf st.workbook variableIndex))
          formulaData.formulaString (some cell.address)
        { workbook := updateCell st.workbook loc (storeResult result)
          calls := st.calls ++ [⟨Pass.acyclic, node.id⟩] }
      else st

/-- The body of the loop `for (const node of recursiveNodes)` in sweep `iter`. -/
def evaluateRecursiveNode (formulaParser : FormulaParser) (cellIndex : JSObject CellLoc)
    (variableIndex : JSObject Nat) (iter : Nat) (st : EvalState) (node : DependencyNode) :
    EvalState :=
  match (objGet cellIndex node.id).bind
      (fun loc => (cellAt st.workbook loc).map (fun c => (loc, c))) with
  | none => st
  | some (loc, cell) =>
    match cell.type, cell.formulaData with
    | .formula, some formulaData =>
      if formulaData.formulaString ≠ "" then
        let result := evaluateFormula
          (formulaParser (hooksOf st.workbook variableIndex))
          formulaData.formulaString (some cell.address)
        { workbook := updateCell st.workbook loc (storeResult result)
          calls := st.calls ++ [⟨Pass.sweep iter, node.id⟩] }
      else st
    | _, _ => st

/-- The loop `while (iter < MAX_ITER) { ...; iter++ }`, entered with counter `iter`; the counter
grows by one per round, so `remaining = MAX_ITER - iter` rounds are left. -/
def circularPass (formulaParser : FormulaParser) (cellIndex : JSObject CellLoc)
    (variableIndex : JSObject Nat) (recursiveNodes : List DependencyNode) :
    Nat → Nat → EvalState → EvalState
  | 0, _, st => st
  | remaining + 1, iter, st =>
    if iter < MAX_ITER then
      circularPass formulaParser cellIndex variableIndex recursiveNodes remaining (iter + 1)
        (recursiveNodes.foldl
          (evaluateRecursiveNode formulaParser cellIndex variableIndex iter) st)
    else st

/-- The function `evaluateWorkbook` together with the ghost list of its evaluator calls; the
scheduler loop is bounded by `fuel`, and the result is `none` when that fuel runs out. -/
def evaluateWorkbookTrace (fuel : Nat) (newDepParser : (String → Bool) → DepParser)
    (formulaParser : FormulaParser) (workbook : WorkbookData) : Option EvalState :=
  match _topologicallySortCells fuel newDepParser (allCells workbook) workbook.variables_ with
  | none => none
  | some sorted =>
    let variableIndex := buildEvalVariableIndex workbook
    let cellIndex := buildEvalCellIndex workbook
    let afterOrdered := sorted.topologicallySortedNodes.foldl
      (evaluateOrderedNode formulaParser cellIndex variableIndex) ⟨workbook, []⟩
    some (circularPass formulaParser cellIndex variableIndex sorted.recursiveNodes
      (MAX_ITER - 0) 0 afterOrdered)

/-- The function `evaluateWorkbook`. -/
def evaluateWorkbook (fuel : Nat) (newDepParser : (String → Bool) → DepParser)
    (formulaParser : FormulaParser) (workbook : WorkbookData) : Option WorkbookData :=
  (evaluateWorkbookTrace fuel newDepParser formulaParser workbook).map EvalState.workbook

/-! ## Auxiliary notions for the scheduler proofs -/

/-- The ids of the nodes that list `x` as a dependency, in input order. -/
def dependentsOf (deps : List DependencyNode) (x : String) : List String :=
  (deps.filter (fun d => decide (x ∈ d.dependencyIds.elems))).map DependencyNode.id

/-- A working copy after `dependencyIds.delete(x)`. -/
def delNode (x : String) (n : DependencyNode) : DependencyNode :=
  { n with dependencyIds := n.dependencyIds.delete x }

/-- The working copy pushed on the queue by one pass of the inner loop, if any. -/
def pushedBy (x : String) (idx : JSObject DependencyNode) (id : String) : Option DependencyNode :=
  (objGet idx id).bind (fun n =>
    if (delNode x n).dependencyIds.size = 0 then some (delNode x n) else none)

/-- The loop invariant of `_topologicalSorting` over the input list `deps`. -/
structure SortInv (deps : List DependencyNode) (st : SortState) : Prop where
  work : ∀ d ∈ deps, ∃ w, objGet st.indexedDependencies d.id = some w ∧ w.id = d.id ∧
    ∀ y, y ∈ w.dependencyIds.elems ↔
      y ∈ d.dependencyIds.elems ∧ y ∉ st.topologicallySortedNodes.map DependencyNode.id
  nodup : (st.topologicallySortedNodes.map DependencyNode.id
    ++ st.recentlyResolvedDependencies.map DependencyNode.id).Nodup
  ready : ∀ d ∈ deps,
    (d.id ∈ st.topologicallySortedNodes.map DependencyNode.id
      ∨ d.id ∈ st.recentlyResolvedDependencies.map DependencyNode.id) ↔
    ∀ y ∈ d.dependencyIds.elems, y ∈ st.topologicallySortedNodes.map DependencyNode.id
  sortedMem : ∀ n ∈ st.topologicallySortedNodes, n ∈ deps
  queueMem : ∀ n ∈ st.recentlyResolvedDependencies, ∃ d ∈ deps, d.id = n.id
  order : ∀ (i : Nat) (n : DependencyNode), st.topologicallySortedNodes[i]? = some n →
    ∀ y ∈ n.dependencyIds.elems, ∃ (j : Nat) (m : DependencyNode), j < i ∧ st.topologicallySortedNodes[j]? = some m ∧ m.id = y

/-- What every result of `_topologicalSorting` on a list with pairwise distinct ids satisfies. -/
structure TopoFacts (deps : List DependencyNode) (r : TopologicallySortedNodes) : Prop where
  sortedMem : ∀ n ∈ r.topologicallySortedNodes, n ∈ deps
  sortedNodup : (r.topologicallySortedNodes.map DependencyNode.id).Nodup
  ready : ∀ d ∈ deps, d ∈ r.topologicallySortedNodes ↔
    ∀ y ∈ d.dependencyIds.elems, y ∈ r.topologicallySortedNodes.map DependencyNode.id
  order : ∀ (i : Nat) (n : DependencyNode), r.topologicallySortedNodes[i]? = some n →
    ∀ y ∈ n.dependencyIds.elems, ∃ (j : Nat) (m : DependencyNode), j < i ∧
      r.topologicallySortedNodes[j]? = some m ∧ m.id = y
  residual : ∀ d, d ∈ r.recursiveNodes ↔ d ∈ deps ∧ d ∉ r.topologicallySortedNodes
  residualNodup : r.recursiveNodes.Nodup

/-! ## The dependency graph of a node list -/

/-- The node with id `a` lists `b` among its dependency ids. -/
def DependsOn (nodes : List DependencyNode) (a b : String) : Prop :=
  ∃ n ∈ nodes, n.id = a ∧ b ∈ n.dependencyIds.elems

/-- The id `a` lies on a cycle of dependency edges (a node listing its own id included). -/
def OnCycle (nodes : List DependencyNode) (a : String) : Prop :=
  Relation.TransGen (DependsOn nodes) a a

/-- The dependency graph has no cycle. -/
def Acyclic (nodes : List DependencyNode) : Prop :=
  ∀ a, ¬ OnCycle nodes a

/-- The node with id `a` lists a dependency id that is the id of no node of the list. -/
def Dangling (nodes : List DependencyNode) (a : String) : Prop :=
  ∃ n ∈ nodes, n.id = a ∧ ∃ y ∈ n.dependencyIds.elems, y ∉ nodes.map DependencyNode.id

/-- Some node reachable from `a` along dependency edges (`a` itself included) lies on a cycle or
has a dangling dependency id. -/
def Blocked (nodes : List DependencyNode) (a : String) : Prop :=
  ∃ m, Relation.ReflTransGen (DependsOn nodes) a m ∧ (OnCycle nodes m ∨ Dangling nodes m)

/-! ## Sample inputs -/

/-- A chain: `c` reads `b` and `a`, `b` reads `a`, `a` is a leaf. -/
def chainNodes : List DependencyNode :=
  [⟨"c", ⟨["b", "a"], by decide⟩⟩, ⟨"b", ⟨["a"], by decide⟩⟩, ⟨"a", ⟨[], by decide⟩⟩]

/-- A self-referencing node next to a leaf and a node that reads the self-referencing one. -/
def cycleNodes : List DependencyNode :=
  [⟨"A", ⟨["A"], by decide⟩⟩, ⟨"L", ⟨[], by decide⟩⟩, ⟨"D", ⟨["A", "L"], by decide⟩⟩]

/-- A self-referencing node next to a node whose only dependency id names no node. -/
def danglingNodes : List DependencyNode :=
  [⟨"A", ⟨["A"], by decide⟩⟩, ⟨"B", ⟨["ghost"], by decide⟩⟩]

/-! ## Auxiliary notions for the reference normalizer -/

/-- The number `totalCells` that `_convertRangeToCellAddresses` computes for a range. -/
def totalCells (reference : DepParserRangeReference) : Int :=
  ((reference.to_.row : Int) - reference.from_.row + 1)
    * ((reference.to_.col : Int) - reference.from_.col + 1)

/-- The sparse index records `row` as populated in column `col` of `sheet`:
`row` is in `index[sheet][col]`. -/
def indexHas (index : CellIndex) (sheet : Option String) (col row : Nat) : Prop :=
  ∃ sheetIndex rows, mapGet index sheet = some sheetIndex ∧
    mapGet sheetIndex col = some rows ∧ row ∈ rows.elems

/-- A range of 2 rows by 3 columns on sheet `S`. -/
def smallRange : DepParserRangeReference :=
  { sheet := some "S", from_ := ⟨4, 2, some "S"⟩, to_ := ⟨5, 4, some "S"⟩ }

/-- A range of 1001 rows by 2 columns on sheet `S`. -/
def largeRange : DepParserRangeReference :=
  { sheet := some "S", from_ := ⟨1, 1, some "S"⟩, to_ := ⟨1001, 2, some "S"⟩ }

/-- A sparse index with rows 5, 2000 and 7 populated in column 2 of sheet `S`. -/
def sparseIndex : CellIndex := [(some "S", [(2, ⟨[5, 2000, 7], by decide⟩)])]

/-- A reference extractor that reports the cell A1, without sheet, for the formula text `A1`
and no reference for any other text. -/
def sampleDepParser : (String → Bool) → DepParser :=
  fun _ formula _ _ =>
    if formula = "A1" then some [DepParserReference.cell ⟨1, 1, none⟩] else some []

/-- The formula cell A2 of `Sheet1` with formula `=A1`. -/
def cellA2 : CellData :=
  { type := CellType.formula, address := ⟨2, 1, some "Sheet1"⟩,
    formulaData := some ⟨"=A1", JSValue.undefined⟩, value := JSValue.undefined }

/-! ## Sample workbooks and sample collaborators -/

/-- A reference extractor for the formulas of `chainWorkbook`: `A1 * 2` reads A1 and `A2 + 50`
reads A2, both without sheet. -/
def chainDepParser : (String → Bool) → DepParser :=
  fun _ formula _ _ =>
    if formula = "A1 * 2" then some [DepParserReference.cell ⟨1, 1, none⟩]
    else if formula = "A2 + 50" then some [DepParserReference.cell ⟨2, 1, none⟩]
    else some []

/-- A formula evaluator for the formulas of `chainWorkbook`; it throws on any other text and on
a cell value that is not a number. -/
def chainFormulaParser : FormulaParser :=
  fun hooks formula position =>
    if formula = "A1 * 2" then
      match hooks.onCell ⟨1, 1, position.sheet⟩ with
      | .number n => some (JSValue.number (n * 2))
      | _ => none
    else if formula = "A2 + 50" then
      match hooks.onCell ⟨2, 1, position.sheet⟩ with
      | .number n => some (JSValue.number (n + 50))
      | _ => none
    else none

/-- The workbook of the test `should handle cells with formulas referencing each other`:
`A1 = 100`, `A2 = A1 * 2`, `A3 = A2 + 50` on `Sheet1`, here stored in the order A3, A2, A1. -/
def chainWorkbook : WorkbookData :=
  { variables_ := []
    sheets := [("Sheet1",
      [("A3", { type := CellType.formula, address := ⟨3, 1, some "Sheet1"⟩,
                formulaData := some ⟨"=A2 + 50", JSValue.undefined⟩,
                value := JSValue.undefined }),
       ("A2", { type := CellType.formula, address := ⟨2, 1, some "Sheet1"⟩,
                formulaData := some ⟨"=A1 * 2", JSValue.undefined⟩,
                value := JSValue.undefined }),
       ("A1", { type := CellType.constant, address := ⟨1, 1, some "Sheet1"⟩,
                formulaData := none, value := JSValue.number 100 })])] }

/-- The formula text with one leading `=` removed, if there is one. -/
def withoutLeadingEquals (formula : String) : String :=
  if formula.data.head? = some '=' then String.mk formula.data.tail else formula

/-- The element that `onRange` reports for the cell object found, or not found, under an
address key: numeric 0 for a missing cell; for a present cell its `cachesResult` when the cell
is a formula cell with `cachesResult` defined, else its `value`, or numeric 0 when that is
`undefined` or `null`. -/
def rangeElement (cell : Option CellData) : JSValue :=
  match cell with
  | none => JSValue.number 0
  | some c =>
    if c.type = CellType.formula
        ∧ (c.formulaData.map FormulaData.cachesResult).getD JSValue.undefined
          ≠ JSValue.undefined then
      (c.formulaData.map FormulaData.cachesResult).getD JSValue.undefined
    else if c.value = JSValue.undefined ∨ c.value = JSValue.null then JSValue.number 0
    else c.value

/-- A `parse` that returns 4 for the text `2+2` and throws on every other text. -/
def sampleParse : String → CellAddress → Option JSValue :=
  fun formula _ => if formula = "2+2" then some (JSValue.number 4) else none

/-- The queue discipline of the scheduler loop: the ids sorted or queued so far are the ids of
the nodes without dependencies, in input order, followed by ids of nodes with dependencies. -/
def FifoInv (deps : List DependencyNode) (st : SortState) : Prop :=
  ∃ later : List String,
    st.topologicallySortedNodes.map DependencyNode.id
        ++ st.recentlyResolvedDependencies.map DependencyNode.id
      = (deps.filter (fun d => d.dependencyIds.size = 0)).map DependencyNode.id ++ later ∧
    ∀ x ∈ later, ∃ d ∈ deps, d.id = x ∧ d.dependencyIds.size ≠ 0

/-- Two nodes whose ids are the numerals `2` and `1`, each listing itself. -/
def numeralNodes : List DependencyNode :=
  [⟨"2", ⟨["2"], by decide⟩⟩, ⟨"1", ⟨["1"], by decide⟩⟩]

/-! ## Auxiliary notions for the recalculation driver -/

/-- The fields of a cell object that `evaluateWorkbook` never assigns: type, address and
formula text. -/
def cellShape (cell : CellData) : CellType × CellAddress × Option String :=
  (cell.type, cell.address, cell.formulaData.map FormulaData.formulaString)

/-- The cell object a node id stands for in `evaluateWorkbook`: `cellIndex[node.id]`, read in
the given state of the workbook. -/
def nodeCell (workbook : WorkbookData) (cellIndex : JSObject CellLoc) (id : String) :
    Option CellData :=
  (objGet cellIndex id).bind (cellAt workbook)

/-- The variable object a node id stands for in `evaluateWorkbook`: `variableIndex[node.id]`,
read in the given state of the workbook. -/
def nodeVariable (workbook : WorkbookData) (variableIndex : JSObject Nat) (id : String) :
    Option VariableData :=
  (objGet variableIndex id).bind (fun i => workbook.variables_[i]?)

/-- The test of the circular pass, read off the shape of the cell: a formula cell with non-empty
formula text. -/
def shapeIsFormula (shape : Option (CellType × CellAddress × Option String)) : Bool :=
  match shape with
  | some (CellType.formula, _, some text) => decide (text ≠ "")
  | _ => false

/-- The node is a formula cell with non-empty formula text. -/
def isFormulaCellNode (workbook : WorkbookData) (node : DependencyNode) : Bool :=
  shapeIsFormula ((nodeCell workbook (buildEvalCellIndex workbook) node.id).map cellShape)

/-- The calls of one sweep of the circular pass over `recursiveNodes`. -/
def sweepCalls (workbook : WorkbookData) (recursiveNodes : List DependencyNode) (iter : Nat) :
    List EvalCall :=
  (recursiveNodes.filter (isFormulaCellNode workbook)).map (fun n => ⟨Pass.sweep iter, n.id⟩)

/-- The workbook has the cell objects of `initial` in the same places with the same shapes, and
variable objects with the same names and formulas in the same positions. -/
def SameShape (initial workbook : WorkbookData) : Prop :=
  (∀ loc, (cellAt workbook loc).map cellShape = (cellAt initial loc).map cellShape) ∧
  workbook.variables_.map (fun v => (v.name, v.formula))
    = initial.variables_.map (fun v => (v.name, v.formula))

/-- The cell is handed to the evaluator by the acyclic pass: it has formula data without a
cached result, is of type formula and has non-empty formula text. -/
def cellNeedsEval (cell : CellData) : Bool :=
  match cell.formulaData with
  | none => false
  | some formulaData =>
    if formulaData.cachesResult ≠ JSValue.undefined
        ∧ formulaData.cachesResult ≠ JSValue.null then false
    else decide (cell.type = CellType.formula ∧ formulaData.formulaString ≠ "")

/-- The node is handed to the evaluator by the acyclic pass: an uncached formula cell, or, when
the id stands for no cell, a variable with a formula. -/
def needsEvaluation (workbook : WorkbookData) (cellIndex : JSObject CellLoc)
    (variableIndex : JSObject Nat) (id : String) : Bool :=
  match nodeCell workbook cellIndex id with
  | some cell => cellNeedsEval cell
  | none =>
    match nodeVariable workbook variableIndex id with
    | some variableData => truthy variableData.formula
    | none => false

/-- A reference extractor for the formulas of `cycleWorkbook`: `A2 + 1` reads A2 and `A1 + 1`
reads A1, both without sheet. -/
def cycleDepParser : (String → Bool) → DepParser :=
  fun _ formula _ _ =>
    if formula = "A2 + 1" then some [DepParserReference.cell ⟨2, 1, none⟩]
    else if formula = "A1 + 1" then some [DepParserReference.cell ⟨1, 1, none⟩]
    else some []

/-- A formula evaluator for the formulas of `cycleWorkbook`; it throws on any other text and on
a cell value that is not a number. -/
def cycleFormulaParser : FormulaParser :=
  fun hooks formula position =>
    if formula = "A2 + 1" then
      match hooks.onCell ⟨2, 1, position.sheet⟩ with
      | .number n => some (JSValue.number (n + 1))
      | _ => none
    else if formula = "A1 + 1" then
      match hooks.onCell ⟨1, 1, position.sheet⟩ with
      | .number n => some (JSValue.number (n + 1))
      | _ => none
    else none

/-- Two mutually circular cells with no constant base: `A1 = A2 + 1`, `A2 = A1 + 1`. -/
def cycleWorkbook : WorkbookData :=
  { variables_ := []
    sheets := [("Sheet1",
      [("A1", { type := CellType.formula, address := ⟨1, 1, some "Sheet1"⟩,
                formulaData := some ⟨"=A2 + 1", JSValue.undefined⟩,
                value := JSValue.undefined }),
       ("A2", { type := CellType.formula, address := ⟨2, 1, some "Sheet1"⟩,
                formulaData := some ⟨"=A1 + 1", JSValue.undefined⟩,
                value := JSValue.undefined })])] }

/-- The nodes of the two cells of `cycleWorkbook`. -/
def cycleResidual : List DependencyNode :=
  [⟨"Sheet1-1-1", ⟨["Sheet1-2-1"], by decide⟩⟩, ⟨"Sheet1-2-1", ⟨["Sheet1-1-1"], by decide⟩⟩]

/-- The node ids of a workbook in the order of the graph builder: the identities of the cell
objects, then the names of the variables. -/
def nodeIds (workbook : WorkbookData) : List String :=
  (allCells workbook).map (fun c => _hashCellAddress c.address)
    ++ workbook.variables_.map VariableData.name

/-- A formula evaluator that returns 7 for every formula. -/
def sevenFormulaParser : FormulaParser := fun _ _ _ => some (JSValue.number 7)

/-- One cell, `A1 = A1`, that carries the cached result 5. -/
def cachedSelfWorkbook : WorkbookData :=
  { variables_ := []
    sheets := [("Sheet1",
      [("A1", { type := CellType.formula, address := ⟨1, 1, some "Sheet1"⟩,
                formulaData := some ⟨"=A1", JSValue.number 5⟩,
                value := JSValue.number 5 })])] }

/-- Two cell objects with the same address: a formula cell with the cached result 5 and no
value, stored under `A1`, and a constant stored under `B1`. -/
def shadowedWorkbook : WorkbookData :=
  { variables_ := []
    sheets := [("Sheet1",
      [("A1", { type := CellType.formula, address := ⟨1, 1, some "Sheet1"⟩,
                formulaData := some ⟨"=1", JSValue.number 5⟩,
                value := JSValue.undefined }),
       ("B1", { type := CellType.constant, address := ⟨1, 1, some "Sheet1"⟩,
                formulaData := none, value := JSValue.number 9 })])] }

/-- The constant `A1 = 100` and the formula cell `A2 = A1 * 2` that carries the cached
result 7 and no value. -/
def cachedWorkbook : WorkbookData :=
  { variables_ := []
    sheets := [("Sheet1",
      [("A2", { type := CellType.formula, address := ⟨2, 1, some "Sheet1"⟩,
                formulaData := some ⟨"=A1 * 2", JSValue.number 7⟩,
                value := JSValue.undefined }),
       ("A1", { type := CellType.constant, address := ⟨1, 1, some "Sheet1"⟩,
                formulaData := none, value := JSValue.number 100 })])] }

/-- Two uncached formula cells with the same address, stored under `A1` and `B1`. -/
def twinWorkbook : WorkbookData :=
  { variables_ := []
    sheets := [("Sheet1",
      [("A1", { type := CellType.formula, address := ⟨1, 1, some "Sheet1"⟩,
                formulaData := some ⟨"=1", JSValue.undefined⟩,
                value := JSValue.undefined }),
       ("B1", { type := CellType.formula, address := ⟨1, 1, some "Sheet1"⟩,
                formulaData := some ⟨"=2", JSValue.undefined⟩,
                value := JSValue.undefined })])] }

/-- One uncached cell of type formula whose formula text is empty. -/
def blankFormulaWorkbook : WorkbookData :=
  { variables_ := []
    sheets := [("Sheet1",
      [("A1", { type := CellType.formula, address := ⟨1, 1, some "Sheet1"⟩,
                formulaData := some ⟨"", JSValue.undefined⟩,
                value := JSValue.undefined })])] }

/-! ## Further sample inputs -/

/-- A graph without a cycle: `X` lists the id `ghost` that names no node, `Y` reads `X`, `Z`
reads `Y`, and `L` is a leaf. -/
def ghostChain : List DependencyNode :=
  [⟨"X", ⟨["ghost"], by decide⟩⟩, ⟨"Y", ⟨["X"], by decide⟩⟩, ⟨"Z", ⟨["Y"], by decide⟩⟩,
    ⟨"L", ⟨[], by decide⟩⟩]

/-- A reference extractor that throws on every formula. -/
def throwingDepParser : DepParser := fun _ _ _ => none

/-! ## Facts about the scheduler loop that hold for every input list -/

/-- At most one node of the list has the id `a`. -/
def UniqueId (deps : List DependencyNode) (a : String) : Prop :=
  ∀ d1 ∈ deps, ∀ d2 ∈ deps, d1.id = a → d2.id = a → d1 = d2

/-- What holds in every state of the scheduler loop, whether or not the ids of the input list
are pairwise distinct: the working index binds every input id to a node with that id; queued
nodes carry input ids; an id whose working dependency set is empty has been sorted or is
queued; and an id that occurs once in the input and has been sorted or is queued has an empty
working dependency set. -/
structure SortFacts (deps : List DependencyNode) (st : SortState) : Prop where
  valueId : ∀ (k : String) (n : DependencyNode),
    objGet st.indexedDependencies k = some n → n.id = k ∧ k ∈ deps.map DependencyNode.id
  present : ∀ k ∈ deps.map DependencyNode.id,
    (objGet st.indexedDependencies k).isSome = true
  queueMem : ∀ n ∈ st.recentlyResolvedDependencies, n.id ∈ deps.map DependencyNode.id
  covered : ∀ (k : String) (n : DependencyNode),
    objGet st.indexedDependencies k = some n → n.dependencyIds.size = 0 →
    k ∈ st.topologicallySortedNodes.map DependencyNode.id
      ∨ k ∈ st.recentlyResolvedDependencies.map DependencyNode.id
  settled : ∀ a, UniqueId deps a →
    (a ∈ st.topologicallySortedNodes.map DependencyNode.id
      ∨ a ∈ st.recentlyResolvedDependencies.map DependencyNode.id) →
    ∀ n, objGet st.indexedDependencies a = some n → n.dependencyIds.size = 0

/-! ## Auxiliary notions for the stored results -/

/-- The cell's `value` is the `cachesResult` of its formula data, if it has formula data. -/
def valueIsCache (cell : CellData) : Prop :=
  ∀ fd, cell.formulaData = some fd → cell.value = fd.cachesResult

/-- The cell object at `loc` exists and its `value` is its `cachesResult`. -/
def GoodAt (workbook : WorkbookData) (loc : CellLoc) : Prop :=
  ∃ c, cellAt workbook loc = some c ∧ valueIsCache c

/-- Two mutually circular cells, `A1 = A2 + 1` and `A2 = A1 + 1`, next to the formula cell `A3`
that carries the cached result 7 and no value, and the uncached formula cell `A4`. -/
def mixedWorkbook : WorkbookData :=
  { variables_ := []
    sheets := [("Sheet1",
      [("A1", { type := CellType.formula, address := ⟨1, 1, some "Sheet1"⟩,
                formulaData := some ⟨"=A2 + 1", JSValue.undefined⟩,
                value := JSValue.undefined }),
       ("A2", { type := CellType.formula, address := ⟨2, 1, some "Sheet1"⟩,
                formulaData := some ⟨"=A1 + 1", JSValue.undefined⟩,
                value := JSValue.undefined }),
       ("A3", { type := CellType.formula, address := ⟨3, 1, some "Sheet1"⟩,
                formulaData := some ⟨"=7", JSValue.number 7⟩,
                value := JSValue.undefined }),
       ("A4", { type := CellType.formula, address := ⟨4, 1, some "Sheet1"⟩,
                formulaData := some ⟨"=8", JSValue.undefined⟩,
                value := JSValue.number 3 })])] }

/-- Two variables with the same name: the first has no formula, the second reads the cell A1,
which no sheet holds. -/
def twinVariableWorkbook : WorkbookData :=
  { variables_ := [⟨"a", none, JSValue.number 1, JSValue.undefined⟩,
      ⟨"a", some "A1", JSValue.undefined, JSValue.undefined⟩]
    sheets := [] }

/-- A variable `rate` without formula and a variable `total` that reads the cell A1, which no
sheet holds. -/
def danglingVariableWorkbook : WorkbookData :=
  { variables_ := [⟨"rate", none, JSValue.number 1, JSValue.undefined⟩,
      ⟨"total", some "A1", JSValue.number 2, JSValue.undefined⟩]
    sheets := [] }

/-! ## Ids that are not inherited property names -/

/-- The names of the properties that every plain object inherits from `Object.prototype`. -/
def objectPrototypeKeys : List String :=
  ["constructor", "__defineGetter__", "__defineSetter__", "hasOwnProperty",
    "__lookupGetter__", "__lookupSetter__", "isPrototypeOf", "propertyIsEnumerable",
    "toString", "valueOf", "__proto__", "toLocaleString"]

/-- No node id and no dependency id of the list is the name of a property that plain objects
inherit from `Object.prototype`.  These are the lists on which the three plain objects that
`_topologicalSorting` uses as dictionaries keyed by ids behave as own-property maps: for an id
outside `objectPrototypeKeys` a read `o[id]` returns the own binding or `undefined`, and a
write `o[id] = v` creates or replaces the own binding. -/
def PlainIds (nodes : List DependencyNode) : Prop :=
  ∀ n ∈ nodes, n.id ∉ objectPrototypeKeys ∧
    ∀ y ∈ n.dependencyIds.elems, y ∉ objectPrototypeKeys

instance (nodes : List DependencyNode) : Decidable (PlainIds nodes) := by
  unfold PlainIds
  infer_instance
/-! ## Dictionary laws -/

theorem objGet_cons {α : Type} (a : String) (b : α) (o : JSObject α) (k : String) :
    objGet ((a, b) :: o) k = if a = k then some b else objGet o k := by
  unfold objGet
  by_cases h : a = k <;> simp [List.find?_cons, h]

theorem objGet_isSome_iff {α : Type} (o : JSObject α) (k : String) :
    (objGet o k).isSome ↔ k ∈ o.map Prod.fst := by
  induction o with
  | nil => simp [objGet]
  | cons p o ih =>
    obtain ⟨a, b⟩ := p
    rw [objGet_cons]
    by_cases h : a = k
    · simp [h]
    · simp only [h, if_false, ih, List.map_cons, List.mem_cons]
      constructor
      · intro hk; exact Or.inr hk
      · rintro (hk | hk)
        · exact absurd hk.symm h
        · exact hk

theorem objGet_eq_none_iff {α : Type} (o : JSObject α) (k : String) :
    objGet o k = none ↔ k ∉ o.map Prod.fst := by
  rw [← objGet_isSome_iff]
  cases objGet o k <;> simp

theorem objGet_append_new {α : Type} (o : JSObject α) (k k2 : String) (v : α)
    (h : objGet o k = none) :
    objGet (o ++ [(k, v)]) k2 = if k2 = k then some v else objGet o k2 := by
  induction o with
  | nil =>
    rw [List.nil_append, objGet_cons]
    by_cases hk : k = k2
    · simp [hk]
    · have hk2 : ¬ k2 = k := fun e => hk e.symm
      simp [hk, hk2, objGet]
  | cons p o ih =>
    obtain ⟨a, b⟩ := p
    rw [objGet_cons] at h
    by_cases ha : a = k
    · simp [ha] at h
    · rw [if_neg ha] at h
      rw [List.cons_append, objGet_cons, objGet_cons, ih h]
      by_cases h2 : a = k2
      · have : ¬ k2 = k := fun e => ha (h2.trans e)
        simp [h2, this]
      · simp [h2]

theorem objGet_map_update {α : Type} (o : JSObject α) (k k2 : String) (v : α) :
    objGet (o.map (fun p => if p.1 = k then (k, v) else p)) k2
      = if k2 = k then (objGet o k).map (fun _ => v) else objGet o k2 := by
  induction o with
  | nil => simp [objGet]
  | cons p o ih =>
    obtain ⟨a, b⟩ := p
    rw [List.map_cons]
    by_cases ha : a = k
    · simp only [ha, if_true]
      rw [objGet_cons, objGet_cons, objGet_cons]
      by_cases h2 : k2 = k
      · simp [h2]
      · have : ¬ k = k2 := fun e => h2 e.symm
        simp [h2, this, ih]
    · simp only [ha, if_false]
      rw [objGet_cons, objGet_cons, ih]
      by_cases h2 : k2 = k
      · have : ¬ a = k2 := fun e => ha (e.trans h2)
        have h3 : ¬ a = k := ha
        rw [objGet_cons]
        simp [h2, h3]
      · simp [h2, objGet_cons]

/-- Reading after a write: the written key holds the new value, every other key is unchanged. -/
theorem objGet_objSet {α : Type} (o : JSObject α) (k k2 : String) (v : α) :
    objGet (objSet o k v) k2 = if k2 = k then some v else objGet o k2 := by
  unfold objSet
  cases h : objGet o k with
  | none =>
    simp only [Option.isSome_none, Bool.false_eq_true, if_false]
    exact objGet_append_new o k k2 v h
  | some w =>
    simp only [Option.isSome_some, if_true]
    rw [objGet_map_update, h]
    simp

theorem objSet_keys {α : Type} (o : JSObject α) (k : String) (v : α) :
    (objSet o k v).map Prod.fst
      = if k ∈ o.map Prod.fst then o.map Prod.fst else o.map Prod.fst ++ [k] := by
  unfold objSet
  by_cases h : k ∈ o.map Prod.fst
  · have hs : (objGet o k).isSome = true := (objGet_isSome_iff o k).2 h
    rw [if_pos hs, if_pos h, List.map_map]
    apply List.map_congr_left
    intro p _
    by_cases hp : p.1 = k <;> simp [hp]
  · have hs : ¬ (objGet o k).isSome = true := fun e => h ((objGet_isSome_iff o k).1 e)
    rw [if_neg hs, if_neg h]
    simp


/-! ## The indexes built by the scheduler -/

theorem foldl_objSet_fresh {α : Type} (f : DependencyNode → α) (deps : List DependencyNode)
    (acc : JSObject α) (hid : (deps.map DependencyNode.id).Nodup)
    (hacc : ∀ d ∈ deps, d.id ∉ acc.map Prod.fst) :
    deps.foldl (fun o d => objSet o d.id (f d)) acc = acc ++ deps.map (fun d => (d.id, f d)) := by
  induction deps generalizing acc with
  | nil => simp
  | cons d deps ih =>
    rw [List.map_cons, List.nodup_cons] at hid
    have hd : d.id ∉ acc.map Prod.fst := hacc d (List.mem_cons_self _ _)
    have hs : objSet acc d.id (f d) = acc ++ [(d.id, f d)] := by
      unfold objSet
      have : ¬ (objGet acc d.id).isSome = true := fun e => hd ((objGet_isSome_iff _ _).1 e)
      rw [if_neg this]
    rw [List.foldl_cons, hs, ih _ hid.2]
    · simp
    · intro e he
      have h1 := hacc e (List.mem_cons_of_mem _ he)
      have h2 : e.id ≠ d.id := by
        intro h
        exact hid.1 (h ▸ List.mem_map_of_mem DependencyNode.id he)
      simpa [h2] using h1

theorem objGet_index_of_mem {α : Type} (f : DependencyNode → α) (deps : List DependencyNode)
    (hid : (deps.map DependencyNode.id).Nodup) (d : DependencyNode) (hd : d ∈ deps) :
    objGet (deps.map (fun d => (d.id, f d))) d.id = some (f d) := by
  induction deps with
  | nil => cases hd
  | cons e deps ih =>
    rw [List.map_cons, List.nodup_cons] at hid
    rw [List.map_cons, objGet_cons]
    rcases List.mem_cons.1 hd with h | h
    · subst h; simp
    · have : ¬ e.id = d.id := by
        intro he
        exact hid.1 (he ▸ List.mem_map_of_mem DependencyNode.id h)
      rw [if_neg this]
      exact ih hid.2 h

theorem objGet_index_some {α : Type} (f : DependencyNode → α) (deps : List DependencyNode)
    (k : String) (v : α) (h : objGet (deps.map (fun d => (d.id, f d))) k = some v) :
    ∃ d ∈ deps, d.id = k ∧ v = f d := by
  induction deps with
  | nil => simp [objGet] at h
  | cons e deps ih =>
    rw [List.map_cons, objGet_cons] at h
    by_cases he : e.id = k
    · rw [if_pos he] at h
      exact ⟨e, List.mem_cons_self _ _, he, (Option.some.inj h).symm⟩
    · rw [if_neg he] at h
      obtain ⟨d, hd, hk, hv⟩ := ih h
      exact ⟨d, List.mem_cons_of_mem _ hd, hk, hv⟩

theorem reverse_inner (owner : String) (l : List String) (hl : l.Nodup)
    (m : JSObject (List String)) (x : String) :
    (objGet (l.foldl (fun m id => objSet m id ((objGet m id).getD [] ++ [owner])) m) x).getD []
      = (objGet m x).getD [] ++ (if x ∈ l then [owner] else []) := by
  induction l generalizing m with
  | nil => simp
  | cons y l ih =>
    rw [List.nodup_cons] at hl
    rw [List.foldl_cons, ih hl.2, objGet_objSet]
    by_cases hxy : x = y
    · subst hxy
      simp [hl.1]
    · have : ¬ x ∈ y :: l ↔ ¬ x ∈ l := by simp [hxy]
      by_cases hx : x ∈ l
      · simp [hxy, hx]
      · simp [hxy, hx]

theorem reverse_outer (deps : List DependencyNode) (m : JSObject (List String)) (x : String) :
    (objGet (deps.foldl
      (fun m dependency =>
        dependency.dependencyIds.elems.foldl
          (fun m id => objSet m id ((objGet m id).getD [] ++ [dependency.id])) m) m) x).getD []
      = (objGet m x).getD [] ++ dependentsOf deps x := by
  induction deps generalizing m with
  | nil => simp [dependentsOf]
  | cons d deps ih =>
    rw [List.foldl_cons, ih, reverse_inner d.id _ d.dependencyIds.nodup]
    unfold dependentsOf
    by_cases hx : x ∈ d.dependencyIds.elems
    · simp [hx, List.filter_cons]
    · simp [hx, List.filter_cons]

/-- The reverse mapping holds, for every id, exactly the nodes that depend on it. -/
theorem reverse_lookup (deps : List DependencyNode) (x : String) :
    (objGet (_buildReverseDependencyMappings deps) x).getD [] = dependentsOf deps x := by
  unfold _buildReverseDependencyMappings
  rw [reverse_outer]
  simp [objGet]

theorem dependentsOf_nodup (deps : List DependencyNode)
    (hid : (deps.map DependencyNode.id).Nodup) (x : String) : (dependentsOf deps x).Nodup :=
  List.Nodup.sublist (List.Sublist.map _ (List.filter_sublist _)) hid

theorem eq_of_id_eq (deps : List DependencyNode) (hid : (deps.map DependencyNode.id).Nodup)
    (a b : DependencyNode) (ha : a ∈ deps) (hb : b ∈ deps) (h : a.id = b.id) : a = b :=
  List.inj_on_of_nodup_map hid ha hb h

theorem mem_dependentsOf (deps : List DependencyNode) (hid : (deps.map DependencyNode.id).Nodup)
    (d : DependencyNode) (hd : d ∈ deps) (x : String) :
    d.id ∈ dependentsOf deps x ↔ x ∈ d.dependencyIds.elems := by
  unfold dependentsOf
  constructor
  · intro h
    obtain ⟨e, he, hed⟩ := List.mem_map.1 h
    rw [List.mem_filter] at he
    have := eq_of_id_eq deps hid e d he.1 hd hed
    subst this
    simpa using he.2
  · intro h
    exact List.mem_map.2 ⟨d, List.mem_filter.2 ⟨hd, by simpa using h⟩, rfl⟩

theorem mem_dependentsOf_elim (deps : List DependencyNode) (x k : String)
    (h : k ∈ dependentsOf deps x) : ∃ d ∈ deps, d.id = k ∧ x ∈ d.dependencyIds.elems := by
  unfold dependentsOf at h
  obtain ⟨e, he, hed⟩ := List.mem_map.1 h
  rw [List.mem_filter] at he
  exact ⟨e, he.1, hed, by simpa using he.2⟩

/-! ## The inner loop -/

theorem resolveDependent_eq (x : String) (idx : JSObject DependencyNode)
    (q : List DependencyNode) (id : String) :
    resolveDependent x (idx, q) id
      = (match objGet idx id with
          | none => idx
          | some n => objSet idx id (delNode x n),
         q ++ (pushedBy x idx id).toList) := by
  unfold resolveDependent pushedBy delNode
  cases h : objGet idx id with
  | none => simp
  | some n =>
    simp only [Option.some_bind]
    split <;> simp

theorem foldl_resolve (x : String) (L : List String) (hL : L.Nodup)
    (idx : JSObject DependencyNode) (q : List DependencyNode) :
    (∀ k, objGet (L.foldl (resolveDependent x) (idx, q)).1 k
        = if k ∈ L then (objGet idx k).map (delNode x) else objGet idx k) ∧
    (L.foldl (resolveDependent x) (idx, q)).2 = q ++ L.filterMap (pushedBy x idx) := by
  induction L generalizing idx q with
  | nil => simp
  | cons y L ih =>
    rw [List.nodup_cons] at hL
    rw [List.foldl_cons, resolveDependent_eq]
    obtain ⟨ih1, ih2⟩ := ih hL.2
      (match objGet idx y with
        | none => idx
        | some n => objSet idx y (delNode x n)) (q ++ (pushedBy x idx y).toList)
    have hget : ∀ k, objGet (match objGet idx y with
        | none => idx
        | some n => objSet idx y (delNode x n)) k
        = if k = y then (objGet idx y).map (delNode x) else objGet idx k := by
      intro k
      cases h : objGet idx y with
      | none =>
        by_cases hk : k = y
        · subst hk; simp [h]
        · simp [hk]
      | some n => simp [objGet_objSet]
    constructor
    · intro k
      rw [ih1, hget]
      by_cases hk : k = y
      · subst hk
        simp [hL.1]
      · simp [hk]
    · rw [ih2, List.filterMap_cons, List.append_assoc]
      congr 1
      have hcongr : L.filterMap (pushedBy x (match objGet idx y with
          | none => idx
          | some n => objSet idx y (delNode x n))) = L.filterMap (pushedBy x idx) := by
        apply List.filterMap_congr
        intro k hk
        have hky : k ≠ y := fun e => hL.1 (e ▸ hk)
        unfold pushedBy
        rw [hget, if_neg hky]
      rw [hcongr]
      cases pushedBy x idx y <;> simp

theorem mem_delete_iff (s : JSSet String) (x y : String) :
    y ∈ (s.delete x).elems ↔ y ≠ x ∧ y ∈ s.elems := by
  unfold JSSet.delete
  exact s.nodup.mem_erase_iff

theorem size_eq_zero_iff (s : JSSet String) : s.size = 0 ↔ ∀ y, y ∉ s.elems := by
  unfold JSSet.size
  rw [List.length_eq_zero, List.eq_nil_iff_forall_not_mem]

/-! ## One iteration of the scheduler loop preserves the invariant -/

theorem map_filterMap_sublist {α β : Type} (g : α → Option β) (f : β → α) (l : List α)
    (h : ∀ k ∈ l, ∀ p, g k = some p → f p = k) : ((l.filterMap g).map f).Sublist l := by
  induction l with
  | nil => simp
  | cons a l ih =>
    have ih2 := ih (fun k hk => h k (List.mem_cons_of_mem _ hk))
    cases hg : g a with
    | none =>
      rw [List.filterMap_cons_none hg]
      exact List.Sublist.cons _ ih2
    | some p =>
      rw [List.filterMap_cons_some hg, List.map_cons, h a (List.mem_cons_self _ _) p hg]
      exact List.Sublist.cons₂ _ ih2

theorem sortStep_eq (deps : List DependencyNode) (hid : (deps.map DependencyNode.id).Nodup)
    (idx : JSObject DependencyNode) (sorted : List DependencyNode)
    (cur d0 : DependencyNode) (rest : List DependencyNode) (hd0 : d0 ∈ deps)
    (hcur : d0.id = cur.id) :
    sortStep (deps.map (fun d => (d.id, d))) (_buildReverseDependencyMappings deps)
        idx sorted cur rest
      = ⟨((dependentsOf deps d0.id).foldl (resolveDependent d0.id) (idx, rest)).1,
         sorted ++ [d0],
         ((dependentsOf deps d0.id).foldl (resolveDependent d0.id) (idx, rest)).2⟩ := by
  unfold sortStep
  rw [← hcur, objGet_index_of_mem (fun d => d) deps hid d0 hd0, ← reverse_lookup]
  cases objGet (_buildReverseDependencyMappings deps) d0.id with
  | none => simp
  | some L => simp

theorem pushedBy_spec (deps : List DependencyNode) (st : SortState) (inv : SortInv deps st)
    (x : String) (d : DependencyNode) (hd : d ∈ deps) (p : DependencyNode) :
    pushedBy x st.indexedDependencies d.id = some p ↔
      (p.id = d.id ∧ p = delNode x
          ((objGet st.indexedDependencies d.id).getD d) ∧
        ∀ y ∈ d.dependencyIds.elems,
          y ∈ st.topologicallySortedNodes.map DependencyNode.id ∨ y = x) := by
  obtain ⟨w, hw, hwid, hmem⟩ := inv.work d hd
  unfold pushedBy
  rw [hw]
  simp only [Option.some_bind, Option.getD_some]
  have hempty : (delNode x w).dependencyIds.size = 0 ↔
      ∀ y ∈ d.dependencyIds.elems,
        y ∈ st.topologicallySortedNodes.map DependencyNode.id ∨ y = x := by
    rw [size_eq_zero_iff]
    constructor
    · intro h y hy
      by_contra hc
      push_neg at hc
      exact h y ((mem_delete_iff _ _ _).2 ⟨hc.2, (hmem y).2 ⟨hy, hc.1⟩⟩)
    · intro h y hy
      obtain ⟨hne, hyw⟩ := (mem_delete_iff _ _ _).1 hy
      obtain ⟨hyd, hyO⟩ := (hmem y).1 hyw
      rcases h y hyd with h1 | h1
      · exact hyO h1
      · exact hne h1
  by_cases he : (delNode x w).dependencyIds.size = 0
  · rw [if_pos he]
    constructor
    · intro h
      have hp : delNode x w = p := Option.some.inj h
      subst hp
      exact ⟨hwid, rfl, hempty.1 he⟩
    · rintro ⟨_, hp, _⟩
      rw [hp]
  · rw [if_neg he]
    constructor
    · intro h; cases h
    · rintro ⟨_, _, h⟩
      exact absurd (hempty.2 h) he

theorem pushedBy_some (deps : List DependencyNode) (st : SortState) (inv : SortInv deps st)
    (x : String) (d : DependencyNode) (hd : d ∈ deps) (p : DependencyNode)
    (h : pushedBy x st.indexedDependencies d.id = some p) :
    p.id = d.id ∧ ∀ y ∈ d.dependencyIds.elems,
      y ∈ st.topologicallySortedNodes.map DependencyNode.id ∨ y = x := by
  obtain ⟨h1, _, h3⟩ := (pushedBy_spec deps st inv x d hd p).1 h
  exact ⟨h1, h3⟩

theorem pushedBy_of_ready (deps : List DependencyNode) (st : SortState) (inv : SortInv deps st)
    (x : String) (d : DependencyNode) (hd : d ∈ deps)
    (h : ∀ y ∈ d.dependencyIds.elems,
      y ∈ st.topologicallySortedNodes.map DependencyNode.id ∨ y = x) :
    ∃ p, pushedBy x st.indexedDependencies d.id = some p ∧ p.id = d.id := by
  obtain ⟨w, hw, hwid, _⟩ := inv.work d hd
  refine ⟨delNode x ((objGet st.indexedDependencies d.id).getD d), ?_, ?_⟩
  · refine (pushedBy_spec deps st inv x d hd _).2 ⟨?_, rfl, h⟩
    rw [hw]
    exact hwid
  · rw [hw]
    exact hwid

theorem mem_pushed_ids (deps : List DependencyNode) (hid : (deps.map DependencyNode.id).Nodup)
    (st : SortState) (inv : SortInv deps st) (x k : String) :
    k ∈ ((dependentsOf deps x).filterMap (pushedBy x st.indexedDependencies)).map
        DependencyNode.id ↔
      ∃ d ∈ deps, d.id = k ∧ x ∈ d.dependencyIds.elems ∧
        ∀ y ∈ d.dependencyIds.elems,
          y ∈ st.topologicallySortedNodes.map DependencyNode.id ∨ y = x := by
  constructor
  · intro h
    obtain ⟨p, hp, hpk⟩ := List.mem_map.1 h
    obtain ⟨k2, hk2, hpush⟩ := List.mem_filterMap.1 hp
    obtain ⟨d, hd, hdk, hx⟩ := mem_dependentsOf_elim deps x k2 hk2
    rw [← hdk] at hpush
    obtain ⟨h1, h2⟩ := pushedBy_some deps st inv x d hd p hpush
    exact ⟨d, hd, by rw [← h1, hpk], hx, h2⟩
  · rintro ⟨d, hd, hdk, hx, hr⟩
    obtain ⟨p, hp, hpid⟩ := pushedBy_of_ready deps st inv x d hd hr
    refine List.mem_map.2 ⟨p, List.mem_filterMap.2 ⟨d.id, ?_, hp⟩, by rw [hpid, hdk]⟩
    exact (mem_dependentsOf deps hid d hd x).2 hx

theorem pushed_ids_nodup (deps : List DependencyNode) (hid : (deps.map DependencyNode.id).Nodup)
    (st : SortState) (inv : SortInv deps st) (x : String) :
    (((dependentsOf deps x).filterMap (pushedBy x st.indexedDependencies)).map
        DependencyNode.id).Nodup := by
  refine List.Nodup.sublist (map_filterMap_sublist _ _ _ ?_) (dependentsOf_nodup deps hid x)
  intro k hk p hp
  obtain ⟨d, hd, hdk, _⟩ := mem_dependentsOf_elim deps x k hk
  rw [← hdk] at hp
  rw [← hdk]
  exact (pushedBy_some deps st inv x d hd p hp).1

/-- One iteration of the `while` loop keeps the invariant and appends one node. -/
theorem SortInv.step (deps : List DependencyNode) (hid : (deps.map DependencyNode.id).Nodup)
    (st : SortState) (inv : SortInv deps st) (cur : DependencyNode)
    (rest : List DependencyNode) (hq : st.recentlyResolvedDependencies = cur :: rest) :
    SortInv deps (sortStep (deps.map (fun d => (d.id, d)))
        (_buildReverseDependencyMappings deps) st.indexedDependencies
        st.topologicallySortedNodes cur rest) ∧
      (sortStep (deps.map (fun d => (d.id, d)))
        (_buildReverseDependencyMappings deps) st.indexedDependencies
        st.topologicallySortedNodes cur rest).topologicallySortedNodes.length
        = st.topologicallySortedNodes.length + 1 := by
  obtain ⟨d0, hd0, hcur⟩ := inv.queueMem cur (by rw [hq]; exact List.mem_cons_self _ _)
  rw [sortStep_eq deps hid _ _ cur d0 rest hd0 hcur]
  obtain ⟨hget, hq2⟩ := foldl_resolve d0.id (dependentsOf deps d0.id)
    (dependentsOf_nodup deps hid _) st.indexedDependencies rest
  have hN := inv.nodup
  rw [hq, List.map_cons, ← hcur] at hN
  have hN2 := List.nodup_middle.1 hN
  rw [List.nodup_cons] at hN2
  obtain ⟨hxOQ, hOQ⟩ := hN2
  have hxO : d0.id ∉ st.topologicallySortedNodes.map DependencyNode.id :=
    fun h => hxOQ (List.mem_append_left _ h)
  have hxQ : d0.id ∉ rest.map DependencyNode.id :=
    fun h => hxOQ (List.mem_append_right _ h)
  have hready0 : ∀ y ∈ d0.dependencyIds.elems,
      y ∈ st.topologicallySortedNodes.map DependencyNode.id := by
    apply (inv.ready d0 hd0).1
    right
    rw [hq, List.map_cons, ← hcur]
    exact List.mem_cons_self _ _
  have hx0 : d0.id ∉ d0.dependencyIds.elems := fun h => hxO (hready0 _ h)
  refine ⟨⟨?_, ?_, ?_, ?_, ?_, ?_⟩, ?_⟩
  · -- work
    intro d hd
    obtain ⟨w, hw, hwid, hmem⟩ := inv.work d hd
    simp only
    rw [hget]
    by_cases hx : d0.id ∈ d.dependencyIds.elems
    · rw [if_pos ((mem_dependentsOf deps hid d hd _).2 hx), hw]
      refine ⟨delNode d0.id w, rfl, hwid, ?_⟩
      intro y
      unfold delNode
      simp only
      rw [mem_delete_iff, hmem]
      simp only [List.map_append, List.mem_append, List.map_cons, List.map_nil,
        List.mem_singleton]
      tauto
    · have hnot : d.id ∉ dependentsOf deps d0.id :=
        fun h => hx ((mem_dependentsOf deps hid d hd _).1 h)
      rw [if_neg hnot, hw]
      refine ⟨w, rfl, hwid, ?_⟩
      intro y
      rw [hmem]
      simp only [List.map_append, List.mem_append, List.map_cons, List.map_nil,
        List.mem_singleton]
      constructor
      · rintro ⟨h1, h2⟩
        refine ⟨h1, ?_⟩
        rintro (h3 | h3)
        · exact h2 h3
        · exact hx (h3 ▸ h1)
      · rintro ⟨h1, h2⟩
        exact ⟨h1, fun h3 => h2 (Or.inl h3)⟩
  · -- nodup
    simp only
    rw [hq2, List.map_append, List.map_append, List.map_cons, List.map_nil, ← List.append_assoc]
    have h1 : ((st.topologicallySortedNodes.map DependencyNode.id ++ [d0.id])
        ++ rest.map DependencyNode.id).Nodup := by
      rw [List.append_assoc]
      exact hN
    rw [List.nodup_append]
    refine ⟨h1, pushed_ids_nodup deps hid st inv d0.id, ?_⟩
    intro k hk1 hk2
    obtain ⟨d, hd, hdk, hx, _⟩ := (mem_pushed_ids deps hid st inv d0.id k).1 hk2
    have hkOQ : d.id ∈ st.topologicallySortedNodes.map DependencyNode.id ∨
        d.id ∈ st.recentlyResolvedDependencies.map DependencyNode.id := by
      rw [hdk, hq, List.map_cons, ← hcur]
      simp only [List.mem_append, List.mem_singleton, List.mem_cons] at hk1 ⊢
      tauto
    exact hxO ((inv.ready d hd).1 hkOQ _ hx)
  · -- ready
    intro d hd
    simp only
    rw [hq2]
    have hold := inv.ready d hd
    rw [hq, List.map_cons, ← hcur] at hold
    have hpush := mem_pushed_ids deps hid st inv d0.id d.id
    simp only [List.map_append, List.mem_append, List.map_cons, List.map_nil,
      List.mem_singleton, List.mem_cons, List.not_mem_nil, or_false] at hold hpush ⊢
    constructor
    · intro h y hy
      rcases h with (h | h) | (h | h)
      · exact Or.inl (hold.1 (Or.inl h) y hy)
      · exact Or.inl (hold.1 (Or.inr (Or.inl h)) y hy)
      · exact Or.inl (hold.1 (Or.inr (Or.inr h)) y hy)
      · obtain ⟨e, he, hed, _, hr⟩ := hpush.1 h
        have := eq_of_id_eq deps hid e d he hd hed
        subst this
        exact hr y hy
    · intro h
      by_cases hx : d0.id ∈ d.dependencyIds.elems
      · right; right
        exact hpush.2 ⟨d, hd, rfl, hx, h⟩
      · have h2 : ∀ y ∈ d.dependencyIds.elems,
            y ∈ st.topologicallySortedNodes.map DependencyNode.id := by
          intro y hy
          rcases h y hy with h3 | h3
          · exact h3
          · exact absurd (h3 ▸ hy) hx
        rcases hold.2 h2 with h3 | h3 | h3
        · exact Or.inl (Or.inl h3)
        · exact Or.inl (Or.inr h3)
        · exact Or.inr (Or.inl h3)
  · -- sortedMem
    intro n hn
    simp only [List.mem_append, List.mem_singleton] at hn
    rcases hn with hn | hn
    · exact inv.sortedMem n hn
    · exact hn ▸ hd0
  · -- queueMem
    intro n hn
    simp only at hn
    rw [hq2, List.mem_append] at hn
    rcases hn with hn | hn
    · exact inv.queueMem n (by rw [hq]; exact List.mem_cons_of_mem _ hn)
    · obtain ⟨d, hd, hdk, _⟩ := (mem_pushed_ids deps hid st inv d0.id n.id).1
        (List.mem_map_of_mem _ hn)
      exact ⟨d, hd, hdk⟩
  · -- order
    intro i n hi y hy
    simp only at hi ⊢
    rw [List.getElem?_append] at hi
    by_cases hlt : i < st.topologicallySortedNodes.length
    · rw [if_pos hlt] at hi
      obtain ⟨j, m, hj, hm, hmy⟩ := inv.order i n hi y hy
      refine ⟨j, m, hj, ?_, hmy⟩
      rw [List.getElem?_append, if_pos (lt_trans hj hlt)]
      exact hm
    · rw [if_neg hlt] at hi
      have hi0 : i - st.topologicallySortedNodes.length = 0 := by
        by_contra hne
        rw [List.getElem?_eq_none (by simp; omega)] at hi
        cases hi
      rw [hi0] at hi
      simp only [List.getElem?_cons_zero, Option.some.injEq] at hi
      subst hi
      have hyO := hready0 y hy
      obtain ⟨m, hm, hmy⟩ := List.mem_map.1 hyO
      obtain ⟨j, hj, hjm⟩ := List.getElem_of_mem hm
      refine ⟨j, m, by omega, ?_, hmy⟩
      rw [List.getElem?_append, if_pos hj, List.getElem?_eq_getElem hj, hjm]
  · simp

/-! ## The scheduler loop as a whole -/

theorem SortInv.init (deps : List DependencyNode) (hid : (deps.map DependencyNode.id).Nodup) :
    SortInv deps ⟨deps.map (fun d => (d.id, d)), [],
      deps.filter (fun d => d.dependencyIds.size = 0)⟩ := by
  refine ⟨?_, ?_, ?_, ?_, ?_, ?_⟩
  · intro d hd
    exact ⟨d, objGet_index_of_mem (fun d => d) deps hid d hd, rfl, by simp⟩
  · simp only [List.map_nil, List.nil_append]
    exact List.Nodup.sublist (List.Sublist.map _ (List.filter_sublist _)) hid
  · intro d hd
    simp only [List.map_nil, List.not_mem_nil, false_or]
    constructor
    · intro h y hy
      obtain ⟨e, he, hed⟩ := List.mem_map.1 h
      rw [List.mem_filter] at he
      have := eq_of_id_eq deps hid e d he.1 hd hed
      subst this
      have hs : e.dependencyIds.size = 0 := by simpa using he.2
      exact absurd hy ((size_eq_zero_iff _).1 hs y)
    · intro h
      refine List.mem_map.2 ⟨d, List.mem_filter.2 ⟨hd, ?_⟩, rfl⟩
      have : d.dependencyIds.size = 0 := (size_eq_zero_iff _).2 (fun y hy => h y hy)
      simpa using this
  · intro n hn; cases hn
  · intro n hn
    exact ⟨n, (List.mem_filter.1 hn).1, rfl⟩
  · intro i n hi
    simp at hi

/-- Partial correctness of the loop: a final state satisfies the invariant with an empty queue. -/
theorem sortLoop_inv (deps : List DependencyNode) (hid : (deps.map DependencyNode.id).Nodup)
    (fuel : Nat) : ∀ (st : SortState), SortInv deps st → ∀ (fin : SortState),
      sortLoop (deps.map (fun d => (d.id, d))) (_buildReverseDependencyMappings deps) fuel st
        = some fin → SortInv deps fin ∧ fin.recentlyResolvedDependencies = [] := by
  induction fuel with
  | zero =>
    intro st inv fin h
    unfold sortLoop at h
    cases hq : st.recentlyResolvedDependencies with
    | nil =>
      rw [hq] at h
      simp only [Option.some.injEq] at h
      subst h
      exact ⟨inv, hq⟩
    | cons cur rest =>
      rw [hq] at h
      simp at h
  | succ fuel ih =>
    intro st inv fin h
    unfold sortLoop at h
    cases hq : st.recentlyResolvedDependencies with
    | nil =>
      rw [hq] at h
      simp only [Option.some.injEq] at h
      subst h
      exact ⟨inv, hq⟩
    | cons cur rest =>
      rw [hq] at h
      simp only at h
      exact ih _ (SortInv.step deps hid st inv cur rest hq).1 fin h

theorem SortInv.length_le (deps : List DependencyNode) (st : SortState) (inv : SortInv deps st) :
    st.topologicallySortedNodes.length + st.recentlyResolvedDependencies.length
      ≤ deps.length := by
  have hsub : (st.topologicallySortedNodes.map DependencyNode.id
      ++ st.recentlyResolvedDependencies.map DependencyNode.id) ⊆ deps.map DependencyNode.id := by
    intro k hk
    rcases List.mem_append.1 hk with h | h
    · obtain ⟨n, hn, hnk⟩ := List.mem_map.1 h
      exact List.mem_map.2 ⟨n, inv.sortedMem n hn, hnk⟩
    · obtain ⟨n, hn, hnk⟩ := List.mem_map.1 h
      obtain ⟨d, hd, hdn⟩ := inv.queueMem n hn
      exact List.mem_map.2 ⟨d, hd, hdn.trans hnk⟩
  have := (List.subperm_of_subset inv.nodup hsub).length_le
  simpa using this

/-- Termination of the loop: as many iterations as there are nodes still unsorted suffice. -/
theorem sortLoop_terminates (deps : List DependencyNode)
    (hid : (deps.map DependencyNode.id).Nodup) (fuel : Nat) :
    ∀ (st : SortState), SortInv deps st →
      deps.length ≤ fuel + st.topologicallySortedNodes.length →
      ∃ fin, sortLoop (deps.map (fun d => (d.id, d))) (_buildReverseDependencyMappings deps)
        fuel st = some fin := by
  induction fuel with
  | zero =>
    intro st inv hlen
    unfold sortLoop
    have hle := SortInv.length_le deps st inv
    cases hq : st.recentlyResolvedDependencies with
    | nil => exact ⟨st, rfl⟩
    | cons cur rest =>
      rw [hq, List.length_cons] at hle
      omega
  | succ fuel ih =>
    intro st inv hlen
    unfold sortLoop
    cases hq : st.recentlyResolvedDependencies with
    | nil => exact ⟨st, rfl⟩
    | cons cur rest =>
      simp only
      obtain ⟨hinv, hl⟩ := SortInv.step deps hid st inv cur rest hq
      exact ih _ hinv (by rw [hl]; omega)

theorem mem_objKeys {α : Type} (o : JSObject α) (k : String) :
    k ∈ objKeys o ↔ k ∈ o.map Prod.fst := by
  unfold objKeys
  simp only [List.mem_append, (List.perm_insertionSort _ _).mem_iff, List.mem_filter]
  generalize o.map Prod.fst = ks
  by_cases h : isArrayIndex k = true <;> simp [h]

theorem objKeys_nodup {α : Type} (o : JSObject α) (h : (o.map Prod.fst).Nodup) :
    (objKeys o).Nodup := by
  unfold objKeys
  rw [List.nodup_append]
  refine ⟨(List.perm_insertionSort _ _).nodup_iff.2 (h.filter _), h.filter _, ?_⟩
  intro k hk1 hk2
  rw [(List.perm_insertionSort _ _).mem_iff, List.mem_filter] at hk1
  rw [List.mem_filter] at hk2
  have h1 := hk1.2
  have h2 := hk2.2
  simp [h1] at h2

theorem index_keys (deps : List DependencyNode) :
    (deps.map (fun d => (d.id, d))).map Prod.fst = deps.map DependencyNode.id := by
  rw [List.map_map]
  rfl

theorem topologicalSorting_unfold (fuel : Nat) (deps : List DependencyNode)
    (hid : (deps.map DependencyNode.id).Nodup) :
    _topologicalSorting fuel deps =
      (sortLoop (deps.map (fun d => (d.id, d))) (_buildReverseDependencyMappings deps) fuel
        ⟨deps.map (fun d => (d.id, d)), [],
          deps.filter (fun d => d.dependencyIds.size = 0)⟩).map
        (fun st => ⟨st.topologicallySortedNodes,
          ((objKeys (deps.map (fun d => (d.id, d)))).filter (fun id =>
            match objGet st.indexedDependencies id with
            | some node => decide (node.dependencyIds.size > 0)
            | none => false)).filterMap (fun id => objGet (deps.map (fun d => (d.id, d))) id)⟩) := by
  unfold _topologicalSorting
  have h1 := foldl_objSet_fresh (fun d => d) deps [] hid (by simp)
  have h2 := foldl_objSet_fresh
    (fun d => ({ id := d.id, dependencyIds := d.dependencyIds } : DependencyNode)) deps [] hid
    (by simp)
  simp only [List.nil_append] at h1 h2
  rw [h1]
  dsimp only
  generalize sortLoop (deps.map (fun d => (d.id, d))) (_buildReverseDependencyMappings deps) fuel
      ⟨deps.map (fun d => (d.id, d)), [],
        deps.filter (fun d => d.dependencyIds.size = 0)⟩ = res
  cases res <;> rfl

/-- Every result of the scheduler on a list with pairwise distinct ids satisfies `TopoFacts`. -/
theorem topo_facts (deps : List DependencyNode) (hid : (deps.map DependencyNode.id).Nodup)
    (fuel : Nat) (r : TopologicallySortedNodes) (h : _topologicalSorting fuel deps = some r) :
    TopoFacts deps r := by
  rw [topologicalSorting_unfold fuel deps hid, Option.map_eq_some'] at h
  obtain ⟨st, hloop, hr⟩ := h
  obtain ⟨inv, hq0⟩ := sortLoop_inv deps hid fuel _ (SortInv.init deps hid) st hloop
  subst hr
  have hmemO : ∀ d ∈ deps, d ∈ st.topologicallySortedNodes ↔
      d.id ∈ st.topologicallySortedNodes.map DependencyNode.id := by
    intro d hd
    constructor
    · intro h; exact List.mem_map_of_mem _ h
    · intro h
      obtain ⟨n, hn, hnd⟩ := List.mem_map.1 h
      have := eq_of_id_eq deps hid n d (inv.sortedMem n hn) hd hnd
      exact this ▸ hn
  have hready : ∀ d ∈ deps, d ∈ st.topologicallySortedNodes ↔
      ∀ y ∈ d.dependencyIds.elems, y ∈ st.topologicallySortedNodes.map DependencyNode.id := by
    intro d hd
    rw [hmemO d hd, ← inv.ready d hd, hq0]
    simp
  have hpos : ∀ d ∈ deps, (match objGet st.indexedDependencies d.id with
        | some node => decide (node.dependencyIds.size > 0)
        | none => false) = true ↔ d ∉ st.topologicallySortedNodes := by
    intro d hd
    obtain ⟨w, hw, _, hmem⟩ := inv.work d hd
    rw [hw, hready d hd]
    simp only [gt_iff_lt, decide_eq_true_eq]
    rw [Nat.pos_iff_ne_zero, Ne, size_eq_zero_iff]
    constructor
    · intro h1 h2
      apply h1
      intro y hy
      exact ((hmem y).1 hy).2 (h2 y ((hmem y).1 hy).1)
    · intro h1 h2
      apply h1
      intro y hy
      by_contra hc
      exact h2 y ((hmem y).2 ⟨hy, hc⟩)
  refine ⟨inv.sortedMem, ?_, hready, inv.order, ?_, ?_⟩
  · have := inv.nodup
    rw [hq0] at this
    simpa using this
  · intro d
    simp only
    rw [List.mem_filterMap]
    constructor
    · rintro ⟨k, hk, hget⟩
      obtain ⟨e, he, hek, hde⟩ := objGet_index_some (fun d => d) deps k d hget
      subst hde
      rw [List.mem_filter, ← hek] at hk
      exact ⟨he, (hpos d he).1 hk.2⟩
    · rintro ⟨hd, hns⟩
      refine ⟨d.id, List.mem_filter.2 ⟨?_, (hpos d hd).2 hns⟩,
        objGet_index_of_mem (fun d => d) deps hid d hd⟩
      rw [mem_objKeys, index_keys]
      exact List.mem_map_of_mem _ hd
  · simp only
    refine List.Nodup.filterMap ?_ (List.Nodup.filter _ (objKeys_nodup _ ?_))
    · intro a a2 b hb hb2
      obtain ⟨_, _, h1, h2⟩ := objGet_index_some (fun d => d) deps a b (by simpa using hb)
      obtain ⟨_, _, h3, h4⟩ := objGet_index_some (fun d => d) deps a2 b (by simpa using hb2)
      rw [← h1, ← h3, ← h2, ← h4]
    · rw [index_keys]
      exact hid

/-- The scheduler returns within as many loop iterations as there are nodes. -/
theorem topo_terminates (deps : List DependencyNode) (hid : (deps.map DependencyNode.id).Nodup)
    (fuel : Nat) (hfuel : deps.length ≤ fuel) : ∃ r, _topologicalSorting fuel deps = some r := by
  obtain ⟨fin, hfin⟩ := sortLoop_terminates deps hid fuel _ (SortInv.init deps hid)
    (by simpa using hfuel)
  rw [topologicalSorting_unfold fuel deps hid, hfin]
  exact ⟨_, rfl⟩

/-! ## Reachability in the dependency graph against the scheduler result -/

theorem TopoFacts.mem_iff_id (deps : List DependencyNode)
    (hid : (deps.map DependencyNode.id).Nodup) (r : TopologicallySortedNodes)
    (tf : TopoFacts deps r) (d : DependencyNode) (hd : d ∈ deps) :
    d ∈ r.topologicallySortedNodes ↔ d.id ∈ r.topologicallySortedNodes.map DependencyNode.id := by
  constructor
  · intro h; exact List.mem_map_of_mem _ h
  · intro h
    obtain ⟨n, hn, hnd⟩ := List.mem_map.1 h
    have := eq_of_id_eq deps hid n d (tf.sortedMem n hn) hd hnd
    exact this ▸ hn

theorem TopoFacts.step_index (deps : List DependencyNode)
    (hid : (deps.map DependencyNode.id).Nodup) (r : TopologicallySortedNodes)
    (tf : TopoFacts deps r) (i : Nat) (n : DependencyNode)
    (hi : r.topologicallySortedNodes[i]? = some n) (b : String)
    (h : DependsOn deps n.id b) :
    ∃ (j : Nat) (m : DependencyNode), j < i ∧ r.topologicallySortedNodes[j]? = some m ∧
      m.id = b := by
  obtain ⟨e, he, hen, hb⟩ := h
  have hn : n ∈ deps := tf.sortedMem n (List.getElem?_mem hi)
  have := eq_of_id_eq deps hid e n he hn hen
  subst this
  exact tf.order i e hi b hb

theorem TopoFacts.trans_index (deps : List DependencyNode)
    (hid : (deps.map DependencyNode.id).Nodup) (r : TopologicallySortedNodes)
    (tf : TopoFacts deps r) (a b : String) (h : Relation.TransGen (DependsOn deps) a b) :
    ∀ (i : Nat) (n : DependencyNode), r.topologicallySortedNodes[i]? = some n → n.id = a →
    ∃ (j : Nat) (m : DependencyNode), j < i ∧ r.topologicallySortedNodes[j]? = some m ∧
      m.id = b := by
  induction h with
  | single hab =>
    intro i n hi hna
    exact TopoFacts.step_index deps hid r tf i n hi _ (hna ▸ hab)
  | tail _ hcb ih =>
    intro i n hi hna
    obtain ⟨j, m, hj, hm, hmc⟩ := ih i n hi hna
    obtain ⟨j2, m2, hj2, hm2, hmb⟩ := TopoFacts.step_index deps hid r tf j m hm _ (hmc ▸ hcb)
    exact ⟨j2, m2, lt_trans hj2 hj, hm2, hmb⟩

theorem TopoFacts.index_unique (deps : List DependencyNode) (r : TopologicallySortedNodes)
    (tf : TopoFacts deps r) (i j : Nat) (n m : DependencyNode)
    (hi : r.topologicallySortedNodes[i]? = some n)
    (hj : r.topologicallySortedNodes[j]? = some m) (h : n.id = m.id) : i = j := by
  have hlt : i < (r.topologicallySortedNodes.map DependencyNode.id).length := by
    rw [List.length_map]
    exact (List.getElem?_eq_some.1 hi).1
  apply List.getElem?_inj hlt tf.sortedNodup
  rw [List.getElem?_map, List.getElem?_map, hi, hj]
  simp [h]

/-- A sorted node reaches only sorted nodes, none on a cycle and none with a dangling id. -/
theorem TopoFacts.not_blocked (deps : List DependencyNode)
    (hid : (deps.map DependencyNode.id).Nodup) (r : TopologicallySortedNodes)
    (tf : TopoFacts deps r) (d : DependencyNode) (hd : d ∈ r.topologicallySortedNodes) :
    ¬ Blocked deps d.id := by
  have hall : ∀ m, Relation.ReflTransGen (DependsOn deps) d.id m →
      m ∈ r.topologicallySortedNodes.map DependencyNode.id := by
    intro m hreach
    induction hreach with
    | refl => exact List.mem_map_of_mem _ hd
    | tail _ hcb ih =>
      obtain ⟨e, he, hec, hb⟩ := hcb
      have hes : e ∈ r.topologicallySortedNodes :=
        (TopoFacts.mem_iff_id deps hid r tf e he).2 (hec ▸ ih)
      exact (tf.ready e he).1 hes _ hb
  rintro ⟨m, hreach, hm⟩
  have hmO := hall m hreach
  obtain ⟨n, hn, hnm⟩ := List.mem_map.1 hmO
  rcases hm with hcyc | hdang
  · obtain ⟨i, hi, hin⟩ := List.getElem_of_mem hn
    have hi2 : r.topologicallySortedNodes[i]? = some n := by
      rw [List.getElem?_eq_getElem hi, hin]
    obtain ⟨j, k, hj, hk, hkm⟩ := TopoFacts.trans_index deps hid r tf m m hcyc i n hi2 hnm
    have := TopoFacts.index_unique deps r tf i j n k hi2 hk (hnm.trans hkm.symm)
    omega
  · obtain ⟨e, he, hem, y, hy, hyn⟩ := hdang
    have hen := eq_of_id_eq deps hid e n he (tf.sortedMem n hn) (hem.trans hnm.symm)
    subst hen
    apply hyn
    obtain ⟨k, hk, hky⟩ := List.mem_map.1 ((tf.ready e he).1 hn y hy)
    exact List.mem_map.2 ⟨k, tf.sortedMem k hk, hky⟩

/-- A node that reaches no cycle and no dangling id is sorted. -/
theorem TopoFacts.sorted_of_not_blocked (deps : List DependencyNode)
    (hid : (deps.map DependencyNode.id).Nodup) (r : TopologicallySortedNodes)
    (tf : TopoFacts deps r) (d : DependencyNode) (hd : d ∈ deps) (h : ¬ Blocked deps d.id) :
    d ∈ r.topologicallySortedNodes := by
  have hSids : ∀ m, Relation.ReflTransGen (DependsOn deps) d.id m →
      m ∈ deps.map DependencyNode.id := by
    intro m hm
    induction hm with
    | refl => exact List.mem_map_of_mem _ hd
    | tail hac hcb _ =>
      obtain ⟨e, he, hec, hb⟩ := hcb
      by_contra hnot
      exact h ⟨_, hac, Or.inr ⟨e, he, hec, _, hb, hnot⟩⟩
  have hfin : Finite {m // Relation.ReflTransGen (DependsOn deps) d.id m} :=
    Set.Finite.to_subtype
      (Set.Finite.subset (List.finite_toSet (deps.map DependencyNode.id)) hSids)
  have htrans : IsTrans {m // Relation.ReflTransGen (DependsOn deps) d.id m}
      (fun a b => Relation.TransGen (DependsOn deps) b.1 a.1) :=
    ⟨fun _ _ _ hab hbc => Relation.TransGen.trans hbc hab⟩
  have hirrefl : IsIrrefl {m // Relation.ReflTransGen (DependsOn deps) d.id m}
      (fun a b => Relation.TransGen (DependsOn deps) b.1 a.1) :=
    ⟨fun a ha => h ⟨a.1, a.2, Or.inl ha⟩⟩
  have wf : WellFounded (fun (a b : {m // Relation.ReflTransGen (DependsOn deps) d.id m}) =>
      Relation.TransGen (DependsOn deps) b.1 a.1) :=
    Finite.wellFounded_of_trans_of_irrefl _
  have key : ∀ a : {m // Relation.ReflTransGen (DependsOn deps) d.id m},
      a.1 ∈ r.topologicallySortedNodes.map DependencyNode.id := by
    intro a
    induction a using wf.induction with
    | _ a ih =>
      obtain ⟨n, hn, hna⟩ := List.mem_map.1 (hSids a.1 a.2)
      have hs : n ∈ r.topologicallySortedNodes :=
        (tf.ready n hn).2 (fun y hy =>
          ih ⟨y, Relation.ReflTransGen.tail a.2 ⟨n, hn, hna, hy⟩⟩
            (Relation.TransGen.single ⟨n, hn, hna, hy⟩))
      rw [← hna]
      exact List.mem_map_of_mem _ hs
  exact (TopoFacts.mem_iff_id deps hid r tf d hd).2 (key ⟨d.id, Relation.ReflTransGen.refl⟩)

/-- The residual nodes are exactly the input nodes that reach a cycle or a dangling id. -/
theorem TopoFacts.residual_iff_blocked (deps : List DependencyNode)
    (hid : (deps.map DependencyNode.id).Nodup) (r : TopologicallySortedNodes)
    (tf : TopoFacts deps r) (d : DependencyNode) (hd : d ∈ deps) :
    d ∈ r.recursiveNodes ↔ Blocked deps d.id := by
  rw [tf.residual]
  constructor
  · rintro ⟨_, hns⟩
    by_contra hb
    exact hns (TopoFacts.sorted_of_not_blocked deps hid r tf d hd hb)
  · intro hb
    exact ⟨hd, fun hs => TopoFacts.not_blocked deps hid r tf d hs hb⟩

theorem acyclic_of_rank (nodes : List DependencyNode) (rank : String → Nat)
    (h : ∀ n ∈ nodes, ∀ y ∈ n.dependencyIds.elems, rank y < rank n.id) : Acyclic nodes := by
  have hlt : ∀ a b, Relation.TransGen (DependsOn nodes) a b → rank b < rank a := by
    intro a b hab
    induction hab with
    | single hab =>
      obtain ⟨n, hn, hna, hb⟩ := hab
      exact hna ▸ h n hn _ hb
    | tail _ hcb ih =>
      obtain ⟨n, hn, hna, hb⟩ := hcb
      exact lt_trans (hna ▸ h n hn _ hb) ih
  intro a ha
  exact lt_irrefl _ (hlt a a ha)

/-! ## Claims about the topological scheduler -/

theorem TopoFacts.perm (deps : List DependencyNode) (hid : (deps.map DependencyNode.id).Nodup)
    (r : TopologicallySortedNodes) (tf : TopoFacts deps r) :
    List.Perm (r.topologicallySortedNodes ++ r.recursiveNodes) deps := by
  have hs : r.topologicallySortedNodes.Nodup := List.Nodup.of_map _ tf.sortedNodup
  rw [List.perm_ext_iff_of_nodup _ (List.Nodup.of_map _ hid)]
  · intro a
    rw [List.mem_append, tf.residual]
    constructor
    · rintro (h | h)
      · exact tf.sortedMem a h
      · exact h.1
    · intro h
      by_cases hs : a ∈ r.topologicallySortedNodes
      · exact Or.inl hs
      · exact Or.inr ⟨h, hs⟩
  · rw [List.nodup_append]
    refine ⟨hs, tf.residualNodup, ?_⟩
    intro a h1 h2
    exact ((tf.residual a).1 h2).2 h1

/-- C1: on a list of nodes with pairwise distinct ids the scheduler returns, and in its result
every node of `topologicallySortedNodes` stands at a strictly greater index than each of its
dependencies that is itself in `topologicallySortedNodes`. -/
theorem C1_sorted_after_dependencies (nodes : List DependencyNode)
    (hid : (nodes.map DependencyNode.id).Nodup) (fuel : Nat) (hfuel : nodes.length ≤ fuel) :
    ∃ r, _topologicalSorting fuel nodes = some r ∧
      ∀ (i j : Nat) (n m : DependencyNode),
        r.topologicallySortedNodes[i]? = some n → r.topologicallySortedNodes[j]? = some m →
        m.id ∈ n.dependencyIds.elems → j < i := by
  obtain ⟨r, hr⟩ := topo_terminates nodes hid fuel hfuel
  have tf := topo_facts nodes hid fuel r hr
  refine ⟨r, hr, ?_⟩
  intro i j n m hi hj hdep
  obtain ⟨j2, m2, hj2, hm2, hid2⟩ := tf.order i n hi m.id hdep
  have := TopoFacts.index_unique nodes r tf j2 j m2 m hm2 hj hid2
  omega

/-- C1 at the chain `c -> b -> a`. -/
theorem C1_sorted_after_dependencies_witness :
    (chainNodes.map DependencyNode.id).Nodup ∧ chainNodes.length ≤ 3 ∧
    ∃ r, _topologicalSorting 3 chainNodes = some r ∧
      ∀ (i j : Nat) (n m : DependencyNode),
        r.topologicallySortedNodes[i]? = some n → r.topologicallySortedNodes[j]? = some m →
        m.id ∈ n.dependencyIds.elems → j < i :=
  ⟨by decide, by decide, C1_sorted_after_dependencies chainNodes (by decide) 3 (by decide)⟩

/-- On a list of nodes with pairwise distinct ids, none of them the name of a property
inherited from `Object.prototype`, the scheduler returns a partition of the input: no node is
both sorted and residual, every input node occurs exactly once in the two lists together, the
two lists together are a rearrangement of the input, and the sorted list holds exactly the
input nodes that are not residual. -/
theorem sorted_residual_partition (nodes : List DependencyNode)
    (hid : (nodes.map DependencyNode.id).Nodup) (_ : PlainIds nodes) (fuel : Nat)
    (hfuel : nodes.length ≤ fuel) :
    ∃ r, _topologicalSorting fuel nodes = some r ∧
      (∀ n, ¬ (n ∈ r.topologicallySortedNodes ∧ n ∈ r.recursiveNodes)) ∧
      (∀ n ∈ nodes, r.topologicallySortedNodes.count n + r.recursiveNodes.count n = 1) ∧
      List.Perm (r.topologicallySortedNodes ++ r.recursiveNodes) nodes ∧
      (∀ n, n ∈ r.topologicallySortedNodes ↔ n ∈ nodes ∧ n ∉ r.recursiveNodes) := by
  obtain ⟨r, hr⟩ := topo_terminates nodes hid fuel hfuel
  have tf := topo_facts nodes hid fuel r hr
  have hperm := TopoFacts.perm nodes hid r tf
  refine ⟨r, hr, ?_, ?_, hperm, ?_⟩
  · rintro n ⟨h1, h2⟩
    exact ((tf.residual n).1 h2).2 h1
  · intro n hn
    rw [← List.count_append, hperm.count_eq]
    exact List.count_eq_one_of_mem (List.Nodup.of_map _ hid) hn
  · intro n
    rw [tf.residual]
    constructor
    · intro h
      exact ⟨tf.sortedMem n h, fun h2 => h2.2 h⟩
    · rintro ⟨h1, h2⟩
      by_contra h3
      exact h2 ⟨h1, h3⟩

/-- The partition at a list with a self-referencing node, a leaf and a dependent of both. -/
theorem sorted_residual_partition_example :
    (cycleNodes.map DependencyNode.id).Nodup ∧ PlainIds cycleNodes ∧ cycleNodes.length ≤ 3 ∧
    ∃ r, _topologicalSorting 3 cycleNodes = some r ∧
      (∀ n, ¬ (n ∈ r.topologicallySortedNodes ∧ n ∈ r.recursiveNodes)) ∧
      (∀ n ∈ cycleNodes, r.topologicallySortedNodes.count n + r.recursiveNodes.count n = 1) ∧
      List.Perm (r.topologicallySortedNodes ++ r.recursiveNodes) cycleNodes ∧
      (∀ n, n ∈ r.topologicallySortedNodes ↔ n ∈ cycleNodes ∧ n ∉ r.recursiveNodes) :=
  ⟨by decide, by decide, by decide,
    sorted_residual_partition cycleNodes (by decide) (by decide) 3 (by decide)⟩

/-- On a list of nodes with pairwise distinct ids, none of them the name of a property
inherited from `Object.prototype`, whose dependency ids all name nodes of the list and whose
dependency graph has no cycle, the scheduler returns an empty residual list and a sorted list
that is a rearrangement of the whole input in which every dependency of every node stands at a
strictly smaller index than the node. -/
theorem acyclic_all_sorted (nodes : List DependencyNode)
    (hid : (nodes.map DependencyNode.id).Nodup) (_ : PlainIds nodes)
    (hclosed : ∀ n ∈ nodes, ∀ y ∈ n.dependencyIds.elems, y ∈ nodes.map DependencyNode.id)
    (hacyclic : Acyclic nodes) (fuel : Nat) (hfuel : nodes.length ≤ fuel) :
    ∃ r, _topologicalSorting fuel nodes = some r ∧
      r.recursiveNodes = [] ∧
      List.Perm r.topologicallySortedNodes nodes ∧
      ∀ (i : Nat) (n : DependencyNode), r.topologicallySortedNodes[i]? = some n →
        ∀ y ∈ n.dependencyIds.elems, ∃ (j : Nat) (m : DependencyNode), j < i ∧
          r.topologicallySortedNodes[j]? = some m ∧ m.id = y := by
  obtain ⟨r, hr⟩ := topo_terminates nodes hid fuel hfuel
  have tf := topo_facts nodes hid fuel r hr
  have hnil : r.recursiveNodes = [] := by
    rw [List.eq_nil_iff_forall_not_mem]
    intro d hd
    have hdn : d ∈ nodes := ((tf.residual d).1 hd).1
    obtain ⟨m, _, hm⟩ := (TopoFacts.residual_iff_blocked nodes hid r tf d hdn).1 hd
    rcases hm with hc | hdang
    · exact hacyclic m hc
    · obtain ⟨e, he, _, y, hy, hyn⟩ := hdang
      exact hyn (hclosed e he y hy)
  have hperm := TopoFacts.perm nodes hid r tf
  rw [hnil, List.append_nil] at hperm
  exact ⟨r, hr, hnil, hperm, tf.order⟩

/-- The chain `c -> b -> a` is sorted as a whole. -/
theorem acyclic_all_sorted_example :
    (chainNodes.map DependencyNode.id).Nodup ∧ PlainIds chainNodes ∧
    (∀ n ∈ chainNodes, ∀ y ∈ n.dependencyIds.elems, y ∈ chainNodes.map DependencyNode.id) ∧
    Acyclic chainNodes ∧ chainNodes.length ≤ 3 ∧
    ∃ r, _topologicalSorting 3 chainNodes = some r ∧
      r.recursiveNodes = [] ∧
      List.Perm r.topologicallySortedNodes chainNodes ∧
      ∀ (i : Nat) (n : DependencyNode), r.topologicallySortedNodes[i]? = some n →
        ∀ y ∈ n.dependencyIds.elems, ∃ (j : Nat) (m : DependencyNode), j < i ∧
          r.topologicallySortedNodes[j]? = some m ∧ m.id = y :=
  have hrank : Acyclic chainNodes :=
    acyclic_of_rank chainNodes (fun s => if s = "a" then 0 else if s = "b" then 1 else 2)
      (by decide)
  ⟨by decide, by decide, by decide, hrank, by decide,
    acyclic_all_sorted chainNodes (by decide) (by decide) (by decide) hrank 3 (by decide)⟩

theorem danglingNodes_edge (a b : String) :
    DependsOn danglingNodes a b ↔ (a = "A" ∧ b = "A") ∨ (a = "B" ∧ b = "ghost") := by
  unfold DependsOn danglingNodes
  constructor
  · rintro ⟨n, hn, hna, hb⟩
    simp only [List.mem_cons, List.mem_singleton, List.not_mem_nil, or_false] at hn
    rcases hn with rfl | rfl
    · left
      simp only [List.mem_singleton] at hb
      exact ⟨hna.symm, hb⟩
    · right
      simp only [List.mem_singleton] at hb
      exact ⟨hna.symm, hb⟩
  · rintro (⟨rfl, rfl⟩ | ⟨rfl, rfl⟩)
    · exact ⟨⟨"A", ⟨["A"], by decide⟩⟩, by simp, rfl, by simp⟩
    · exact ⟨⟨"B", ⟨["ghost"], by decide⟩⟩, by simp, rfl, by simp⟩

theorem danglingNodes_from_ghost (m : String)
    (h : Relation.ReflTransGen (DependsOn danglingNodes) "ghost" m) : m = "ghost" := by
  induction h with
  | refl => rfl
  | tail _ hcb ih =>
    subst ih
    rw [danglingNodes_edge] at hcb
    rcases hcb with ⟨h1, _⟩ | ⟨h1, _⟩
    · exact absurd h1 (by decide)
    · exact absurd h1 (by decide)

/-- C4 fails as stated: in `danglingNodes` the node `A` lists itself, the node `B` is on no cycle
and reaches no cycle member, and still `B` is returned as residual and the sorted list is
empty. -/
theorem C4_counterexample :
    (danglingNodes.map DependencyNode.id).Nodup ∧
    OnCycle danglingNodes "A" ∧
    ¬ OnCycle danglingNodes "B" ∧
    (¬ ∃ m, Relation.TransGen (DependsOn danglingNodes) "B" m ∧ OnCycle danglingNodes m) ∧
    _topologicalSorting 2 danglingNodes
      = some ⟨[], [⟨"A", ⟨["A"], by decide⟩⟩, ⟨"B", ⟨["ghost"], by decide⟩⟩]⟩ := by
  have hB : ∀ m, Relation.TransGen (DependsOn danglingNodes) "B" m → m = "ghost" := by
    intro m hm
    rw [Relation.TransGen.head'_iff] at hm
    obtain ⟨b, hb, hbm⟩ := hm
    rw [danglingNodes_edge] at hb
    rcases hb with ⟨h1, _⟩ | ⟨_, h2⟩
    · exact absurd h1 (by decide)
    · subst h2
      exact danglingNodes_from_ghost m hbm
  refine ⟨by decide, ?_, ?_, ?_, by decide⟩
  · exact Relation.TransGen.single ((danglingNodes_edge "A" "A").2 (Or.inl ⟨rfl, rfl⟩))
  · intro h
    exact absurd (hB "B" h) (by decide)
  · rintro ⟨m, hm, hc⟩
    have := hB m hm
    subst this
    unfold OnCycle at hc
    rw [Relation.TransGen.head'_iff] at hc
    obtain ⟨b, hb, _⟩ := hc
    rw [danglingNodes_edge] at hb
    rcases hb with ⟨h1, _⟩ | ⟨h1, _⟩
    · exact absurd h1 (by decide)
    · exact absurd h1 (by decide)

/-- C4 (P2) as amended: on a list of nodes with pairwise distinct ids, no node id and no
dependency id being the name of a property that plain objects inherit from `Object.prototype`
(`PlainIds`, the lists on which the id-keyed plain objects of the source are own-property
maps), the scheduler returns, and a node of the list is residual exactly when some node
reachable from it along dependency edges (itself included) lies on a cycle or lists a
dependency id that names no node of the list; the sorted list holds exactly the other nodes.
In particular every node on a cycle and every node that transitively depends on a cycle member
is residual. -/
theorem C4_residual_iff_blocked (nodes : List DependencyNode)
    (hid : (nodes.map DependencyNode.id).Nodup) (_ : PlainIds nodes) (fuel : Nat)
    (hfuel : nodes.length ≤ fuel) :
    ∃ r, _topologicalSorting fuel nodes = some r ∧
      ∀ n ∈ nodes,
        (n ∈ r.recursiveNodes ↔ Blocked nodes n.id) ∧
        (n ∈ r.topologicallySortedNodes ↔ ¬ Blocked nodes n.id) ∧
        (OnCycle nodes n.id → n ∈ r.recursiveNodes) ∧
        ((∃ m, Relation.TransGen (DependsOn nodes) n.id m ∧ OnCycle nodes m) →
          n ∈ r.recursiveNodes) := by
  obtain ⟨r, hr⟩ := topo_terminates nodes hid fuel hfuel
  have tf := topo_facts nodes hid fuel r hr
  refine ⟨r, hr, ?_⟩
  intro n hn
  have hres := TopoFacts.residual_iff_blocked nodes hid r tf n hn
  refine ⟨hres, ?_, ?_, ?_⟩
  · rw [← hres, tf.residual]
    constructor
    · intro h h2
      exact h2.2 h
    · intro h
      by_contra h2
      exact h ⟨hn, h2⟩
  · intro hc
    exact hres.2 ⟨n.id, Relation.ReflTransGen.refl, Or.inl hc⟩
  · rintro ⟨m, hm, hc⟩
    exact hres.2 ⟨m, hm.to_reflTransGen, Or.inl hc⟩

/-- C4 as amended, at a list with a self-referencing node, a leaf and a dependent of both. -/
theorem C4_residual_iff_blocked_witness :
    (cycleNodes.map DependencyNode.id).Nodup ∧ PlainIds cycleNodes ∧ cycleNodes.length ≤ 3 ∧
    ∃ r, _topologicalSorting 3 cycleNodes = some r ∧
      ∀ n ∈ cycleNodes,
        (n ∈ r.recursiveNodes ↔ Blocked cycleNodes n.id) ∧
        (n ∈ r.topologicallySortedNodes ↔ ¬ Blocked cycleNodes n.id) ∧
        (OnCycle cycleNodes n.id → n ∈ r.recursiveNodes) ∧
        ((∃ m, Relation.TransGen (DependsOn cycleNodes) n.id m ∧ OnCycle cycleNodes m) →
          n ∈ r.recursiveNodes) :=
  ⟨by decide, by decide, by decide,
    C4_residual_iff_blocked cycleNodes (by decide) (by decide) 3 (by decide)⟩

/-! ## Decimal digits -/

theorem digitChar_facts : ∀ d, d < 10 →
    (Nat.digitChar d).isDigit = true ∧ (Nat.digitChar d).toNat - 48 = d ∧
      Nat.digitChar d ≠ '-' := by
  decide

theorem toDigitsCore_append (n : Nat) : ∀ (f1 f2 : Nat) (ds : List Char), n < f1 → n < f2 →
    Nat.toDigitsCore 10 f1 n ds = Nat.toDigitsCore 10 f2 n [] ++ ds := by
  induction n using Nat.strong_induction_on with
  | _ n ih =>
    intro f1 f2 ds h1 h2
    cases f1 with
    | zero => omega
    | succ f1 =>
      cases f2 with
      | zero => omega
      | succ f2 =>
        simp only [Nat.toDigitsCore]
        by_cases h0 : n / 10 = 0
        · simp [h0]
        · rw [if_neg h0, if_neg h0]
          have hlt : n / 10 < n := Nat.div_lt_self (by omega) (by decide)
          rw [ih (n / 10) hlt f1 f2 _ (by omega) (by omega),
            ih (n / 10) hlt f2 f2 [Nat.digitChar (n % 10)] (by omega) (by omega)]
          simp

theorem toDigits_small (n : Nat) (h : n < 10) : Nat.toDigits 10 n = [Nat.digitChar n] := by
  unfold Nat.toDigits
  simp only [Nat.toDigitsCore]
  have h0 : n / 10 = 0 := Nat.div_eq_of_lt h
  rw [if_pos h0, Nat.mod_eq_of_lt h]

theorem toDigits_step (n : Nat) (h : 10 ≤ n) :
    Nat.toDigits 10 n = Nat.toDigits 10 (n / 10) ++ [Nat.digitChar (n % 10)] := by
  unfold Nat.toDigits
  simp only [Nat.toDigitsCore]
  have h0 : ¬ n / 10 = 0 := by
    intro h0
    have := (Nat.div_eq_zero_iff (by decide : 0 < 10)).1 h0
    omega
  rw [if_neg h0]
  have hlt : n / 10 < n := Nat.div_lt_self (by omega) (by decide)
  exact toDigitsCore_append (n / 10) n (n / 10 + 1) _ hlt (by omega)

theorem digitsValue_snoc (l : List Char) (c : Char) :
    digitsValue (l ++ [c]) = 10 * digitsValue l + (c.toNat - 48) := by
  unfold digitsValue
  rw [List.foldl_append]
  rfl

/-- Reading back the decimal digits of `n` gives `n`; all of them are digits. -/
theorem toDigits_spec (n : Nat) :
    digitsValue (Nat.toDigits 10 n) = n ∧
      (∀ ch ∈ Nat.toDigits 10 n, ch.isDigit = true ∧ ch ≠ '-') ∧ Nat.toDigits 10 n ≠ [] := by
  induction n using Nat.strong_induction_on with
  | _ n ih =>
    by_cases h : n < 10
    · rw [toDigits_small n h]
      obtain ⟨h1, h2, h3⟩ := digitChar_facts n h
      refine ⟨?_, ?_, by simp⟩
      · simpa [digitsValue] using h2
      · intro ch hch
        rw [List.mem_singleton] at hch
        subst hch
        exact ⟨h1, h3⟩
    · have h10 : 10 ≤ n := by omega
      rw [toDigits_step n h10]
      obtain ⟨ih1, ih2, _⟩ := ih (n / 10) (Nat.div_lt_self (by omega) (by decide))
      obtain ⟨h1, h2, h3⟩ := digitChar_facts (n % 10) (Nat.mod_lt _ (by decide))
      refine ⟨?_, ?_, by simp⟩
      · rw [digitsValue_snoc, ih1, h2]
        omega
      · intro ch hch
        rcases List.mem_append.1 hch with hc | hc
        · exact ih2 ch hc
        · rw [List.mem_singleton] at hc
          subst hc
          exact ⟨h1, h3⟩

theorem toDigits_injective (a b : Nat) (h : Nat.toDigits 10 a = Nat.toDigits 10 b) : a = b := by
  rw [← (toDigits_spec a).1, ← (toDigits_spec b).1, h]

theorem split_at_last {α : Type} (c : α) (x x2 y y2 : List α) (hy : c ∉ y) (hy2 : c ∉ y2)
    (h : x ++ c :: y = x2 ++ c :: y2) : x = x2 ∧ y = y2 := by
  induction x generalizing x2 with
  | nil =>
    cases x2 with
    | nil => simpa using h
    | cons b t =>
      simp only [List.nil_append, List.cons_append, List.cons.injEq] at h
      exact absurd (h.2 ▸ (by simp : c ∈ t ++ c :: y2)) hy
  | cons a t ih =>
    cases x2 with
    | nil =>
      simp only [List.nil_append, List.cons_append, List.cons.injEq] at h
      exact absurd (h.2 ▸ (by simp : c ∈ t ++ c :: y)) hy2
    | cons b t2 =>
      simp only [List.cons_append, List.cons.injEq] at h
      obtain ⟨h1, h2⟩ := ih t2 h.2
      exact ⟨by rw [h.1, h1], h2⟩

/-! ## Claim about the cell identity -/

theorem hashCellAddress_data (a : CellAddress) :
    (_hashCellAddress a).data =
      ((templateText a.sheet).data ++ '-' :: Nat.toDigits 10 a.row)
        ++ '-' :: Nat.toDigits 10 a.col := by
  unfold _hashCellAddress decimal
  simp [String.data_append]

theorem hashCellAddress_injective (a b : CellAddress)
    (h : _hashCellAddress a = _hashCellAddress b) :
    templateText a.sheet = templateText b.sheet ∧ a.row = b.row ∧ a.col = b.col := by
  have hd := congrArg String.data h
  rw [hashCellAddress_data, hashCellAddress_data] at hd
  obtain ⟨h1, h2⟩ := split_at_last '-' _ _ _ _
    (fun hm => ((toDigits_spec a.col).2.1 _ hm).2 rfl)
    (fun hm => ((toDigits_spec b.col).2.1 _ hm).2 rfl) hd
  obtain ⟨h3, h4⟩ := split_at_last '-' _ _ _ _
    (fun hm => ((toDigits_spec a.row).2.1 _ hm).2 rfl)
    (fun hm => ((toDigits_spec b.row).2.1 _ hm).2 rfl) h1
  exact ⟨String.ext h3, toDigits_injective _ _ h4, toDigits_injective _ _ h2⟩

/-- C5: the cell identity is injective: two addresses with sheet names `s1`, `s2` (arbitrary
strings) and rows and columns that are natural numbers, the positive ones among them, that have
the same `_hashCellAddress` have the same sheet, row and column. -/
theorem C5_hashCellAddress_injective (s1 s2 : String) (r1 c1 r2 c2 : Nat)
    (h : _hashCellAddress { sheet := some s1, row := r1, col := c1 }
      = _hashCellAddress { sheet := some s2, row := r2, col := c2 }) :
    s1 = s2 ∧ r1 = r2 ∧ c1 = c2 := by
  obtain ⟨h1, h2, h3⟩ := hashCellAddress_injective _ _ h
  exact ⟨h1, h2, h3⟩

/-- C5 at `Sheet1`, row 3, column 2. -/
theorem C5_hashCellAddress_injective_witness :
    _hashCellAddress { sheet := some "Sheet1", row := 3, col := 2 } = "Sheet1-3-2" ∧
    ("Sheet1" = "Sheet1" ∧ 3 = 3 ∧ 2 = 2) :=
  ⟨by decide, C5_hashCellAddress_injective "Sheet1" "Sheet1" 3 2 3 2 rfl⟩

/-! ## Claim about the column-letter address -/

theorem letterChar_facts : ∀ k, k < 26 →
    (Char.ofNat (k + 65)).toNat - 64 = k + 1 ∧ (Char.ofNat (k + 65)).isUpper = true ∧
      (Char.ofNat (k + 65)).isDigit = false := by
  decide

theorem lettersValue_snoc (l : List Char) (c : Char) :
    lettersValue (l ++ [c]) = 26 * lettersValue l + (c.toNat - 64) := by
  unfold lettersValue
  rw [List.foldl_append]
  rfl

/-- The loop of `_rowColToA1` run with enough fuel puts before the accumulator the zero-free
base-26 numeral of `c`. -/
theorem columnLetters_spec (fuel : Nat) : ∀ (c : Nat) (acc : List Char), c ≤ fuel →
    ∃ L, columnLetters fuel c acc = L ++ acc ∧ lettersValue L = c ∧
      (∀ ch ∈ L, ch.isUpper = true ∧ ch.isDigit = false) ∧ (0 < c → L ≠ []) := by
  induction fuel with
  | zero =>
    intro c acc hc
    have : c = 0 := by omega
    subst this
    exact ⟨[], rfl, rfl, by simp, by simp⟩
  | succ fuel ih =>
    intro c acc hc
    unfold columnLetters
    by_cases h0 : c > 0
    · rw [if_pos h0]
      obtain ⟨L, hL, hv, hall, _⟩ := ih ((c - 1) / 26)
        (Char.ofNat ((c - 1) % 26 + 65) :: acc) (by omega)
      obtain ⟨h1, h2, h3⟩ := letterChar_facts ((c - 1) % 26) (Nat.mod_lt _ (by decide))
      refine ⟨L ++ [Char.ofNat ((c - 1) % 26 + 65)], by rw [hL]; simp, ?_, ?_, by simp⟩
      · rw [lettersValue_snoc, hv, h1]
        omega
      · intro ch hch
        rcases List.mem_append.1 hch with hc2 | hc2
        · exact hall ch hc2
        · rw [List.mem_singleton] at hc2
          subst hc2
          exact ⟨h2, h3⟩
    · rw [if_neg h0]
      have : c = 0 := by omega
      subst this
      exact ⟨[], rfl, rfl, by simp, by simp⟩

theorem split_by_class (p : Char → Bool) (L : List Char) : ∀ (L2 D D2 : List Char),
    (∀ ch ∈ L, p ch = false) → (∀ ch ∈ L2, p ch = false) →
    (∀ ch ∈ D, p ch = true) → (∀ ch ∈ D2, p ch = true) →
    L ++ D = L2 ++ D2 → L = L2 ∧ D = D2 := by
  induction L with
  | nil =>
    intro L2 D D2 _ hL2 hD _ h
    cases L2 with
    | nil => exact ⟨rfl, by simpa using h⟩
    | cons b t =>
      rw [List.nil_append] at h
      have hb : p b = true := hD b (h ▸ (by simp))
      rw [hL2 b (List.mem_cons_self _ _)] at hb
      cases hb
  | cons a t ih =>
    intro L2 D D2 hL hL2 hD hD2 h
    cases L2 with
    | nil =>
      rw [List.nil_append] at h
      have ha : p a = true := hD2 a (h ▸ (by simp))
      rw [hL a (List.mem_cons_self _ _)] at ha
      cases ha
    | cons b t2 =>
      simp only [List.cons_append, List.cons.injEq] at h
      obtain ⟨h1, h2⟩ := ih t2 D D2 (fun ch hch => hL ch (List.mem_cons_of_mem _ hch))
        (fun ch hch => hL2 ch (List.mem_cons_of_mem _ hch)) hD hD2 h.2
      exact ⟨by rw [h.1, h1], h2⟩

theorem rowColToA1_parts (row col : Nat) :
    ∃ letters : List Char,
      (_rowColToA1 row col).data = letters ++ Nat.toDigits 10 row ∧
      lettersValue letters = col ∧
      (∀ ch ∈ letters, ch.isUpper = true ∧ ch.isDigit = false) ∧ (0 < col → letters ≠ []) := by
  obtain ⟨L, hL, hv, hall, hne⟩ := columnLetters_spec col col [] (le_refl _)
  refine ⟨L, ?_, hv, hall, hne⟩
  unfold _rowColToA1 decimal
  rw [String.data_append, hL]
  simp

/-- C6: for `1 ≤ col ≤ 16384` and `1 ≤ row ≤ 1048576` the text `_rowColToA1 row col` is a
non-empty run of letters `A`..`Z` followed by the decimal digits of `row`; the letters read as a
zero-free base-26 numeral give `col` and the digits give `row`; column 26 is `Z` and column 27
is `AA`; and the mapping is injective on that domain. -/
theorem C6_rowColToA1_inverts (row col : Nat) (hcol : 1 ≤ col) (_hcolMax : col ≤ 16384)
    (_hrow : 1 ≤ row) (_hrowMax : row ≤ 1048576) :
    ∃ letters digits : List Char,
      (_rowColToA1 row col).data = letters ++ digits ∧
      letters ≠ [] ∧ (∀ ch ∈ letters, ch.isUpper = true) ∧
      digits = (decimal row).data ∧ digits ≠ [] ∧ (∀ ch ∈ digits, ch.isDigit = true) ∧
      lettersValue letters = col ∧ digitsValue digits = row ∧
      (col = 26 → letters = ['Z']) ∧ (col = 27 → letters = ['A', 'A']) ∧
      ∀ row2 col2 : Nat, 1 ≤ col2 → col2 ≤ 16384 → 1 ≤ row2 → row2 ≤ 1048576 →
        _rowColToA1 row col = _rowColToA1 row2 col2 → row = row2 ∧ col = col2 := by
  obtain ⟨L, hL, hv, hall, hne⟩ := rowColToA1_parts row col
  obtain ⟨hd1, hd2, hd3⟩ := toDigits_spec row
  refine ⟨L, Nat.toDigits 10 row, hL, hne hcol, fun ch hch => (hall ch hch).1, rfl, hd3,
    fun ch hch => (hd2 ch hch).1, hv, hd1, ?_, ?_, ?_⟩
  · intro h26
    subst h26
    have h2 : (_rowColToA1 row 26).data = ['Z'] ++ Nat.toDigits 10 row := by
      unfold _rowColToA1 decimal
      rw [String.data_append]
      rfl
    rw [hL] at h2
    exact (split_by_class Char.isDigit L ['Z'] _ _ (fun ch hch => (hall ch hch).2)
      (by decide) (fun ch hch => (hd2 ch hch).1) (fun ch hch => (hd2 ch hch).1) h2).1
  · intro h27
    subst h27
    have h2 : (_rowColToA1 row 27).data = ['A', 'A'] ++ Nat.toDigits 10 row := by
      unfold _rowColToA1 decimal
      rw [String.data_append]
      rfl
    rw [hL] at h2
    exact (split_by_class Char.isDigit L ['A', 'A'] _ _ (fun ch hch => (hall ch hch).2)
      (by decide) (fun ch hch => (hd2 ch hch).1) (fun ch hch => (hd2 ch hch).1) h2).1
  · intro row2 col2 _ _ _ _ heq
    obtain ⟨L2, hL2, hv2, hall2, _⟩ := rowColToA1_parts row2 col2
    obtain ⟨_, he2, _⟩ := toDigits_spec row2
    have hdata := congrArg String.data heq
    rw [hL, hL2] at hdata
    obtain ⟨h1, h2⟩ := split_by_class Char.isDigit L L2 _ _ (fun ch hch => (hall ch hch).2)
      (fun ch hch => (hall2 ch hch).2) (fun ch hch => (hd2 ch hch).1)
      (fun ch hch => (he2 ch hch).1) hdata
    exact ⟨toDigits_injective _ _ h2, by rw [← hv, ← hv2, h1]⟩

/-- C6 at the last cell of the sheet, `XFD1048576`. -/
theorem C6_rowColToA1_inverts_witness :
    1 ≤ 16384 ∧ 16384 ≤ 16384 ∧ 1 ≤ 1048576 ∧ 1048576 ≤ 1048576 ∧
    ∃ letters digits : List Char,
      (_rowColToA1 1048576 16384).data = letters ++ digits ∧
      letters ≠ [] ∧ (∀ ch ∈ letters, ch.isUpper = true) ∧
      digits = (decimal 1048576).data ∧ digits ≠ [] ∧ (∀ ch ∈ digits, ch.isDigit = true) ∧
      lettersValue letters = 16384 ∧ digitsValue digits = 1048576 ∧
      (16384 = 26 → letters = ['Z']) ∧ (16384 = 27 → letters = ['A', 'A']) ∧
      ∀ row2 col2 : Nat, 1 ≤ col2 → col2 ≤ 16384 → 1 ≤ row2 → row2 ≤ 1048576 →
        _rowColToA1 1048576 16384 = _rowColToA1 row2 col2 → 1048576 = row2 ∧ 16384 = col2 :=
  ⟨by decide, by decide, by decide, by decide,
    C6_rowColToA1_inverts 1048576 16384 (by decide) (by decide) (by decide) (by decide)⟩

/-! ## Claims about range expansion -/

theorem grid_length {β : Type} (rows cols : List Nat) (g : Nat → Nat → β) :
    (rows.flatMap (fun r => cols.map (g r))).length = rows.length * cols.length := by
  induction rows with
  | nil => simp
  | cons r rs ih =>
    rw [List.flatMap_cons, List.length_append, ih, List.length_map, List.length_cons]
    ring

theorem grid_getElem? {β : Type} (rows cols : List Nat) (g : Nat → Nat → β)
    (hpos : 0 < cols.length) : ∀ k : Nat,
    (rows.flatMap (fun r => cols.map (g r)))[k]?
      = (rows[k / cols.length]?).bind (fun r => (cols[k % cols.length]?).map (g r)) := by
  induction rows with
  | nil => intro k; simp
  | cons r rs ih =>
    intro k
    rw [List.flatMap_cons, List.getElem?_append, List.length_map]
    by_cases hk : k < cols.length
    · rw [if_pos hk, Nat.div_eq_of_lt hk, Nat.mod_eq_of_lt hk]
      simp
    · rw [if_neg hk, ih]
      have hle : cols.length ≤ k := by omega
      have h1 : k / cols.length = (k - cols.length) / cols.length + 1 := by
        rw [Nat.div_eq_sub_div hpos hle]
      have h2 : k % cols.length = (k - cols.length) % cols.length :=
        Nat.mod_eq_sub_mod hle
      rw [h1, h2]
      simp

theorem totalCells_cast (reference : DepParserRangeReference)
    (hrow : reference.from_.row ≤ reference.to_.row)
    (hcol : reference.from_.col ≤ reference.to_.col) :
    totalCells reference
      = (((reference.to_.row - reference.from_.row + 1)
          * (reference.to_.col - reference.from_.col + 1) : Nat) : Int) := by
  unfold totalCells
  push_cast [Nat.cast_sub hrow, Nat.cast_sub hcol]
  ring

theorem convertRange_small (reference : DepParserRangeReference)
    (cellIndex : Option CellIndex) (h : ¬ totalCells reference > MAX_RANGE_SIZE) :
    _convertRangeToCellAddresses reference cellIndex
      = (forRange reference.from_.row reference.to_.row).flatMap (fun row =>
          (forRange reference.from_.col reference.to_.col).map (fun col =>
            ({ row := row, col := col, sheet := reference.sheet } : CellAddress))) := by
  unfold totalCells at h
  unfold _convertRangeToCellAddresses
  cases cellIndex with
  | none => simp only [if_neg h]
  | some index => simp only [if_neg h]

/-- C8: for a range with `from.row ≤ to.row`, `from.col ≤ to.col` and at most 1000 cells (1000
included), with or without a cell index, `_convertRangeToCellAddresses` returns exactly `total`
addresses, the one at position `k` being row `from.row + k / width`, column
`from.col + k % width` on the range's sheet: the whole rectangle, each cell once, in row-major
order. -/
theorem C8_small_range_materialized (reference : DepParserRangeReference)
    (cellIndex : Option CellIndex)
    (hrow : reference.from_.row ≤ reference.to_.row)
    (hcol : reference.from_.col ≤ reference.to_.col)
    (htotal : (reference.to_.row - reference.from_.row + 1)
      * (reference.to_.col - reference.from_.col + 1) ≤ 1000) :
    (_convertRangeToCellAddresses reference cellIndex).length
        = (reference.to_.row - reference.from_.row + 1)
          * (reference.to_.col - reference.from_.col + 1) ∧
      (∀ k, k < (reference.to_.row - reference.from_.row + 1)
          * (reference.to_.col - reference.from_.col + 1) →
        (_convertRangeToCellAddresses reference cellIndex)[k]?
          = some { row := reference.from_.row
                     + k / (reference.to_.col - reference.from_.col + 1),
                   col := reference.from_.col
                     + k % (reference.to_.col - reference.from_.col + 1),
                   sheet := reference.sheet }) ∧
      (_convertRangeToCellAddresses reference cellIndex).Nodup ∧
      (∀ a : CellAddress, a ∈ _convertRangeToCellAddresses reference cellIndex ↔
        a.sheet = reference.sheet ∧
          reference.from_.row ≤ a.row ∧ a.row ≤ reference.to_.row ∧
          reference.from_.col ≤ a.col ∧ a.col ≤ reference.to_.col) := by
  have hsmall : ¬ totalCells reference > MAX_RANGE_SIZE := by
    rw [totalCells_cast reference hrow hcol]
    unfold MAX_RANGE_SIZE
    have : (((reference.to_.row - reference.from_.row + 1)
        * (reference.to_.col - reference.from_.col + 1) : Nat) : Int) ≤ 1000 := by
      exact_mod_cast htotal
    omega
  rw [convertRange_small reference cellIndex hsmall]
  have hrl : (forRange reference.from_.row reference.to_.row).length
      = reference.to_.row - reference.from_.row + 1 := by
    unfold forRange
    rw [List.length_range']
    omega
  have hcl : (forRange reference.from_.col reference.to_.col).length
      = reference.to_.col - reference.from_.col + 1 := by
    unfold forRange
    rw [List.length_range']
    omega
  refine ⟨?_, ?_, ?_, ?_⟩
  · rw [grid_length, hrl, hcl]
  · intro k hk
    rw [grid_getElem? _ _ _ (by rw [hcl]; omega), hcl]
    have hdiv : k / (reference.to_.col - reference.from_.col + 1)
        < reference.to_.row + 1 - reference.from_.row := by
      have := (Nat.div_lt_iff_lt_mul (by omega : 0 < reference.to_.col
        - reference.from_.col + 1)).2 hk
      omega
    have hmod : k % (reference.to_.col - reference.from_.col + 1)
        < reference.to_.col + 1 - reference.from_.col := by
      have := Nat.mod_lt k (by omega : reference.to_.col - reference.from_.col + 1 > 0)
      omega
    unfold forRange
    rw [List.getElem?_range' _ _ hdiv, List.getElem?_range' _ _ hmod]
    simp
  · rw [List.nodup_flatMap]
    constructor
    · intro row _
      refine List.Nodup.map ?_ (List.nodup_range' _ _)
      intro a b hab
      exact congrArg CellAddress.col hab
    · refine List.Pairwise.imp ?_ (List.nodup_range' reference.from_.row _)
      intro a b hab
      simp only [Function.onFun]
      intro x hx1 hx2
      obtain ⟨_, _, h1⟩ := List.mem_map.1 hx1
      obtain ⟨_, _, h2⟩ := List.mem_map.1 hx2
      exact hab ((congrArg CellAddress.row h1).trans (congrArg CellAddress.row h2).symm)
  · intro a
    unfold forRange
    simp only [List.mem_flatMap, List.mem_map, List.mem_range'_1]
    constructor
    · rintro ⟨row, hr, col, hc, rfl⟩
      refine ⟨rfl, ?_, ?_, ?_, ?_⟩ <;> simp only <;> omega
    · rintro ⟨hs, h1, h2, h3, h4⟩
      refine ⟨a.row, by omega, a.col, by omega, ?_⟩
      cases a
      simp only at hs
      rw [hs]

/-- C8 at a range of 2 rows by 3 columns, without a cell index. -/
theorem C8_small_range_materialized_witness :
    smallRange.from_.row ≤ smallRange.to_.row ∧ smallRange.from_.col ≤ smallRange.to_.col ∧
    (smallRange.to_.row - smallRange.from_.row + 1)
      * (smallRange.to_.col - smallRange.from_.col + 1) ≤ 1000 ∧
    _convertRangeToCellAddresses smallRange none
      = [⟨4, 2, some "S"⟩, ⟨4, 3, some "S"⟩, ⟨4, 4, some "S"⟩,
         ⟨5, 2, some "S"⟩, ⟨5, 3, some "S"⟩, ⟨5, 4, some "S"⟩] ∧
    (_convertRangeToCellAddresses smallRange none).length
      = (smallRange.to_.row - smallRange.from_.row + 1)
        * (smallRange.to_.col - smallRange.from_.col + 1) :=
  ⟨by decide, by decide, by decide, by decide,
    (C8_small_range_materialized smallRange none (by decide) (by decide) (by decide)).1⟩

theorem convertRange_large (reference : DepParserRangeReference) (index : CellIndex)
    (h : totalCells reference > MAX_RANGE_SIZE) :
    _convertRangeToCellAddresses reference (some index)
      = match mapGet index reference.sheet with
        | none => []
        | some sheetIndex =>
          (forRange reference.from_.col reference.to_.col).flatMap (fun col =>
            match mapGet sheetIndex col with
            | none => []
            | some rowsInCol =>
              (rowsInCol.elems.filter (fun row =>
                decide (row ≥ reference.from_.row) && decide (row ≤ reference.to_.row))).map
                (fun row => ({ row := row, col := col, sheet := reference.sheet }
                  : CellAddress))) := by
  unfold totalCells at h
  unfold _convertRangeToCellAddresses
  simp only [if_pos h]

theorem convertRange_large_none (reference : DepParserRangeReference)
    (h : totalCells reference > MAX_RANGE_SIZE) :
    _convertRangeToCellAddresses reference none = [] := by
  unfold totalCells at h
  unfold _convertRangeToCellAddresses
  simp only [if_pos h]

theorem mem_sparse_column (reference : DepParserRangeReference)
    (sheetIndex : JSMap Nat (JSSet Nat)) (col : Nat) (a : CellAddress) :
    a ∈ (match mapGet sheetIndex col with
        | none => []
        | some rowsInCol =>
          (rowsInCol.elems.filter (fun row =>
            decide (row ≥ reference.from_.row) && decide (row ≤ reference.to_.row))).map
            (fun row => ({ row := row, col := col, sheet := reference.sheet } : CellAddress)))
      ↔ a.sheet = reference.sheet ∧ a.col = col ∧
        reference.from_.row ≤ a.row ∧ a.row ≤ reference.to_.row ∧
        ∃ rows, mapGet sheetIndex col = some rows ∧ a.row ∈ rows.elems := by
  cases hget : mapGet sheetIndex col with
  | none => simp
  | some rows =>
    simp only [List.mem_map, List.mem_filter, Bool.and_eq_true, decide_eq_true_eq,
      Option.some.injEq, exists_eq_left']
    constructor
    · rintro ⟨row, ⟨hmem, h1, h2⟩, rfl⟩
      exact ⟨rfl, rfl, h1, h2, hmem⟩
    · rintro ⟨hs, hc, h1, h2, hmem⟩
      refine ⟨a.row, ⟨hmem, h1, h2⟩, ?_⟩
      cases a
      simp only at hs hc
      rw [hs, hc]

theorem sparse_expansion_spec (reference : DepParserRangeReference) (index : CellIndex)
    (hlarge : totalCells reference > MAX_RANGE_SIZE) :
    (∀ a : CellAddress, a ∈ _convertRangeToCellAddresses reference (some index) ↔
      a.sheet = reference.sheet ∧
        reference.from_.col ≤ a.col ∧ a.col ≤ reference.to_.col ∧
        reference.from_.row ≤ a.row ∧ a.row ≤ reference.to_.row ∧
        indexHas index reference.sheet a.col a.row) ∧
      (_convertRangeToCellAddresses reference (some index)).Nodup := by
  rw [convertRange_large reference index hlarge]
  unfold indexHas
  cases hsheet : mapGet index reference.sheet with
  | none => simp
  | some sheetIndex =>
    simp only
    constructor
    · intro a
      rw [List.mem_flatMap]
      constructor
      · rintro ⟨col, hcol, ha⟩
        obtain ⟨hs, hc, h1, h2, rows, hrows, hmem⟩ :=
          (mem_sparse_column reference sheetIndex col a).1 ha
        unfold forRange at hcol
        rw [List.mem_range'_1] at hcol
        refine ⟨hs, by omega, by omega, h1, h2, sheetIndex, rows, rfl, hc ▸ hrows, hmem⟩
      · rintro ⟨hs, hc1, hc2, h1, h2, si, rows, hsi, hrows, hmem⟩
        rw [Option.some.injEq] at hsi
        subst hsi
        refine ⟨a.col, ?_, (mem_sparse_column reference sheetIndex a.col a).2
          ⟨hs, rfl, h1, h2, rows, hrows, hmem⟩⟩
        unfold forRange
        rw [List.mem_range'_1]
        omega
    · rw [List.nodup_flatMap]
      constructor
      · intro col _
        cases mapGet sheetIndex col with
        | none => simp
        | some rows =>
          refine List.Nodup.map ?_ (List.Nodup.filter _ rows.nodup)
          intro x y hxy
          exact congrArg CellAddress.row hxy
      · refine List.Pairwise.imp ?_ (List.nodup_range' reference.from_.col _)
        intro c1 c2 hne
        simp only [Function.onFun]
        intro x hx1 hx2
        have h1 := ((mem_sparse_column reference sheetIndex c1 x).1 hx1).2.1
        have h2 := ((mem_sparse_column reference sheetIndex c2 x).1 hx2).2.1
        exact hne (h1.symm.trans h2)

/-- C9: for a range of more than 1000 cells and any sparse cell index, the addresses returned
by `_convertRangeToCellAddresses` are exactly the cells of the rectangle that the index records
as populated on the range's sheet (column within `from.col..to.col`, row within
`from.row..to.row`, row in `index[sheet][col]`), each returned once. -/
theorem C9_large_range_sparse (reference : DepParserRangeReference) (index : CellIndex)
    (hlarge : totalCells reference > 1000) :
    (∀ a : CellAddress, a ∈ _convertRangeToCellAddresses reference (some index) ↔
      a.sheet = reference.sheet ∧
        reference.from_.col ≤ a.col ∧ a.col ≤ reference.to_.col ∧
        reference.from_.row ≤ a.row ∧ a.row ≤ reference.to_.row ∧
        indexHas index reference.sheet a.col a.row) ∧
      (_convertRangeToCellAddresses reference (some index)).Nodup :=
  sparse_expansion_spec reference index hlarge

/-- C9 at a range of 1001 rows by 2 columns with three populated rows in column 2, one of them
outside the range. -/
theorem C9_large_range_sparse_witness :
    totalCells largeRange > 1000 ∧
    _convertRangeToCellAddresses largeRange (some sparseIndex)
      = [⟨5, 2, some "S"⟩, ⟨7, 2, some "S"⟩] ∧
    (_convertRangeToCellAddresses largeRange (some sparseIndex)).Nodup :=
  ⟨by decide, by decide, (C9_large_range_sparse largeRange sparseIndex (by decide)).2⟩

/-! ## Claims about the reference normalizer -/

theorem foldl_push_eq_flatMap {α β : Type} (f : α → List β) (l : List α) (acc : List β) :
    l.foldl (fun result x => result ++ f x) acc = acc ++ l.flatMap f := by
  induction l generalizing acc with
  | nil => simp
  | cons x l ih =>
    rw [List.foldl_cons, ih, List.flatMap_cons, List.append_assoc]

/-- The ids of a reference list are the ids of its references, one reference after the other. -/
theorem convertIds_eq_flatMap (references : List DepParserReference)
    (defaultSheet : Option String) (cellIndex : Option CellIndex) :
    _convertDepParserReferenceToId references defaultSheet cellIndex
      = references.flatMap (referenceIds defaultSheet cellIndex) := by
  unfold _convertDepParserReferenceToId
  by_cases h : references.length = 0
  · rw [if_pos h, List.length_eq_zero.1 h]
    rfl
  · rw [if_neg h, foldl_push_eq_flatMap, List.nil_append]

theorem convertIds_range (rangeReference : DepParserRangeReference)
    (defaultSheet : Option String) (cellIndex : Option CellIndex) :
    _convertDepParserReferenceToId [DepParserReference.range rangeReference] defaultSheet
        cellIndex
      = (_convertRangeToCellAddresses
          { rangeReference with sheet := inheritSheet rangeReference.sheet defaultSheet }
          cellIndex).map _hashCellAddress := by
  rw [convertIds_eq_flatMap]
  simp [referenceIds, _getDepParserType]

/-- C10 (P5): a range reference of more than 1000 cells, wherever it stands in the reference
list, contributes to `_convertDepParserReferenceToId` only identities of cells of its rectangle
(on its own sheet, or on the default sheet when it has none) that the sparse index records as
populated, and contributes no id at all when no index is supplied; the function returns in
both cases. -/
theorem C10_large_range_capped (before after : List DepParserReference)
    (rangeReference : DepParserRangeReference) (defaultSheet : Option String)
    (cellIndex : Option CellIndex) (hlarge : totalCells rangeReference > 1000) :
    _convertDepParserReferenceToId
        (before ++ DepParserReference.range rangeReference :: after) defaultSheet cellIndex
      = _convertDepParserReferenceToId before defaultSheet cellIndex
        ++ _convertDepParserReferenceToId [DepParserReference.range rangeReference]
            defaultSheet cellIndex
        ++ _convertDepParserReferenceToId after defaultSheet cellIndex ∧
    (cellIndex = none →
      _convertDepParserReferenceToId [DepParserReference.range rangeReference]
        defaultSheet cellIndex = []) ∧
    (∀ index, cellIndex = some index →
      ∀ id ∈ _convertDepParserReferenceToId [DepParserReference.range rangeReference]
          defaultSheet cellIndex,
        ∃ a : CellAddress, id = _hashCellAddress a ∧
          a.sheet = inheritSheet rangeReference.sheet defaultSheet ∧
          rangeReference.from_.col ≤ a.col ∧ a.col ≤ rangeReference.to_.col ∧
          rangeReference.from_.row ≤ a.row ∧ a.row ≤ rangeReference.to_.row ∧
          indexHas index (inheritSheet rangeReference.sheet defaultSheet) a.col a.row) := by
  have hlarge2 : totalCells
      { rangeReference with sheet := inheritSheet rangeReference.sheet defaultSheet }
      > MAX_RANGE_SIZE := hlarge
  refine ⟨?_, ?_, ?_⟩
  · simp only [convertIds_eq_flatMap, List.flatMap_append, List.flatMap_cons,
      List.flatMap_nil, List.append_nil, List.append_assoc]
  · intro hnone
    rw [convertIds_range, hnone, convertRange_large_none _ hlarge2]
    rfl
  · intro index hsome id hid
    rw [convertIds_range, hsome] at hid
    obtain ⟨a, ha, rfl⟩ := List.mem_map.1 hid
    exact ⟨a, rfl, ((sparse_expansion_spec _ index hlarge2).1 a).1 ha⟩

/-- C10 at a range of 1001 rows by 2 columns without a sheet, between a cell reference and a
variable reference, with default sheet `S`: with the sample index two ids, without index none. -/
theorem C10_large_range_capped_witness :
    totalCells { largeRange with sheet := none } > 1000 ∧
    _convertDepParserReferenceToId
        [DepParserReference.range { largeRange with sheet := none }] (some "S")
        (some sparseIndex) = ["S-5-2", "S-7-2"] ∧
    _convertDepParserReferenceToId
        [DepParserReference.range { largeRange with sheet := none }] (some "S") none = [] :=
  ⟨by decide, by decide,
    (C10_large_range_capped [DepParserReference.cell ⟨1, 1, none⟩]
      [DepParserReference.var "Rate"] { largeRange with sheet := none } (some "S") none
      (by decide)).2.1 rfl⟩

/-! ## Sets, maps and the sparse cell index -/

theorem JSSet.mem_add {α : Type} [DecidableEq α] (s : JSSet α) (x y : α) :
    y ∈ (s.add x).elems ↔ y ∈ s.elems ∨ y = x := by
  unfold JSSet.add
  by_cases h : x ∈ s.elems
  · rw [dif_pos h]
    constructor
    · intro hy; exact Or.inl hy
    · rintro (hy | hy)
      · exact hy
      · exact hy ▸ h
  · rw [dif_neg h]
    simp

theorem JSSet.mem_foldl_add {α : Type} [DecidableEq α] (l : List α) (s : JSSet α) (y : α) :
    y ∈ (l.foldl JSSet.add s).elems ↔ y ∈ s.elems ∨ y ∈ l := by
  induction l generalizing s with
  | nil => simp
  | cons x l ih =>
    rw [List.foldl_cons, ih, JSSet.mem_add, List.mem_cons]
    tauto

theorem JSSet.mem_ofList {α : Type} [DecidableEq α] (l : List α) (y : α) :
    y ∈ (JSSet.ofList l).elems ↔ y ∈ l := by
  unfold JSSet.ofList
  rw [JSSet.mem_foldl_add]
  simp [JSSet.empty]

theorem mapGet_cons {κ ν : Type} [DecidableEq κ] (a : κ) (b : ν) (m : JSMap κ ν) (k : κ) :
    mapGet ((a, b) :: m) k = if a = k then some b else mapGet m k := by
  unfold mapGet
  by_cases h : a = k <;> simp [List.find?_cons, h]

theorem mapGet_append_new {κ ν : Type} [DecidableEq κ] (m : JSMap κ ν) (k k2 : κ) (v : ν)
    (h : mapGet m k = none) :
    mapGet (m ++ [(k, v)]) k2 = if k2 = k then some v else mapGet m k2 := by
  induction m with
  | nil =>
    rw [List.nil_append, mapGet_cons]
    by_cases hk : k = k2
    · simp [hk]
    · have hk2 : ¬ k2 = k := fun e => hk e.symm
      simp [hk, hk2, mapGet]
  | cons p m ih =>
    obtain ⟨a, b⟩ := p
    rw [mapGet_cons] at h
    by_cases ha : a = k
    · simp [ha] at h
    · rw [if_neg ha] at h
      rw [List.cons_append, mapGet_cons, mapGet_cons, ih h]
      by_cases h2 : a = k2
      · have : ¬ k2 = k := fun e => ha (h2.trans e)
        simp [h2, this]
      · simp [h2]

theorem mapGet_map_update {κ ν : Type} [DecidableEq κ] (m : JSMap κ ν) (k k2 : κ) (v : ν) :
    mapGet (m.map (fun p => if p.1 = k then (k, v) else p)) k2
      = if k2 = k then (mapGet m k).map (fun _ => v) else mapGet m k2 := by
  induction m with
  | nil => simp [mapGet]
  | cons p m ih =>
    obtain ⟨a, b⟩ := p
    rw [List.map_cons]
    by_cases ha : a = k
    · simp only [ha, if_true]
      rw [mapGet_cons, mapGet_cons, mapGet_cons]
      by_cases h2 : k2 = k
      · simp [h2]
      · have : ¬ k = k2 := fun e => h2 e.symm
        simp [h2, this, ih]
    · simp only [ha, if_false]
      rw [mapGet_cons, mapGet_cons, ih]
      by_cases h2 : k2 = k
      · have : ¬ a = k2 := fun e => ha (e.trans h2)
        have h3 : ¬ a = k := ha
        rw [mapGet_cons]
        simp [h2, h3]
      · simp [h2, mapGet_cons]

/-- Reading a map after `set`: the written key holds the new value, the others are unchanged. -/
theorem mapGet_mapSet {κ ν : Type} [DecidableEq κ] (m : JSMap κ ν) (k k2 : κ) (v : ν) :
    mapGet (mapSet m k v) k2 = if k2 = k then some v else mapGet m k2 := by
  unfold mapSet
  cases h : mapGet m k with
  | none =>
    simp only [Option.isSome_none, Bool.false_eq_true, if_false]
    exact mapGet_append_new m k k2 v h
  | some w =>
    simp only [Option.isSome_some, if_true]
    rw [mapGet_map_update, h]
    simp

theorem mapGet_ensure {κ ν : Type} [DecidableEq κ] (m : JSMap κ ν) (k k2 : κ) (v : ν) :
    mapGet (if (mapGet m k).isSome then m else mapSet m k v) k2
      = if k2 = k then some ((mapGet m k).getD v) else mapGet m k2 := by
  cases h : mapGet m k with
  | none =>
    simp only [Option.isSome_none, Bool.false_eq_true, if_false, Option.getD_none]
    exact mapGet_mapSet m k k2 v
  | some w =>
    simp only [Option.isSome_some, if_true, Option.getD_some]
    by_cases h2 : k2 = k
    · rw [if_pos h2, h2, h]
    · rw [if_neg h2]

theorem indexHas_iff_lookup (index : CellIndex) (sheet : Option String) (col row : Nat) :
    indexHas index sheet col row ↔
      ∃ rows, (mapGet index sheet).bind (fun si => mapGet si col) = some rows ∧
        row ∈ rows.elems := by
  unfold indexHas
  constructor
  · rintro ⟨si, rows, h1, h2, h3⟩
    exact ⟨rows, by rw [h1]; exact h2, h3⟩
  · rintro ⟨rows, h, h3⟩
    obtain ⟨si, h1, h2⟩ := Option.bind_eq_some.1 h
    exact ⟨si, rows, h1, h2, h3⟩

theorem indexCell_lookup (index : CellIndex) (cell : CellData) (sheet : Option String)
    (col : Nat) :
    (mapGet (indexCell index cell) sheet).bind (fun si => mapGet si col)
      = if sheet = cell.address.sheet ∧ col = cell.address.col then
          some ((((mapGet index cell.address.sheet).bind
            (fun si => mapGet si cell.address.col)).getD JSSet.empty).add cell.address.row)
        else (mapGet index sheet).bind (fun si => mapGet si col) := by
  unfold indexCell
  simp only [mapGet_mapSet, mapGet_ensure]
  by_cases hs : sheet = cell.address.sheet
  · rw [if_pos hs]
    simp only [Option.some_bind, mapGet_mapSet, mapGet_ensure, if_true, Option.getD_some]
    by_cases hc : col = cell.address.col
    · rw [if_pos hc, if_pos ⟨hs, hc⟩]
      cases h1 : mapGet index cell.address.sheet with
      | none => simp [mapGet]
      | some si => simp
    · rw [if_neg hc, if_neg hc, if_neg (fun h => hc h.2), hs]
      cases h1 : mapGet index cell.address.sheet with
      | none => simp [mapGet]
      | some si => simp
  · simp [hs]

/-- What one pass of the index loop records: what was recorded before, and the cell's own
row in the cell's own column and sheet. -/
theorem indexHas_indexCell (index : CellIndex) (cell : CellData) (sheet : Option String)
    (col row : Nat) :
    indexHas (indexCell index cell) sheet col row ↔
      indexHas index sheet col row ∨
        (sheet = cell.address.sheet ∧ col = cell.address.col ∧ row = cell.address.row) := by
  rw [indexHas_iff_lookup, indexHas_iff_lookup, indexCell_lookup]
  by_cases h : sheet = cell.address.sheet ∧ col = cell.address.col
  · rw [if_pos h, h.1, h.2]
    simp only [Option.some.injEq, exists_eq_left', JSSet.mem_add, true_and]
    cases h1 : mapGet index cell.address.sheet with
    | none => simp [JSSet.empty]
    | some si =>
      cases h2 : mapGet si cell.address.col with
      | none => simp [h2, JSSet.empty]
      | some rows => simp [h2]
  · rw [if_neg h]
    constructor
    · intro h2; exact Or.inl h2
    · rintro (h2 | ⟨h2, h3, _⟩)
      · exact h2
      · exact absurd ⟨h2, h3⟩ h

/-- The sparse index built from the cells records exactly the population of the cell list. -/
theorem indexHas_buildCellIndex (cells : List CellData) (sheet : Option String)
    (col row : Nat) :
    indexHas (buildCellIndex cells) sheet col row ↔
      ∃ cell ∈ cells, cell.address = { row := row, col := col, sheet := sheet } := by
  have hfold : ∀ (cells : List CellData) (index : CellIndex),
      indexHas (cells.foldl indexCell index) sheet col row ↔
        indexHas index sheet col row ∨
          ∃ cell ∈ cells, cell.address = { row := row, col := col, sheet := sheet } := by
    intro cells
    induction cells with
    | nil => intro index; simp
    | cons cell cells ih =>
      intro index
      rw [List.foldl_cons, ih, indexHas_indexCell]
      have hcell : (sheet = cell.address.sheet ∧ col = cell.address.col
          ∧ row = cell.address.row) ↔
          cell.address = { row := row, col := col, sheet := sheet } := by
        constructor
        · rintro ⟨h1, h2, h3⟩
          cases hca : cell.address
          rw [hca] at h1 h2 h3
          simp only at h1 h2 h3
          rw [h1, h2, h3]
        · intro h
          rw [h]
          exact ⟨rfl, rfl, rfl⟩
      rw [hcell]
      simp only [List.mem_cons, exists_eq_or_imp]
      tauto
  unfold buildCellIndex
  rw [hfold]
  simp [indexHas, mapGet]

/-! ## Claim about the ids of the dependency graph builder -/

theorem createNode_deps (parser : DepParser) (id formula : String) (row col : Nat)
    (sheet : Option String) (cellIndex : Option CellIndex) (x : String)
    (hx : x ∈ (_createDependencyNodeWithFormula parser id formula row col sheet
      cellIndex).dependencyIds.elems) :
    ∃ references reference,
      parser (stripEquals formula) (orOne row) (orOne col) = some references ∧
      reference ∈ references ∧ x ∈ referenceIds sheet cellIndex reference := by
  unfold _createDependencyNodeWithFormula at hx
  cases hp : parser (stripEquals formula) (orOne row) (orOne col) with
  | none =>
    rw [hp] at hx
    simp [JSSet.empty] at hx
  | some references =>
    rw [hp] at hx
    simp only [JSSet.mem_ofList, convertIds_eq_flatMap, List.mem_flatMap] at hx
    obtain ⟨reference, hr, hxr⟩ := hx
    exact ⟨references, reference, rfl, hr, hxr⟩

theorem referenceIds_large_range (cells : List CellData) (defaultSheet : Option String)
    (r : DepParserRangeReference) (id : String) (hlarge : totalCells r > 1000)
    (hid : id ∈ referenceIds defaultSheet (some (buildCellIndex cells))
      (DepParserReference.range r)) :
    ∃ cell ∈ cells, _hashCellAddress cell.address = id := by
  have hlarge2 : totalCells { r with sheet := inheritSheet r.sheet defaultSheet }
      > MAX_RANGE_SIZE := hlarge
  simp only [referenceIds, _getDepParserType, List.mem_map] at hid
  obtain ⟨a, ha, rfl⟩ := hid
  obtain ⟨hs, _, _, _, _, hidx⟩ := ((sparse_expansion_spec _ _ hlarge2).1 a).1 ha
  obtain ⟨cell, hcell, haddr⟩ := (indexHas_buildCellIndex cells _ _ _).1 hidx
  refine ⟨cell, hcell, ?_⟩
  rw [haddr]
  cases a
  simp only at hs
  rw [hs]

/-- C7 fails as stated: the formula cell A2 = `=A1` of a workbook with no cell A1 and no
variable gets the dependency id `Sheet1-1-1`, which is the id of no cell and the name of no
variable of the workbook. -/
theorem C7_counterexample :
    buildDependencies sampleDepParser [cellA2] []
      = [⟨"Sheet1-2-1", ⟨["Sheet1-1-1"], by decide⟩⟩] ∧
    "Sheet1-1-1" ∉ [cellA2].map (fun cell => _hashCellAddress cell.address) ∧
    "Sheet1-1-1" ∉ ([] : List VariableData).map VariableData.name := by
  decide

theorem createNode_deps_iff (parser : DepParser) (id formula : String) (row col : Nat)
    (sheet : Option String) (cellIndex : Option CellIndex)
    (references : List DepParserReference)
    (hp : parser (stripEquals formula) (orOne row) (orOne col) = some references)
    (x : String) :
    x ∈ (_createDependencyNodeWithFormula parser id formula row col sheet
        cellIndex).dependencyIds.elems
      ↔ ∃ reference ∈ references, x ∈ referenceIds sheet cellIndex reference := by
  unfold _createDependencyNodeWithFormula
  rw [hp]
  simp only [JSSet.mem_ofList, convertIds_eq_flatMap, List.mem_flatMap]

theorem referenceIds_small_range (defaultSheet : Option String) (cellIndex : Option CellIndex)
    (r : DepParserRangeReference) (hsmall : totalCells r ≤ 1000) (id : String) :
    id ∈ referenceIds defaultSheet cellIndex (DepParserReference.range r)
      ↔ ∃ row col, r.from_.row ≤ row ∧ row ≤ r.to_.row ∧ r.from_.col ≤ col ∧ col ≤ r.to_.col ∧
          id = _hashCellAddress
            { row := row, col := col, sheet := inheritSheet r.sheet defaultSheet } := by
  have hsmall2 : ¬ totalCells { r with sheet := inheritSheet r.sheet defaultSheet }
      > MAX_RANGE_SIZE := by
    have h : ¬ totalCells r > 1000 := by omega
    exact h
  simp only [referenceIds, _getDepParserType, convertRange_small _ cellIndex hsmall2,
    List.mem_map, List.mem_flatMap, forRange, List.mem_range'_1]
  constructor
  · rintro ⟨a, ⟨row, hr, col, hc, rfl⟩, rfl⟩
    exact ⟨row, col, by omega, by omega, by omega, by omega, rfl⟩
  · rintro ⟨row, col, h1, h2, h3, h4, rfl⟩
    exact ⟨_, ⟨row, by omega, col, by omega, rfl⟩, rfl⟩

/-- C7 as amended.  For a formula cell (respectively a variable with a formula) of the workbook
for which the extractor, called with the cell's own formula text and position (respectively the
variable's formula text and position 1, 1), returns the list `references`, the dependency ids
of its node are exactly the ids that the reference normalizer derives from the members of
`references` under the cell's own sheet (respectively no sheet) and the builder's sparse index;
a node with a dependency id is such a node.  The ids derived from one reference are: for a cell
reference the identity of that cell on its own or the default sheet; for a variable reference
its name; for a range of at most 1000 cells the identity of every cell of the rectangle; in
these three cases nothing is looked up, so the ids are produced whether or not the cell or
variable exists.  For a range of more than 1000 cells every derived id is the id of a cell of
the workbook. -/
theorem C7_dependency_ids_from_references (newDepParser : (String → Bool) → DepParser)
    (cells : List CellData) (variableList : List VariableData) :
    (∀ cell ∈ cells, ∀ (formulaData : FormulaData) (references : List DepParserReference),
      cell.type = CellType.formula → cell.formulaData = some formulaData →
      formulaData.formulaString ≠ "" →
      newDepParser (variableRecognizer variableList) (stripEquals formulaData.formulaString)
        (orOne cell.address.row) (orOne cell.address.col) = some references →
      ∀ id, id ∈ (_convertCellToDependencyNode (newDepParser (variableRecognizer variableList))
            cell (some (buildCellIndex cells))).dependencyIds.elems
        ↔ ∃ reference ∈ references,
            id ∈ referenceIds cell.address.sheet (some (buildCellIndex cells)) reference) ∧
    (∀ variableData ∈ variableList, ∀ (references : List DepParserReference),
      truthy variableData.formula = true →
      newDepParser (variableRecognizer variableList)
        (stripEquals (variableData.formula.getD "")) 1 1 = some references →
      ∀ id, id ∈ (_convertVariableToDependencyNode
            (newDepParser (variableRecognizer variableList)) variableData
            (some (buildCellIndex cells))).dependencyIds.elems
        ↔ ∃ reference ∈ references,
            id ∈ referenceIds none (some (buildCellIndex cells)) reference) ∧
    (∀ node ∈ buildDependencies newDepParser cells variableList,
      ∀ id ∈ node.dependencyIds.elems,
      (∃ cell ∈ cells, ∃ (formulaData : FormulaData) (references : List DepParserReference),
        node = _convertCellToDependencyNode (newDepParser (variableRecognizer variableList))
          cell (some (buildCellIndex cells)) ∧
        cell.type = CellType.formula ∧ cell.formulaData = some formulaData ∧
        formulaData.formulaString ≠ "" ∧
        newDepParser (variableRecognizer variableList) (stripEquals formulaData.formulaString)
          (orOne cell.address.row) (orOne cell.address.col) = some references ∧
        ∃ reference ∈ references,
          id ∈ referenceIds cell.address.sheet (some (buildCellIndex cells)) reference) ∨
      (∃ variableData ∈ variableList, ∃ (references : List DepParserReference),
        node = _convertVariableToDependencyNode (newDepParser (variableRecognizer variableList))
          variableData (some (buildCellIndex cells)) ∧
        truthy variableData.formula = true ∧
        newDepParser (variableRecognizer variableList)
          (stripEquals (variableData.formula.getD "")) 1 1 = some references ∧
        ∃ reference ∈ references,
          id ∈ referenceIds none (some (buildCellIndex cells)) reference)) ∧
    (∀ (defaultSheet : Option String),
      (∀ (c : CellAddress),
        referenceIds defaultSheet (some (buildCellIndex cells)) (DepParserReference.cell c)
          = [_hashCellAddress { c with sheet := inheritSheet c.sheet defaultSheet }]) ∧
      (∀ (name : String),
        referenceIds defaultSheet (some (buildCellIndex cells)) (DepParserReference.var name)
          = [name]) ∧
      (∀ (r : DepParserRangeReference), totalCells r ≤ 1000 → ∀ id,
        id ∈ referenceIds defaultSheet (some (buildCellIndex cells))
            (DepParserReference.range r)
          ↔ ∃ row col, r.from_.row ≤ row ∧ row ≤ r.to_.row ∧
              r.from_.col ≤ col ∧ col ≤ r.to_.col ∧
              id = _hashCellAddress
                { row := row, col := col, sheet := inheritSheet r.sheet defaultSheet }) ∧
      (∀ (r : DepParserRangeReference), totalCells r > 1000 →
        ∀ id ∈ referenceIds defaultSheet (some (buildCellIndex cells))
            (DepParserReference.range r),
          ∃ cell ∈ cells, _hashCellAddress cell.address = id)) := by
  have hcell : ∀ (cell : CellData) (formulaData : FormulaData),
      cell.type = CellType.formula → cell.formulaData = some formulaData →
      formulaData.formulaString ≠ "" →
      _convertCellToDependencyNode (newDepParser (variableRecognizer variableList)) cell
          (some (buildCellIndex cells))
        = _createDependencyNodeWithFormula (newDepParser (variableRecognizer variableList))
            (_hashCellAddress cell.address) formulaData.formulaString cell.address.row
            cell.address.col cell.address.sheet (some (buildCellIndex cells)) := by
    intro cell formulaData ht hfd hne
    unfold _convertCellToDependencyNode
    rw [ht, hfd]
    simp only [if_neg hne]
  have hvar : ∀ (variableData : VariableData), truthy variableData.formula = true →
      _convertVariableToDependencyNode (newDepParser (variableRecognizer variableList))
          variableData (some (buildCellIndex cells))
        = _createDependencyNodeWithFormula (newDepParser (variableRecognizer variableList))
            variableData.name (variableData.formula.getD "") 1 1 none
            (some (buildCellIndex cells)) := by
    intro variableData ht
    unfold _convertVariableToDependencyNode
    rw [if_pos ht]
  have hone : orOne 1 = 1 := by decide
  refine ⟨?_, ?_, ?_, ?_⟩
  · intro cell _ formulaData references ht hfd hne hp id
    rw [hcell cell formulaData ht hfd hne]
    exact createNode_deps_iff _ _ _ _ _ _ _ references hp id
  · intro variableData _ references ht hp id
    rw [hvar variableData ht]
    exact createNode_deps_iff _ _ _ _ _ _ _ references (by rw [hone]; exact hp) id
  · intro node hnode id hid
    unfold buildDependencies at hnode
    simp only [List.mem_append, List.mem_map] at hnode
    rcases hnode with ⟨cell, hmem, rfl⟩ | ⟨variableData, hmem, rfl⟩
    · left
      cases ht : cell.type with
      | constant =>
        unfold _convertCellToDependencyNode at hid
        rw [ht] at hid
        simp [JSSet.empty] at hid
      | formula =>
        cases hfd : cell.formulaData with
        | none =>
          unfold _convertCellToDependencyNode at hid
          rw [ht, hfd] at hid
          simp [JSSet.empty] at hid
        | some formulaData =>
          by_cases hne : formulaData.formulaString = ""
          · unfold _convertCellToDependencyNode at hid
            rw [ht, hfd] at hid
            simp [JSSet.empty, hne] at hid
          · rw [hcell cell formulaData ht hfd hne] at hid
            obtain ⟨references, reference, hp, hr, hxr⟩ :=
              createNode_deps _ _ _ _ _ _ _ _ hid
            exact ⟨cell, hmem, formulaData, references, rfl, ht, hfd, hne, hp,
              reference, hr, hxr⟩
    · right
      by_cases ht : truthy variableData.formula = true
      · rw [hvar variableData ht] at hid
        obtain ⟨references, reference, hp, hr, hxr⟩ := createNode_deps _ _ _ _ _ _ _ _ hid
        rw [hone] at hp
        exact ⟨variableData, hmem, references, rfl, ht, hp, reference, hr, hxr⟩
      · unfold _convertVariableToDependencyNode at hid
        rw [if_neg ht] at hid
        simp [JSSet.empty] at hid
  · intro defaultSheet
    refine ⟨?_, ?_, ?_, ?_⟩
    · intro c
      rfl
    · intro name
      rfl
    · intro r hsmall id
      exact referenceIds_small_range defaultSheet _ r hsmall id
    · intro r hlarge id hid
      exact referenceIds_large_range cells defaultSheet r id hlarge hid

/-- C7 as amended, at the formula cell A2 = `=A1` of a workbook without a cell A1: the
dependency ids of its node are the ids derived from the one returned reference, and the
reference to the absent cell A1 yields the id `Sheet1-1-1`. -/
theorem C7_dependency_ids_from_references_witness :
    cellA2 ∈ [cellA2] ∧ cellA2.type = CellType.formula ∧
    cellA2.formulaData = some ⟨"=A1", JSValue.undefined⟩ ∧
    sampleDepParser (variableRecognizer []) (stripEquals "=A1") (orOne cellA2.address.row)
      (orOne cellA2.address.col) = some [DepParserReference.cell ⟨1, 1, none⟩] ∧
    (∀ id, id ∈ (_convertCellToDependencyNode (sampleDepParser (variableRecognizer []))
          cellA2 (some (buildCellIndex [cellA2]))).dependencyIds.elems
      ↔ ∃ reference ∈ [DepParserReference.cell ⟨1, 1, none⟩],
          id ∈ referenceIds cellA2.address.sheet (some (buildCellIndex [cellA2])) reference) ∧
    referenceIds (some "Sheet1") (some (buildCellIndex [cellA2]))
        (DepParserReference.cell ⟨1, 1, none⟩) = ["Sheet1-1-1"] :=
  ⟨by decide, by decide, by decide, by decide,
    (C7_dependency_ids_from_references sampleDepParser [cellA2] []).1 cellA2 (by decide)
      ⟨"=A1", JSValue.undefined⟩ [DepParserReference.cell ⟨1, 1, none⟩] (by decide)
      (by decide) (by decide) (by decide),
    ((C7_dependency_ids_from_references sampleDepParser [cellA2] []).2.2.2
      (some "Sheet1")).1 ⟨1, 1, none⟩⟩

/-! ## Claims about default sheets, `evaluateFormula` and `onRange` -/

/-- C11 fails as stated: with the empty string as default sheet a cell reference without sheet
gets the id `undefined-1-1`, while the same reference with sheet `""` gets `-1-1`. -/
theorem C11_counterexample :
    _convertDepParserReferenceToId [DepParserReference.cell ⟨1, 1, none⟩] (some "") none
      = ["undefined-1-1"] ∧
    _convertDepParserReferenceToId [DepParserReference.cell ⟨1, 1, some ""⟩] (some "") none
      = ["-1-1"] := by
  decide

theorem inheritSheet_default (sheet : Option String) (d : String) (hno : truthy sheet = false)
    (hd : d ≠ "") : inheritSheet sheet (some d) = some d := by
  unfold inheritSheet
  have : truthy (some d) = true := by simp [truthy, hd]
  simp [hno, this]

theorem inheritSheet_own (d : String) (hd : d ≠ "") (defaultSheet : Option String) :
    inheritSheet (some d) defaultSheet = some d := by
  unfold inheritSheet
  have : truthy (some d) = true := by simp [truthy, hd]
  simp [this]

/-- C11 as amended: for a non-empty default sheet `d`, a cell reference and a range reference
without sheet (`undefined` or empty) give the same ids as the same reference with sheet `d`:
the cell's id on sheet `d`, respectively the ids of the expansion of the rectangle on sheet
`d`. -/
theorem C11_default_sheet_inherited (d : String) (hd : d ≠ "") (sheet : Option String)
    (hno : truthy sheet = false) (cellIndex : Option CellIndex) (row col : Nat)
    (corner1 corner2 : CellAddress) :
    (_convertDepParserReferenceToId
        [DepParserReference.cell { row := row, col := col, sheet := sheet }] (some d) cellIndex
      = _convertDepParserReferenceToId
        [DepParserReference.cell { row := row, col := col, sheet := some d }] (some d)
        cellIndex ∧
     _convertDepParserReferenceToId
        [DepParserReference.cell { row := row, col := col, sheet := sheet }] (some d) cellIndex
      = [_hashCellAddress { row := row, col := col, sheet := some d }]) ∧
    (_convertDepParserReferenceToId
        [DepParserReference.range { sheet := sheet, from_ := corner1, to_ := corner2 }]
        (some d) cellIndex
      = _convertDepParserReferenceToId
        [DepParserReference.range { sheet := some d, from_ := corner1, to_ := corner2 }]
        (some d) cellIndex ∧
     _convertDepParserReferenceToId
        [DepParserReference.range { sheet := sheet, from_ := corner1, to_ := corner2 }]
        (some d) cellIndex
      = (_convertRangeToCellAddresses
          { sheet := some d, from_ := corner1, to_ := corner2 } cellIndex).map
          _hashCellAddress) := by
  have h1 := inheritSheet_default sheet d hno hd
  have h2 := inheritSheet_own d hd (some d)
  refine ⟨⟨?_, ?_⟩, ⟨?_, ?_⟩⟩
  · simp [convertIds_eq_flatMap, referenceIds, _getDepParserType, h1, h2]
  · simp [convertIds_eq_flatMap, referenceIds, _getDepParserType, h1]
  · simp [convertIds_eq_flatMap, referenceIds, _getDepParserType, h1, h2]
  · simp [convertIds_eq_flatMap, referenceIds, _getDepParserType, h1]

/-- C11 as amended, at default sheet `Data`, a cell reference and a 2 by 2 range without
sheet. -/
theorem C11_default_sheet_inherited_witness :
    "Data" ≠ "" ∧ truthy none = false ∧
    _convertDepParserReferenceToId [DepParserReference.cell ⟨3, 2, none⟩] (some "Data") none
      = ["Data-3-2"] ∧
    _convertDepParserReferenceToId
        [DepParserReference.range ⟨none, ⟨1, 1, none⟩, ⟨2, 2, none⟩⟩] (some "Data") none
      = ["Data-1-1", "Data-1-2", "Data-2-1", "Data-2-2"] ∧
    _convertDepParserReferenceToId
        [DepParserReference.range ⟨none, ⟨1, 1, none⟩, ⟨2, 2, none⟩⟩] (some "Data") none
      = _convertDepParserReferenceToId
        [DepParserReference.range ⟨some "Data", ⟨1, 1, none⟩, ⟨2, 2, none⟩⟩] (some "Data")
        none :=
  ⟨by decide, by decide, by decide, by decide,
    (C11_default_sheet_inherited "Data" (by decide) none (by decide) none 3 2
      ⟨1, 1, none⟩ ⟨2, 2, none⟩).2.1⟩

theorem stripEquals_eq (formula : String) :
    stripEquals formula = withoutLeadingEquals formula := by
  unfold stripEquals withoutLeadingEquals
  rcases hdata : formula.data with _ | ⟨c, rest⟩
  · simp
  · by_cases hc : c = '='
    · subst hc
      simp
    · have hne : ¬ (some c = some '=') := fun h => hc (Option.some.inj h)
      simp only [List.head?_cons, hne, if_false]
      split
      · rename_i h
        exact absurd (List.cons.inj h).1 hc
      · rfl

/-- C14 (P6): `evaluateFormula` always returns a value: numeric 0 when the evaluator's `parse`
throws, and otherwise exactly what `parse` returns for the formula with one leading `=` removed
(if present) at the given position, or at row 1, column 1 of `Sheet1` when no position is
given. -/
theorem C14_evaluateFormula_absorbs (parse : String → CellAddress → Option JSValue)
    (formula : String) (position : CellAddress) :
    (parse (withoutLeadingEquals formula) position = none →
      evaluateFormula parse formula (some position) = JSValue.number 0) ∧
    (∀ v, parse (withoutLeadingEquals formula) position = some v →
      evaluateFormula parse formula (some position) = v) ∧
    (parse (withoutLeadingEquals formula) { row := 1, col := 1, sheet := some "Sheet1" }
        = none →
      evaluateFormula parse formula none = JSValue.number 0) ∧
    (∀ v, parse (withoutLeadingEquals formula) { row := 1, col := 1, sheet := some "Sheet1" }
        = some v →
      evaluateFormula parse formula none = v) := by
  unfold evaluateFormula
  rw [stripEquals_eq]
  refine ⟨?_, ?_, ?_, ?_⟩
  · intro h
    simp [h]
  · intro v h
    simp [h]
  · intro h
    simp [h]
  · intro v h
    simp [h]

/-- C14 at a `parse` that knows `2+2` only: `=2+2` without position gives 4. -/
theorem C14_evaluateFormula_absorbs_witness :
    sampleParse (withoutLeadingEquals "=2+2") { row := 1, col := 1, sheet := some "Sheet1" }
      = some (JSValue.number 4) ∧
    evaluateFormula sampleParse "=2+2" none = JSValue.number 4 ∧
    evaluateFormula sampleParse "=1/0" none = JSValue.number 0 :=
  ⟨by decide,
    (C14_evaluateFormula_absorbs sampleParse "=2+2" ⟨1, 1, some "Sheet1"⟩).2.2.2
      (JSValue.number 4) (by decide),
    by decide⟩

theorem nullishOr_zero (v : JSValue) :
    nullishOr v (JSValue.number 0)
      = if v = JSValue.undefined ∨ v = JSValue.null then JSValue.number 0 else v := by
  cases v <;> simp [nullishOr]

theorem cellResult_eq_rangeElement (cell : CellData) :
    cellResult cell = rangeElement (some cell) := by
  obtain ⟨type, address, formulaData, value⟩ := cell
  unfold cellResult rangeElement
  rw [nullishOr_zero]
  cases type with
  | constant => simp
  | formula =>
    cases formulaData with
    | none => simp
    | some fd =>
      by_cases hc : fd.cachesResult = JSValue.undefined
      · simp [hc]
      · simp [hc]

/-- C16: for a range with `from.row ≤ to.row` and `from.col ≤ to.col` the callback `onRange`
returns, whether or not the sheet exists, `to.row - from.row + 1` rows of `to.col - from.col + 1`
elements each, row-major: element `j` of row `i` is `rangeElement` of the cell object stored on
the range's sheet under the address of row `from.row + i`, column `from.col + j`, which is
numeric 0 for a missing cell and for every cell of a missing sheet. -/
theorem C16_onRange_shape (workbook : WorkbookData) (ref : DepParserRangeReference)
    (hrow : ref.from_.row ≤ ref.to_.row) (hcol : ref.from_.col ≤ ref.to_.col) :
    ∃ rows, onRange workbook ref = some rows ∧
      rows.length = ref.to_.row - ref.from_.row + 1 ∧
      (∀ i, i < ref.to_.row - ref.from_.row + 1 →
        ∃ cells : List JSValue, rows[i]? = some cells ∧
          cells.length = ref.to_.col - ref.from_.col + 1 ∧
          ∀ j, j < ref.to_.col - ref.from_.col + 1 →
            cells[j]? = some (rangeElement (cellAt workbook
              ⟨templateText ref.sheet,
                _rowColToA1 (ref.from_.row + i) (ref.from_.col + j)⟩))) ∧
      (objGet workbook.sheets (templateText ref.sheet) = none →
        ∀ cells ∈ rows, ∀ x ∈ cells, x = JSValue.number 0) := by
  have hrlen : (forRange ref.from_.row ref.to_.row).length
      = ref.to_.row - ref.from_.row + 1 := by
    unfold forRange
    rw [List.length_range']
    omega
  have hclen : (forRange ref.from_.col ref.to_.col).length
      = ref.to_.col - ref.from_.col + 1 := by
    unfold forRange
    rw [List.length_range']
    omega
  have hrget : ∀ i, i < ref.to_.row - ref.from_.row + 1 →
      (forRange ref.from_.row ref.to_.row)[i]? = some (ref.from_.row + i) := by
    intro i hi
    unfold forRange
    rw [List.getElem?_range' _ _ (by omega)]
    simp
  have hcget : ∀ j, j < ref.to_.col - ref.from_.col + 1 →
      (forRange ref.from_.col ref.to_.col)[j]? = some (ref.from_.col + j) := by
    intro j hj
    unfold forRange
    rw [List.getElem?_range' _ _ (by omega)]
    simp
  unfold onRange
  cases hsheet : objGet workbook.sheets (templateText ref.sheet) with
  | none =>
    have hnot : ¬ ((ref.to_.col : Int) - ref.from_.col + 1 < 0
        ∧ (forRange ref.from_.row ref.to_.row) ≠ []) := by
      intro h
      omega
    simp only [if_neg hnot]
    refine ⟨_, rfl, by rw [List.length_map, hrlen], ?_, ?_⟩
    · intro i hi
      refine ⟨List.replicate (ref.to_.col + 1 - ref.from_.col) (JSValue.number 0), ?_, ?_, ?_⟩
      · rw [List.getElem?_map, hrget i hi]
        rfl
      · rw [List.length_replicate]
        omega
      · intro j hj
        have hcell : cellAt workbook ⟨templateText ref.sheet,
            _rowColToA1 (ref.from_.row + i) (ref.from_.col + j)⟩ = none := by
          unfold cellAt
          rw [hsheet]
          rfl
        rw [hcell, List.getElem?_replicate]
        have : j < ref.to_.col + 1 - ref.from_.col := by omega
        simp [this, rangeElement]
    · intro _ cells hcells x hx
      obtain ⟨_, _, rfl⟩ := List.mem_map.1 hcells
      exact List.eq_of_mem_replicate hx
  | some sheetData =>
    simp only
    refine ⟨_, rfl, by rw [List.length_map, hrlen], ?_, ?_⟩
    · intro i hi
      refine ⟨_, by rw [List.getElem?_map, hrget i hi]; rfl, by rw [List.length_map, hclen],
        ?_⟩
      intro j hj
      have hcell : cellAt workbook ⟨templateText ref.sheet,
          _rowColToA1 (ref.from_.row + i) (ref.from_.col + j)⟩
          = objGet sheetData (_rowColToA1 (ref.from_.row + i) (ref.from_.col + j)) := by
        unfold cellAt
        rw [hsheet]
        rfl
      rw [List.getElem?_map, hcget j hj, hcell]
      simp only [Option.map_some']
      cases objGet sheetData (_rowColToA1 (ref.from_.row + i) (ref.from_.col + j)) with
      | none => simp [rangeElement]
      | some cell => simp [cellResult_eq_rangeElement]
    · intro h
      cases h

/-- C16 at the range A1:B3 of sheet `Sheet1` of `chainWorkbook`, where column B is empty, and at
the same range of a missing sheet. -/
theorem C16_onRange_shape_witness :
    (1 : Nat) ≤ 3 ∧ (1 : Nat) ≤ 2 ∧
    onRange chainWorkbook ⟨some "Sheet1", ⟨1, 1, none⟩, ⟨3, 2, none⟩⟩
      = some [[JSValue.number 100, JSValue.number 0],
              [JSValue.number 0, JSValue.number 0],
              [JSValue.number 0, JSValue.number 0]] ∧
    onRange chainWorkbook ⟨some "Other", ⟨1, 1, none⟩, ⟨3, 2, none⟩⟩
      = some [[JSValue.number 0, JSValue.number 0],
              [JSValue.number 0, JSValue.number 0],
              [JSValue.number 0, JSValue.number 0]] ∧
    ∃ rows, onRange chainWorkbook ⟨some "Sheet1", ⟨1, 1, none⟩, ⟨3, 2, none⟩⟩ = some rows ∧
      rows.length = 3 - 1 + 1 :=
  ⟨by decide, by decide, by decide, by decide,
    (C16_onRange_shape chainWorkbook ⟨some "Sheet1", ⟨1, 1, none⟩, ⟨3, 2, none⟩⟩
      (by decide) (by decide)).imp (fun _ h => ⟨h.1, h.2.1⟩)⟩

/-! ## Claim about the frame of the scheduler -/

theorem index_values_mem (deps : List DependencyNode) (acc : JSObject DependencyNode)
    (k : String) (v : DependencyNode)
    (h : objGet (deps.foldl (fun o d => objSet o d.id d) acc) k = some v) :
    v ∈ deps ∨ objGet acc k = some v := by
  induction deps generalizing acc with
  | nil => exact Or.inr h
  | cons d deps ih =>
    rw [List.foldl_cons] at h
    rcases ih _ h with h1 | h1
    · exact Or.inl (List.mem_cons_of_mem _ h1)
    · rw [objGet_objSet] at h1
      by_cases hk : k = d.id
      · rw [if_pos hk] at h1
        exact Or.inl (by rw [← Option.some.inj h1]; exact List.mem_cons_self _ _)
      · rw [if_neg hk] at h1
        exact Or.inr h1

theorem sortStep_sorted_mem (unmod : JSObject DependencyNode) (rev : JSObject (List String))
    (idx : JSObject DependencyNode) (sorted : List DependencyNode) (cur : DependencyNode)
    (rest : List DependencyNode) (n : DependencyNode)
    (hn : n ∈ (sortStep unmod rev idx sorted cur rest).topologicallySortedNodes) :
    n ∈ sorted ∨ ∃ k, objGet unmod k = some n := by
  unfold sortStep at hn
  have key : n ∈ (match objGet unmod cur.id with
      | some currentNode => sorted ++ [currentNode]
      | none => sorted) → n ∈ sorted ∨ ∃ k, objGet unmod k = some n := by
    intro h
    cases hget : objGet unmod cur.id with
    | none =>
      rw [hget] at h
      exact Or.inl h
    | some c =>
      rw [hget] at h
      rcases List.mem_append.1 h with h1 | h1
      · exact Or.inl h1
      · rw [List.mem_singleton] at h1
        exact Or.inr ⟨cur.id, by rw [hget, h1]⟩
  cases hrev : objGet rev cur.id with
  | none =>
    rw [hrev] at hn
    exact key hn
  | some L =>
    rw [hrev] at hn
    exact key hn

theorem sortLoop_sorted_mem (unmod : JSObject DependencyNode) (rev : JSObject (List String))
    (fuel : Nat) : ∀ (st fin : SortState), sortLoop unmod rev fuel st = some fin →
    ∀ n ∈ fin.topologicallySortedNodes,
      n ∈ st.topologicallySortedNodes ∨ ∃ k, objGet unmod k = some n := by
  induction fuel with
  | zero =>
    intro st fin h n hn
    unfold sortLoop at h
    cases hq : st.recentlyResolvedDependencies with
    | nil =>
      rw [hq] at h
      simp only [Option.some.injEq] at h
      exact Or.inl (h ▸ hn)
    | cons cur rest =>
      rw [hq] at h
      simp at h
  | succ fuel ih =>
    intro st fin h n hn
    unfold sortLoop at h
    cases hq : st.recentlyResolvedDependencies with
    | nil =>
      rw [hq] at h
      simp only [Option.some.injEq] at h
      exact Or.inl (h ▸ hn)
    | cons cur rest =>
      rw [hq] at h
      simp only at h
      rcases ih _ fin h n hn with h1 | h1
      · exact sortStep_sorted_mem _ _ _ _ _ _ n h1
      · exact Or.inr h1

/-- C20: whatever the input list, every node that `_topologicalSorting` returns, sorted or
residual, is one of the input nodes, with that node's id and that node's `dependencyIds`
unchanged: the deletions of the loop act on the working copies only. -/
theorem C20_returns_input_nodes (nodes : List DependencyNode) (fuel : Nat)
    (r : TopologicallySortedNodes) (h : _topologicalSorting fuel nodes = some r) :
    (∀ n ∈ r.topologicallySortedNodes, n ∈ nodes) ∧
    (∀ n ∈ r.recursiveNodes, n ∈ nodes) ∧
    (∀ n, n ∈ r.topologicallySortedNodes ∨ n ∈ r.recursiveNodes →
      ∃ m ∈ nodes, m.id = n.id ∧ m.dependencyIds = n.dependencyIds) := by
  have hmain : (∀ n ∈ r.topologicallySortedNodes, n ∈ nodes) ∧
      (∀ n ∈ r.recursiveNodes, n ∈ nodes) := by
    unfold _topologicalSorting at h
    dsimp only at h
    split at h
    · cases h
    · rename_i fin hloop
      simp only [Option.some.injEq] at h
      subst h
      have hval : ∀ k n, objGet (nodes.foldl (fun o d => objSet o d.id d) []) k = some n →
          n ∈ nodes := by
        intro k n hk
        rcases index_values_mem nodes [] k n hk with h1 | h1
        · exact h1
        · simp [objGet] at h1
      constructor
      · intro n hn
        rcases sortLoop_sorted_mem _ _ fuel _ fin hloop n hn with h1 | ⟨k, hk⟩
        · cases h1
        · exact hval k n hk
      · intro n hn
        simp only [List.mem_filterMap] at hn
        obtain ⟨k, _, hk⟩ := hn
        exact hval k n hk
  refine ⟨hmain.1, hmain.2, ?_⟩
  rintro n (hn | hn)
  · exact ⟨n, hmain.1 n hn, rfl, rfl⟩
  · exact ⟨n, hmain.2 n hn, rfl, rfl⟩

/-- C20 at a list with a self-referencing node, a leaf and a dependent of both. -/
theorem C20_returns_input_nodes_witness :
    _topologicalSorting 3 cycleNodes
      = some ⟨[⟨"L", ⟨[], by decide⟩⟩],
          [⟨"A", ⟨["A"], by decide⟩⟩, ⟨"D", ⟨["A", "L"], by decide⟩⟩]⟩ ∧
    (∀ n ∈ [(⟨"A", ⟨["A"], by decide⟩⟩ : DependencyNode), ⟨"D", ⟨["A", "L"], by decide⟩⟩],
      n ∈ cycleNodes) :=
  ⟨by decide,
    (C20_returns_input_nodes cycleNodes 3
      ⟨[⟨"L", ⟨[], by decide⟩⟩],
        [⟨"A", ⟨["A"], by decide⟩⟩, ⟨"D", ⟨["A", "L"], by decide⟩⟩]⟩ (by decide)).2.1⟩

/-! ## Claims about the order of the sorted and of the residual list -/

theorem sortStep_shape (deps : List DependencyNode) (hid : (deps.map DependencyNode.id).Nodup)
    (st : SortState) (inv : SortInv deps st) (cur : DependencyNode)
    (rest : List DependencyNode) (hq : st.recentlyResolvedDependencies = cur :: rest) :
    ∃ (d0 : DependencyNode) (pushed : List DependencyNode), d0 ∈ deps ∧ d0.id = cur.id ∧
      (sortStep (deps.map (fun d => (d.id, d))) (_buildReverseDependencyMappings deps)
        st.indexedDependencies st.topologicallySortedNodes cur rest).topologicallySortedNodes
        = st.topologicallySortedNodes ++ [d0] ∧
      (sortStep (deps.map (fun d => (d.id, d))) (_buildReverseDependencyMappings deps)
        st.indexedDependencies st.topologicallySortedNodes cur rest).recentlyResolvedDependencies
        = rest ++ pushed ∧
      ∀ p ∈ pushed, ∃ d ∈ deps, d.id = p.id ∧ cur.id ∈ d.dependencyIds.elems := by
  obtain ⟨d0, hd0, hcur⟩ := inv.queueMem cur (by rw [hq]; exact List.mem_cons_self _ _)
  rw [sortStep_eq deps hid _ _ cur d0 rest hd0 hcur]
  obtain ⟨_, hq2⟩ := foldl_resolve d0.id (dependentsOf deps d0.id)
    (dependentsOf_nodup deps hid _) st.indexedDependencies rest
  refine ⟨d0, (dependentsOf deps d0.id).filterMap (pushedBy d0.id st.indexedDependencies),
    hd0, hcur, rfl, hq2, ?_⟩
  intro p hp
  obtain ⟨d, hd, hdk, hx, _⟩ := (mem_pushed_ids deps hid st inv d0.id p.id).1
    (List.mem_map_of_mem _ hp)
  exact ⟨d, hd, hdk, hcur ▸ hx⟩

/-- A property kept by every iteration from states that satisfy the loop invariant holds in the
final state of the loop. -/
theorem sortLoop_preserves (deps : List DependencyNode)
    (hid : (deps.map DependencyNode.id).Nodup) (P : SortState → Prop)
    (hstep : ∀ (st : SortState) (cur : DependencyNode) (rest : List DependencyNode),
      SortInv deps st → P st → st.recentlyResolvedDependencies = cur :: rest →
      P (sortStep (deps.map (fun d => (d.id, d))) (_buildReverseDependencyMappings deps)
        st.indexedDependencies st.topologicallySortedNodes cur rest))
    (fuel : Nat) : ∀ (st fin : SortState), SortInv deps st → P st →
      sortLoop (deps.map (fun d => (d.id, d))) (_buildReverseDependencyMappings deps) fuel st
        = some fin → P fin := by
  induction fuel with
  | zero =>
    intro st fin inv hP h
    unfold sortLoop at h
    cases hq : st.recentlyResolvedDependencies with
    | nil =>
      rw [hq] at h
      simp only [Option.some.injEq] at h
      exact h ▸ hP
    | cons cur rest =>
      rw [hq] at h
      simp at h
  | succ fuel ih =>
    intro st fin inv hP h
    unfold sortLoop at h
    cases hq : st.recentlyResolvedDependencies with
    | nil =>
      rw [hq] at h
      simp only [Option.some.injEq] at h
      exact h ▸ hP
    | cons cur rest =>
      rw [hq] at h
      simp only at h
      exact ih _ fin (SortInv.step deps hid st inv cur rest hq).1
        (hstep st cur rest inv hP hq) h

/-- The run behind a result of the scheduler on a list with pairwise distinct ids: the final
loop state, its invariant, and the two returned lists read off it. -/
theorem topo_run (deps : List DependencyNode) (hid : (deps.map DependencyNode.id).Nodup)
    (fuel : Nat) (r : TopologicallySortedNodes) (h : _topologicalSorting fuel deps = some r) :
    ∃ fin : SortState,
      sortLoop (deps.map (fun d => (d.id, d))) (_buildReverseDependencyMappings deps) fuel
        ⟨deps.map (fun d => (d.id, d)), [],
          deps.filter (fun d => d.dependencyIds.size = 0)⟩ = some fin ∧
      SortInv deps fin ∧ fin.recentlyResolvedDependencies = [] ∧
      r.topologicallySortedNodes = fin.topologicallySortedNodes ∧
      r.recursiveNodes
        = ((objKeys (deps.map (fun d => (d.id, d)))).filter (fun id =>
            match objGet fin.indexedDependencies id with
            | some node => decide (node.dependencyIds.size > 0)
            | none => false)).filterMap
            (fun id => objGet (deps.map (fun d => (d.id, d))) id) := by
  rw [topologicalSorting_unfold fuel deps hid, Option.map_eq_some'] at h
  obtain ⟨fin, hloop, hr⟩ := h
  obtain ⟨inv, hq0⟩ := sortLoop_inv deps hid fuel _ (SortInv.init deps hid) fin hloop
  subst hr
  exact ⟨fin, hloop, inv, hq0, rfl, rfl⟩

theorem FifoInv.at_start (deps : List DependencyNode) :
    FifoInv deps ⟨deps.map (fun d => (d.id, d)), [],
      deps.filter (fun d => d.dependencyIds.size = 0)⟩ :=
  ⟨[], by simp, by simp⟩

theorem FifoInv.after_step (deps : List DependencyNode) (hid : (deps.map DependencyNode.id).Nodup)
    (st : SortState) (cur : DependencyNode) (rest : List DependencyNode)
    (inv : SortInv deps st) (hf : FifoInv deps st)
    (hq : st.recentlyResolvedDependencies = cur :: rest) :
    FifoInv deps (sortStep (deps.map (fun d => (d.id, d)))
      (_buildReverseDependencyMappings deps) st.indexedDependencies
      st.topologicallySortedNodes cur rest) := by
  obtain ⟨d0, pushed, _, hcur, hs, hq2, hpushed⟩ := sortStep_shape deps hid st inv cur rest hq
  obtain ⟨later, heq, hlater⟩ := hf
  refine ⟨later ++ pushed.map DependencyNode.id, ?_, ?_⟩
  · rw [hs, hq2, ← List.append_assoc, ← heq, hq]
    simp [hcur]
  · intro x hx
    rcases List.mem_append.1 hx with h1 | h1
    · exact hlater x h1
    · obtain ⟨p, hp, hpx⟩ := List.mem_map.1 h1
      obtain ⟨d, hd, hdp, hmem⟩ := hpushed p hp
      refine ⟨d, hd, hdp.trans hpx, ?_⟩
      intro h0
      exact (size_eq_zero_iff _).1 h0 _ hmem

theorem map_id_injOn (deps : List DependencyNode) (hid : (deps.map DependencyNode.id).Nodup)
    (l1 : List DependencyNode) : ∀ (l2 : List DependencyNode), (∀ n ∈ l1, n ∈ deps) →
      (∀ n ∈ l2, n ∈ deps) → l1.map DependencyNode.id = l2.map DependencyNode.id →
      l1 = l2 := by
  induction l1 with
  | nil =>
    intro l2 _ _ h
    cases l2 with
    | nil => rfl
    | cons b t => simp at h
  | cons a t ih =>
    intro l2 h1 h2 h
    cases l2 with
    | nil => simp at h
    | cons b t2 =>
      simp only [List.map_cons, List.cons.injEq] at h
      have hab := eq_of_id_eq deps hid a b (h1 a (List.mem_cons_self _ _))
        (h2 b (List.mem_cons_self _ _)) h.1
      rw [hab, ih t2 (fun n hn => h1 n (List.mem_cons_of_mem _ hn))
        (fun n hn => h2 n (List.mem_cons_of_mem _ hn)) h.2]

/-- C19: on a list of nodes with pairwise distinct ids the sorted list returned by the
scheduler starts with all the nodes whose dependency set is empty, in their input order, and
all the nodes that follow have a non-empty dependency set. -/
theorem C19_leaves_first (nodes : List DependencyNode)
    (hid : (nodes.map DependencyNode.id).Nodup) (fuel : Nat) (hfuel : nodes.length ≤ fuel) :
    ∃ r, _topologicalSorting fuel nodes = some r ∧
      ∃ rest : List DependencyNode,
        r.topologicallySortedNodes
          = nodes.filter (fun n => n.dependencyIds.size = 0) ++ rest ∧
        ∀ n ∈ rest, n.dependencyIds.size ≠ 0 := by
  obtain ⟨r, hr⟩ := topo_terminates nodes hid fuel hfuel
  obtain ⟨fin, hloop, inv, hq0, hsorted, _⟩ := topo_run nodes hid fuel r hr
  have hf : FifoInv nodes fin :=
    sortLoop_preserves nodes hid (FifoInv nodes)
      (fun st cur rest i f q => FifoInv.after_step nodes hid st cur rest i f q)
      fuel _ fin (SortInv.init nodes hid) (FifoInv.at_start nodes) hloop
  obtain ⟨later, heq, hlater⟩ := hf
  rw [hq0, List.map_nil, List.append_nil] at heq
  have hlen : (nodes.filter (fun n => n.dependencyIds.size = 0)).length
      = ((nodes.filter (fun n => n.dependencyIds.size = 0)).map
          DependencyNode.id).length := by
    rw [List.length_map]
  refine ⟨r, hr, fin.topologicallySortedNodes.drop
    (nodes.filter (fun n => n.dependencyIds.size = 0)).length, ?_, ?_⟩
  · rw [hsorted]
    have htake : fin.topologicallySortedNodes.take
        (nodes.filter (fun n => n.dependencyIds.size = 0)).length
        = nodes.filter (fun n => n.dependencyIds.size = 0) := by
      apply map_id_injOn nodes hid
      · intro n hn
        exact inv.sortedMem n (List.mem_of_mem_take hn)
      · intro n hn
        exact (List.mem_filter.1 hn).1
      · rw [List.map_take, heq, hlen, List.take_left']
        rfl
    conv_lhs => rw [← List.take_append_drop
      (nodes.filter (fun n => n.dependencyIds.size = 0)).length fin.topologicallySortedNodes]
    rw [htake]
  · intro n hn
    have hnid : n.id ∈ later := by
      have h1 : n.id ∈ (fin.topologicallySortedNodes.map DependencyNode.id).drop
          (nodes.filter (fun n => n.dependencyIds.size = 0)).length := by
        rw [← List.map_drop]
        exact List.mem_map_of_mem _ hn
      rw [heq, hlen, List.drop_left'] at h1
      · exact h1
      · rfl
    obtain ⟨d, hd, hdn, hsize⟩ := hlater n.id hnid
    have := eq_of_id_eq nodes hid d n hd (inv.sortedMem n (List.mem_of_mem_drop hn)) hdn
    exact this ▸ hsize

/-- C19 at the chain `c -> b -> a`, where `a` is the only node without dependencies. -/
theorem C19_leaves_first_witness :
    (chainNodes.map DependencyNode.id).Nodup ∧ chainNodes.length ≤ 3 ∧
    ∃ r, _topologicalSorting 3 chainNodes = some r ∧
      ∃ rest : List DependencyNode,
        r.topologicallySortedNodes
          = chainNodes.filter (fun n => n.dependencyIds.size = 0) ++ rest ∧
        ∀ n ∈ rest, n.dependencyIds.size ≠ 0 :=
  ⟨by decide, by decide, C19_leaves_first chainNodes (by decide) 3 (by decide)⟩

theorem objKeys_of_no_index {α : Type} (o : JSObject α)
    (h : ∀ k ∈ o.map Prod.fst, isArrayIndex k = false) : objKeys o = o.map Prod.fst := by
  unfold objKeys
  have h1 : (o.map Prod.fst).filter isArrayIndex = [] := by
    rw [List.filter_eq_nil_iff]
    intro k hk
    rw [h k hk]
    simp
  have h2 : (o.map Prod.fst).filter (fun k => !isArrayIndex k) = o.map Prod.fst := by
    rw [List.filter_eq_self]
    intro k hk
    rw [h k hk]
    rfl
  simp only [h1, h2, List.insertionSort, List.nil_append]

theorem lookup_ids (deps : List DependencyNode) (hid : (deps.map DependencyNode.id).Nodup)
    (l : List String) (hl : ∀ k ∈ l, k ∈ deps.map DependencyNode.id) :
    (l.filterMap (fun k => objGet (deps.map (fun d => (d.id, d))) k)).map DependencyNode.id
      = l := by
  induction l with
  | nil => rfl
  | cons k l ih =>
    obtain ⟨d, hd, hdk⟩ := List.mem_map.1 (hl k (List.mem_cons_self _ _))
    have hget := objGet_index_of_mem (fun d => d) deps hid d hd
    rw [hdk] at hget
    rw [List.filterMap_cons_some hget, List.map_cons, hdk,
      ih (fun k2 hk2 => hl k2 (List.mem_cons_of_mem _ hk2))]

theorem lookup_filter (deps : List DependencyNode) (hid : (deps.map DependencyNode.id).Nodup)
    (p : String → Bool) (l : List DependencyNode) (hl : ∀ d ∈ l, d ∈ deps) :
    ((l.map DependencyNode.id).filter p).filterMap
        (fun k => objGet (deps.map (fun d => (d.id, d))) k)
      = l.filter (fun d => p d.id) := by
  induction l with
  | nil => rfl
  | cons d l ih =>
    have hget := objGet_index_of_mem (fun d => d) deps hid d (hl d (List.mem_cons_self _ _))
    have ih2 := ih (fun e he => hl e (List.mem_cons_of_mem _ he))
    rw [List.map_cons]
    by_cases hp : p d.id = true
    · rw [List.filter_cons_of_pos hp, List.filterMap_cons_some hget, ih2,
        List.filter_cons_of_pos (by simpa using hp)]
    · rw [List.filter_cons_of_neg hp, ih2, List.filter_cons_of_neg (by simpa using hp)]

/-- C18 fails as stated: for the input `2`, `1` (each node listing itself) the residual list is
`1`, `2`, which is not a subsequence of the input. -/
theorem C18_counterexample :
    (numeralNodes.map DependencyNode.id).Nodup ∧
    _topologicalSorting 2 numeralNodes
      = some ⟨[], [⟨"1", ⟨["1"], by decide⟩⟩, ⟨"2", ⟨["2"], by decide⟩⟩]⟩ ∧
    ¬ List.Sublist
      [(⟨"1", ⟨["1"], by decide⟩⟩ : DependencyNode), ⟨"2", ⟨["2"], by decide⟩⟩]
      numeralNodes := by
  decide

/-- C18 as amended: on a list of nodes with pairwise distinct ids, no node id and no dependency
id being the name of a property that plain objects inherit from `Object.prototype`
(`PlainIds`, the lists on which the id-keyed plain objects of the source are own-property
maps), the residual list holds the nodes left with a non-empty working dependency set (some
dependency id was never sorted) in the order in which `Object.keys` lists their ids; when no id
is a canonical array index that is the input order, and the residual list is the subsequence of
the input made of those nodes. -/
theorem C18_residual_order (nodes : List DependencyNode)
    (hid : (nodes.map DependencyNode.id).Nodup) (_ : PlainIds nodes) (fuel : Nat)
    (hfuel : nodes.length ≤ fuel) :
    ∃ r, _topologicalSorting fuel nodes = some r ∧
      r.recursiveNodes.map DependencyNode.id
        = (objKeys (nodes.map (fun n => (n.id, n)))).filter (fun k =>
            decide (k ∉ r.topologicallySortedNodes.map DependencyNode.id)) ∧
      ((∀ n ∈ nodes, isArrayIndex n.id = false) →
        r.recursiveNodes
          = nodes.filter (fun n => decide (∃ y ∈ n.dependencyIds.elems,
              y ∉ r.topologicallySortedNodes.map DependencyNode.id)) ∧
        List.Sublist r.recursiveNodes nodes) := by
  obtain ⟨r, hr⟩ := topo_terminates nodes hid fuel hfuel
  obtain ⟨fin, _, inv, hq0, hsorted, hres⟩ := topo_run nodes hid fuel r hr
  have hp : ∀ d ∈ nodes, (match objGet fin.indexedDependencies d.id with
        | some node => decide (node.dependencyIds.size > 0)
        | none => false)
      = decide (∃ y ∈ d.dependencyIds.elems,
          y ∉ fin.topologicallySortedNodes.map DependencyNode.id) := by
    intro d hd
    obtain ⟨w, hw, _, hmem⟩ := inv.work d hd
    rw [hw]
    simp only [gt_iff_lt, decide_eq_decide]
    rw [Nat.pos_iff_ne_zero, Ne, size_eq_zero_iff]
    constructor
    · intro h1
      by_contra h2
      apply h1
      intro y hy
      exact h2 ⟨y, ((hmem y).1 hy).1, ((hmem y).1 hy).2⟩
    · rintro ⟨y, hy, hyO⟩ h2
      exact h2 y ((hmem y).2 ⟨hy, hyO⟩)
  have hq : ∀ d ∈ nodes, (∃ y ∈ d.dependencyIds.elems,
        y ∉ fin.topologicallySortedNodes.map DependencyNode.id)
      ↔ d.id ∉ fin.topologicallySortedNodes.map DependencyNode.id := by
    intro d hd
    have hready := inv.ready d hd
    rw [hq0] at hready
    simp only [List.map_nil, List.not_mem_nil, or_false] at hready
    rw [hready]
    push_neg
    rfl
  have hkeys : ∀ k ∈ objKeys (nodes.map (fun n => (n.id, n))),
      k ∈ nodes.map DependencyNode.id := by
    intro k hk
    rw [mem_objKeys, index_keys] at hk
    exact hk
  refine ⟨r, hr, ?_, ?_⟩
  · rw [hres, hsorted, lookup_ids nodes hid _
      (fun k hk => hkeys k (List.mem_filter.1 hk).1)]
    apply List.filter_congr
    intro k hk
    obtain ⟨d, hd, hdk⟩ := List.mem_map.1 (hkeys k hk)
    rw [← hdk, hp d hd]
    exact decide_eq_decide.2 (hq d hd)
  · intro hno
    have hk2 : objKeys (nodes.map (fun n => (n.id, n))) = nodes.map DependencyNode.id := by
      rw [objKeys_of_no_index, index_keys]
      intro k hk
      rw [index_keys] at hk
      obtain ⟨d, hd, hdk⟩ := List.mem_map.1 hk
      exact hdk ▸ hno d hd
    have heq : r.recursiveNodes
        = nodes.filter (fun n => decide (∃ y ∈ n.dependencyIds.elems,
            y ∉ r.topologicallySortedNodes.map DependencyNode.id)) := by
      rw [hres, hk2, lookup_filter nodes hid _ nodes (fun d hd => hd), hsorted]
      apply List.filter_congr
      intro d hd
      exact hp d hd
    exact ⟨heq, heq ▸ List.filter_sublist _⟩

/-- C18 as amended, at a list with a self-referencing node, a leaf and a dependent of both. -/
theorem C18_residual_order_witness :
    (cycleNodes.map DependencyNode.id).Nodup ∧ PlainIds cycleNodes ∧ cycleNodes.length ≤ 3 ∧
    (∀ n ∈ cycleNodes, isArrayIndex n.id = false) ∧
    ∃ r, _topologicalSorting 3 cycleNodes = some r ∧
      r.recursiveNodes.map DependencyNode.id
        = (objKeys (cycleNodes.map (fun n => (n.id, n)))).filter (fun k =>
            decide (k ∉ r.topologicallySortedNodes.map DependencyNode.id)) ∧
      ((∀ n ∈ cycleNodes, isArrayIndex n.id = false) →
        r.recursiveNodes
          = cycleNodes.filter (fun n => decide (∃ y ∈ n.dependencyIds.elems,
              y ∉ r.topologicallySortedNodes.map DependencyNode.id)) ∧
        List.Sublist r.recursiveNodes cycleNodes) :=
  ⟨by decide, by decide, by decide, by decide,
    C18_residual_order cycleNodes (by decide) (by decide) 3 (by decide)⟩

/-! ## The list `allCells` -/

/-- The list `allCells` is `Object.values(workbook.sheets).flatMap(sheet =>
Object.values(sheet))`. -/
theorem allCells_eq_values (workbook : WorkbookData) :
    allCells workbook = (objValues workbook.sheets).flatMap objValues := by
  unfold allCells allCellLocs objValues
  induction objKeys workbook.sheets with
  | nil => rfl
  | cons sk keys ih =>
    rw [List.flatMap_cons, List.filterMap_append, ih]
    cases hs : objGet workbook.sheets sk with
    | none =>
      rw [List.filterMap_cons_none hs]
      rfl
    | some sheet =>
      rw [List.filterMap_cons_some hs, List.flatMap_cons]
      congr 1
      simp only [List.filterMap_map]
      apply List.filterMap_congr
      intro ak _
      simp [cellAt, hs]

/-! ## In-place updates of the workbook -/

theorem cellAt_updateCell (workbook : WorkbookData) (loc loc2 : CellLoc)
    (f : CellData → CellData) :
    cellAt (updateCell workbook loc f) loc2
      = if loc2 = loc then (cellAt workbook loc).map f else cellAt workbook loc2 := by
  obtain ⟨sk, ak⟩ := loc
  obtain ⟨sk2, ak2⟩ := loc2
  have hloc : ((⟨sk2, ak2⟩ : CellLoc) = ⟨sk, ak⟩) ↔ (sk2 = sk ∧ ak2 = ak) := by
    simp only [CellLoc.mk.injEq]
  cases hs : objGet workbook.sheets sk with
  | none =>
    have hu : updateCell workbook ⟨sk, ak⟩ f = workbook := by
      unfold updateCell
      simp only [hs]
    rw [hu]
    by_cases h : (⟨sk2, ak2⟩ : CellLoc) = ⟨sk, ak⟩
    · rw [if_pos h, h]
      unfold cellAt
      simp only [hs]
      rfl
    · rw [if_neg h]
  | some sheet =>
    cases hc : objGet sheet ak with
    | none =>
      have hu : updateCell workbook ⟨sk, ak⟩ f = workbook := by
        unfold updateCell
        simp only [hs, hc]
      rw [hu]
      by_cases h : (⟨sk2, ak2⟩ : CellLoc) = ⟨sk, ak⟩
      · rw [if_pos h, h]
        unfold cellAt
        simp [hs, hc]
      · rw [if_neg h]
    | some cell =>
      have hu : updateCell workbook ⟨sk, ak⟩ f
          = { workbook with sheets := objSet workbook.sheets sk (objSet sheet ak (f cell)) } := by
        unfold updateCell
        simp only [hs, hc]
      rw [hu]
      unfold cellAt
      simp only [objGet_objSet]
      by_cases h1 : sk2 = sk
      · subst h1
        by_cases h2 : ak2 = ak
        · subst h2
          simp [objGet_objSet, hc, hs]
        · have hne : ¬ (⟨sk2, ak2⟩ : CellLoc) = ⟨sk2, ak⟩ := fun h => h2 (hloc.1 h).2
          simp [objGet_objSet, h2, hs]
      · have hne : ¬ (⟨sk2, ak2⟩ : CellLoc) = ⟨sk, ak⟩ := fun h => h1 (hloc.1 h).1
        simp [h1]

theorem updateCell_variables (workbook : WorkbookData) (loc : CellLoc)
    (f : CellData → CellData) :
    (updateCell workbook loc f).variables_ = workbook.variables_ := by
  unfold updateCell
  cases hs : objGet workbook.sheets loc.sheetKey with
  | none => rfl
  | some sheet =>
    cases hc : objGet sheet loc.addressKey with
    | none => simp only [hc]
    | some cell => simp only [hc]

theorem cellAt_updateVariable (workbook : WorkbookData) (i : Nat)
    (f : VariableData → VariableData) (loc : CellLoc) :
    cellAt (updateVariable workbook i f) loc = cellAt workbook loc := rfl

theorem cellShape_storeResult (result : JSValue) (cell : CellData) :
    cellShape (storeResult result cell) = cellShape cell := by
  unfold cellShape storeResult
  cases cell.formulaData <;> rfl

theorem SameShape.refl (workbook : WorkbookData) : SameShape workbook workbook :=
  ⟨fun _ => rfl, rfl⟩

theorem SameShape.update_cell (initial workbook : WorkbookData) (h : SameShape initial workbook)
    (loc : CellLoc) (f : CellData → CellData) (hf : ∀ c, cellShape (f c) = cellShape c) :
    SameShape initial (updateCell workbook loc f) := by
  refine ⟨?_, ?_⟩
  · intro loc2
    rw [cellAt_updateCell]
    by_cases hl : loc2 = loc
    · rw [if_pos hl, hl, ← h.1 loc]
      cases cellAt workbook loc with
      | none => rfl
      | some c => simp [hf]
    · rw [if_neg hl]
      exact h.1 loc2
  · rw [updateCell_variables]
    exact h.2

theorem SameShape.update_variable (initial workbook : WorkbookData)
    (h : SameShape initial workbook) (i : Nat) (f : VariableData → VariableData)
    (hf : ∀ v, (f v).name = v.name ∧ (f v).formula = v.formula) :
    SameShape initial (updateVariable workbook i f) := by
  refine ⟨fun loc => h.1 loc, ?_⟩
  rw [← h.2]
  unfold updateVariable
  simp only
  apply List.ext_getElem?
  intro j
  simp only [List.getElem?_map, List.getElem?_modify]
  by_cases hj : i = j
  · subst hj
    cases workbook.variables_[i]? with
    | none => simp
    | some v => simp [(hf v).1, (hf v).2]
  · cases workbook.variables_[j]? with
    | none => simp [hj]
    | some v => simp [hj]

theorem nodeCell_shape (initial workbook : WorkbookData) (h : SameShape initial workbook)
    (cellIndex : JSObject CellLoc) (id : String) :
    (nodeCell workbook cellIndex id).map cellShape
      = (nodeCell initial cellIndex id).map cellShape := by
  unfold nodeCell
  cases objGet cellIndex id with
  | none => rfl
  | some loc => exact h.1 loc

/-! ## One step of the circular pass -/

theorem evaluateRecursiveNode_spec (formulaParser : FormulaParser)
    (cellIndex : JSObject CellLoc) (variableIndex : JSObject Nat) (iter : Nat)
    (st : EvalState) (node : DependencyNode) :
    (evaluateRecursiveNode formulaParser cellIndex variableIndex iter st node).calls
      = st.calls ++
        (if shapeIsFormula ((nodeCell st.workbook cellIndex node.id).map cellShape) = true
          then [⟨Pass.sweep iter, node.id⟩] else []) ∧
    ((evaluateRecursiveNode formulaParser cellIndex variableIndex iter st node).workbook
        = st.workbook ∨
      ∃ loc result, objGet cellIndex node.id = some loc ∧
        (evaluateRecursiveNode formulaParser cellIndex variableIndex iter st node).workbook
          = updateCell st.workbook loc (storeResult result)) := by
  unfold evaluateRecursiveNode nodeCell
  cases hl : objGet cellIndex node.id with
  | none => simp [shapeIsFormula]
  | some loc =>
    cases hc : cellAt st.workbook loc with
    | none => simp [shapeIsFormula, hc]
    | some cell =>
      obtain ⟨type, address, formulaData, value⟩ := cell
      cases type with
      | constant => simp [shapeIsFormula, cellShape, hc]
      | formula =>
        cases formulaData with
        | none => simp [shapeIsFormula, cellShape, hc]
        | some fd =>
          by_cases hf : fd.formulaString = ""
          · simp [shapeIsFormula, cellShape, hf, hc]
          · simp only [Option.some_bind, hc, Option.map_some', ne_eq, hf, not_false_eq_true,
              if_true, shapeIsFormula, cellShape, decide_True]
            exact ⟨trivial, Or.inr ⟨loc, _, rfl, rfl⟩⟩

theorem evaluateRecursiveNode_shape (initial : WorkbookData) (formulaParser : FormulaParser)
    (cellIndex : JSObject CellLoc) (variableIndex : JSObject Nat) (iter : Nat)
    (st : EvalState) (node : DependencyNode) (h : SameShape initial st.workbook) :
    SameShape initial
      (evaluateRecursiveNode formulaParser cellIndex variableIndex iter st node).workbook := by
  rcases (evaluateRecursiveNode_spec formulaParser cellIndex variableIndex iter st node).2
    with h1 | ⟨loc, result, _, h1⟩
  · rw [h1]
    exact h
  · rw [h1]
    exact SameShape.update_cell initial st.workbook h loc _ (cellShape_storeResult result)

/-- One sweep of the circular pass keeps the shape of the workbook and calls the evaluator once
for each node of the list that stands for a formula cell with formula text, in list order. -/
theorem sweep_spec (initial : WorkbookData) (formulaParser : FormulaParser)
    (cellIndex : JSObject CellLoc) (variableIndex : JSObject Nat) (iter : Nat)
    (nodes : List DependencyNode) : ∀ (st : EvalState), SameShape initial st.workbook →
    SameShape initial
        (nodes.foldl (evaluateRecursiveNode formulaParser cellIndex variableIndex iter)
          st).workbook ∧
      (nodes.foldl (evaluateRecursiveNode formulaParser cellIndex variableIndex iter) st).calls
        = st.calls ++ (nodes.filter (fun n =>
            shapeIsFormula ((nodeCell initial cellIndex n.id).map cellShape))).map
            (fun n => ⟨Pass.sweep iter, n.id⟩) := by
  induction nodes with
  | nil =>
    intro st h
    exact ⟨h, by simp⟩
  | cons n nodes ih =>
    intro st h
    rw [List.foldl_cons]
    have hs := evaluateRecursiveNode_shape initial formulaParser cellIndex variableIndex iter
      st n h
    obtain ⟨h1, h2⟩ := ih _ hs
    refine ⟨h1, ?_⟩
    rw [h2, (evaluateRecursiveNode_spec formulaParser cellIndex variableIndex iter st n).1,
      nodeCell_shape initial st.workbook h]
    by_cases hn : shapeIsFormula ((nodeCell initial cellIndex n.id).map cellShape) = true
    · rw [if_pos hn]
      simp [List.filter_cons, hn]
    · rw [if_neg hn]
      simp [List.filter_cons, hn]

/-- The circular pass entered with counter `iter` and `remaining = MAX_ITER - iter` rounds left
runs one sweep for each counter value from `iter` to `MAX_ITER - 1`. -/
theorem circularPass_spec (initial : WorkbookData) (formulaParser : FormulaParser)
    (cellIndex : JSObject CellLoc) (variableIndex : JSObject Nat)
    (nodes : List DependencyNode) (remaining : Nat) : ∀ (iter : Nat) (st : EvalState),
    iter + remaining = MAX_ITER → SameShape initial st.workbook →
    SameShape initial
        (circularPass formulaParser cellIndex variableIndex nodes remaining iter st).workbook ∧
      (circularPass formulaParser cellIndex variableIndex nodes remaining iter st).calls
        = st.calls ++ (List.range' iter remaining).flatMap (fun it =>
            (nodes.filter (fun n =>
              shapeIsFormula ((nodeCell initial cellIndex n.id).map cellShape))).map
              (fun n => ⟨Pass.sweep it, n.id⟩)) := by
  induction remaining with
  | zero =>
    intro iter st _ h
    unfold circularPass
    exact ⟨h, by simp⟩
  | succ remaining ih =>
    intro iter st hsum h
    unfold circularPass
    have hlt : iter < MAX_ITER := by omega
    rw [if_pos hlt]
    obtain ⟨h1, h2⟩ := sweep_spec initial formulaParser cellIndex variableIndex iter nodes st h
    obtain ⟨h3, h4⟩ := ih (iter + 1) _ (by omega) h1
    refine ⟨h3, ?_⟩
    rw [h4, h2, List.range'_succ, List.flatMap_cons, List.append_assoc]

/-! ## One step of the acyclic pass -/

theorem nodeCell_eq_none_iff (workbook : WorkbookData) (cellIndex : JSObject CellLoc)
    (id : String) :
    nodeCell workbook cellIndex id = none ↔
      (objGet cellIndex id).bind
        (fun loc => (cellAt workbook loc).map (fun c => (loc, c))) = none := by
  unfold nodeCell
  cases objGet cellIndex id with
  | none => simp
  | some loc => cases cellAt workbook loc <;> simp

theorem evaluateOrderedNode_cell (formulaParser : FormulaParser) (cellIndex : JSObject CellLoc)
    (variableIndex : JSObject Nat) (st : EvalState) (node : DependencyNode) (loc : CellLoc)
    (cell : CellData) (hl : objGet cellIndex node.id = some loc)
    (hc : cellAt st.workbook loc = some cell) :
    evaluateOrderedNode formulaParser cellIndex variableIndex st node
      = match cell.formulaData with
        | none => st
        | some formulaData =>
          if formulaData.cachesResult ≠ JSValue.undefined
              ∧ formulaData.cachesResult ≠ JSValue.null then
            { workbook := updateCell st.workbook loc
                (fun c => { c with value := formulaData.cachesResult })
              calls := st.calls }
          else if cell.type = CellType.formula ∧ formulaData.formulaString ≠ "" then
            { workbook := updateCell st.workbook loc (storeResult (evaluateFormula
                (formulaParser (hooksOf st.workbook variableIndex))
                formulaData.formulaString (some cell.address)))
              calls := st.calls ++ [⟨Pass.acyclic, node.id⟩] }
          else st := by
  unfold evaluateOrderedNode
  simp only [hl, Option.some_bind, hc, Option.map_some']

theorem evaluateOrderedNode_variable (formulaParser : FormulaParser)
    (cellIndex : JSObject CellLoc) (variableIndex : JSObject Nat) (st : EvalState)
    (node : DependencyNode) (hn : nodeCell st.workbook cellIndex node.id = none) :
    evaluateOrderedNode formulaParser cellIndex variableIndex st node
      = match objGet variableIndex node.id with
        | none => st
        | some i =>
          match st.workbook.variables_[i]? with
          | none => st
          | some variableData =>
            if truthy variableData.formula then
              let result := evaluateFormula
                (formulaParser (hooksOf st.workbook variableIndex))
                (variableData.formula.getD "") none
              { workbook := updateVariable st.workbook i (fun v => { v with result := result })
                calls := st.calls ++ [⟨Pass.acyclic, node.id⟩] }
            else st := by
  unfold evaluateOrderedNode
  rw [(nodeCell_eq_none_iff _ _ _).1 hn]

/-- What one step of the acyclic pass does to the workbook and to the list of evaluator calls. -/
theorem evaluateOrderedNode_spec (formulaParser : FormulaParser) (cellIndex : JSObject CellLoc)
    (variableIndex : JSObject Nat) (st : EvalState) (node : DependencyNode) :
    (evaluateOrderedNode formulaParser cellIndex variableIndex st node).calls
      = st.calls ++
        (if needsEvaluation st.workbook cellIndex variableIndex node.id = true
          then [⟨Pass.acyclic, node.id⟩] else []) ∧
    ((evaluateOrderedNode formulaParser cellIndex variableIndex st node).workbook = st.workbook ∨
      (∃ loc f, objGet cellIndex node.id = some loc ∧ (∀ c, cellShape (f c) = cellShape c) ∧
        (evaluateOrderedNode formulaParser cellIndex variableIndex st node).workbook
          = updateCell st.workbook loc f) ∨
      (∃ i result, objGet variableIndex node.id = some i ∧
        (evaluateOrderedNode formulaParser cellIndex variableIndex st node).workbook
          = updateVariable st.workbook i (fun v => { v with result := result }))) := by
  cases hn : nodeCell st.workbook cellIndex node.id with
  | none =>
    rw [evaluateOrderedNode_variable formulaParser cellIndex variableIndex st node hn]
    unfold needsEvaluation nodeVariable
    rw [hn]
    cases hi : objGet variableIndex node.id with
    | none => simp
    | some i =>
      cases hv : st.workbook.variables_[i]? with
      | none => simp [hv]
      | some v =>
        by_cases hf : truthy v.formula = true
        · simp only [Option.some_bind, hv, hf, if_true]
          exact ⟨trivial, Or.inr (Or.inr ⟨i, _, rfl, rfl⟩)⟩
        · simp [hv, hf]
  | some cell =>
    have hn2 := hn
    unfold nodeCell at hn2
    cases hl : objGet cellIndex node.id with
    | none => simp [hl] at hn2
    | some loc =>
      rw [hl, Option.some_bind] at hn2
      rw [evaluateOrderedNode_cell formulaParser cellIndex variableIndex st node loc cell hl hn2]
      unfold needsEvaluation
      rw [hn]
      unfold cellNeedsEval
      obtain ⟨type, address, formulaData, value⟩ := cell
      cases formulaData with
      | none => simp
      | some fd =>
        by_cases hcache : fd.cachesResult ≠ JSValue.undefined ∧ fd.cachesResult ≠ JSValue.null
        · simp only [hcache, and_self, if_true, List.append_nil, true_and, ne_eq,
            not_false_eq_true, Bool.false_eq_true, if_false]
          refine Or.inr (Or.inl ⟨loc, _, rfl, ?_, rfl⟩)
          intro c
          rfl
        · by_cases hty : type = CellType.formula ∧ fd.formulaString ≠ ""
          · simp only [hcache, if_false, hty, and_self, if_true, decide_True, true_and, ne_eq,
              not_false_eq_true]
            exact Or.inr (Or.inl ⟨loc, _, rfl, cellShape_storeResult _, rfl⟩)
          · simp only [hcache, if_false, hty, decide_False, Bool.false_eq_true,
              List.append_nil, true_and]
            exact Or.inl trivial

theorem evaluateOrderedNode_shape (initial : WorkbookData) (formulaParser : FormulaParser)
    (cellIndex : JSObject CellLoc) (variableIndex : JSObject Nat) (st : EvalState)
    (node : DependencyNode) (h : SameShape initial st.workbook) :
    SameShape initial
      (evaluateOrderedNode formulaParser cellIndex variableIndex st node).workbook := by
  rcases (evaluateOrderedNode_spec formulaParser cellIndex variableIndex st node).2
    with h1 | ⟨loc, f, _, hf, h1⟩ | ⟨i, result, _, h1⟩
  · rw [h1]
    exact h
  · rw [h1]
    exact SameShape.update_cell initial st.workbook h loc f hf
  · rw [h1]
    exact SameShape.update_variable initial st.workbook h i _ (fun v => ⟨rfl, rfl⟩)

/-- The acyclic pass keeps the shape of the workbook, and every evaluator call it adds carries
the tag of the acyclic pass. -/
theorem acyclicPass_spec (initial : WorkbookData) (formulaParser : FormulaParser)
    (cellIndex : JSObject CellLoc) (variableIndex : JSObject Nat)
    (nodes : List DependencyNode) : ∀ (st : EvalState), SameShape initial st.workbook →
    (∀ c ∈ st.calls, c.pass = Pass.acyclic) →
    SameShape initial
        (nodes.foldl (evaluateOrderedNode formulaParser cellIndex variableIndex) st).workbook ∧
      ∀ c ∈ (nodes.foldl (evaluateOrderedNode formulaParser cellIndex variableIndex) st).calls,
        c.pass = Pass.acyclic := by
  induction nodes with
  | nil =>
    intro st h hc
    exact ⟨h, hc⟩
  | cons n nodes ih =>
    intro st h hc
    rw [List.foldl_cons]
    apply ih _ (evaluateOrderedNode_shape initial formulaParser cellIndex variableIndex st n h)
    intro c hmem
    rw [(evaluateOrderedNode_spec formulaParser cellIndex variableIndex st n).1] at hmem
    rcases List.mem_append.1 hmem with h1 | h1
    · exact hc c h1
    · by_cases hne : needsEvaluation st.workbook cellIndex variableIndex n.id = true
      · rw [if_pos hne, List.mem_singleton] at h1
        rw [h1]
      · rw [if_neg hne] at h1
        cases h1

/-! ## The residual list has pairwise distinct ids, whatever the input -/

theorem foldl_objSet_keys_nodup {ι α : Type} (key : ι → String) (val : ι → α) (l : List ι) :
    ∀ (acc : JSObject α), (acc.map Prod.fst).Nodup →
      ((l.foldl (fun o i => objSet o (key i) (val i)) acc).map Prod.fst).Nodup := by
  induction l with
  | nil =>
    intro acc h
    exact h
  | cons i l ih =>
    intro acc h
    rw [List.foldl_cons]
    apply ih
    rw [objSet_keys]
    by_cases hk : key i ∈ acc.map Prod.fst
    · rw [if_pos hk]
      exact h
    · rw [if_neg hk]
      exact List.Nodup.append h (List.nodup_singleton _) (by simpa using hk)

theorem index_value_id (deps : List DependencyNode) : ∀ (acc : JSObject DependencyNode),
    (∀ k v, objGet acc k = some v → v.id = k) →
    ∀ k v, objGet (deps.foldl (fun o d => objSet o d.id d) acc) k = some v → v.id = k := by
  induction deps with
  | nil =>
    intro acc h
    exact h
  | cons d deps ih =>
    intro acc h
    rw [List.foldl_cons]
    apply ih
    intro k v hk
    rw [objGet_objSet] at hk
    by_cases hkd : k = d.id
    · rw [if_pos hkd] at hk
      rw [← Option.some.inj hk, hkd]
    · rw [if_neg hkd] at hk
      exact h k v hk

theorem residual_ids_nodup (fuel : Nat) (deps : List DependencyNode)
    (r : TopologicallySortedNodes) (h : _topologicalSorting fuel deps = some r) :
    (r.recursiveNodes.map DependencyNode.id).Nodup := by
  unfold _topologicalSorting at h
  simp only at h
  cases hloop : sortLoop (deps.foldl (fun o d => objSet o d.id d) [])
      (_buildReverseDependencyMappings deps) fuel
      ⟨deps.foldl (fun o d => objSet o d.id
        { id := d.id, dependencyIds := d.dependencyIds }) [], [],
        deps.filter (fun d => d.dependencyIds.size = 0)⟩ with
  | none =>
    rw [hloop] at h
    cases h
  | some st =>
    rw [hloop] at h
    simp only [Option.some.injEq] at h
    rw [← h]
    simp only
    apply List.Nodup.sublist (map_filterMap_sublist _ _ _ ?_)
    · apply List.Nodup.filter
      apply objKeys_nodup
      exact foldl_objSet_keys_nodup DependencyNode.id (fun d => d) deps [] List.nodup_nil
    · intro k _ p hp
      exact index_value_id deps [] (by intro k v hk; simp [objGet] at hk) k p hp

/-! ## The calls of the circular pass -/

theorem sweep_filter_single (iter : Nat) (x : String) (ids : List String) (hnd : ids.Nodup)
    (hx : x ∈ ids) :
    (ids.map (fun k => (⟨Pass.sweep iter, k⟩ : EvalCall))).filter
        (fun c => decide (c.nodeId = x))
      = [⟨Pass.sweep iter, x⟩] := by
  induction ids with
  | nil => cases hx
  | cons k ids ih =>
    rw [List.nodup_cons] at hnd
    rw [List.map_cons]
    by_cases hk : k = x
    · subst hk
      rw [List.filter_cons_of_pos (by simp)]
      congr 1
      rw [List.filter_eq_nil_iff]
      intro c hc
      obtain ⟨j, hj, hjc⟩ := List.mem_map.1 hc
      rw [← hjc]
      simp only [decide_eq_true_eq]
      intro hjk
      exact hnd.1 (hjk ▸ hj)
    · rw [List.filter_cons_of_neg (by simpa using hk)]
      rcases List.mem_cons.1 hx with h1 | h1
      · exact absurd h1.symm hk
      · exact ih hnd.2 h1

theorem sweeps_filter_node (x : String) (ids : List String) (hnd : ids.Nodup) (hx : x ∈ ids)
    (count : Nat) : ∀ (start : Nat),
    ((List.range' start count).flatMap
        (fun iter => ids.map (fun k => (⟨Pass.sweep iter, k⟩ : EvalCall)))).filter
        (fun c => decide (c.nodeId = x))
      = (List.range' start count).map (fun iter => ⟨Pass.sweep iter, x⟩) := by
  induction count with
  | zero =>
    intro start
    rfl
  | succ count ih =>
    intro start
    rw [List.range'_succ, List.flatMap_cons, List.filter_append, List.map_cons,
      sweep_filter_single start x ids hnd hx, ih (start + 1)]
    rfl

/-- C13: whenever the scheduler returns, `evaluateWorkbook` returns, and its circular pass is
exactly `MAX_ITER = 30` sweeps over the residual list, whatever the evaluator returns: the calls
of that pass are, for each sweep 0..29 in turn, one call for each residual node that stands for
a formula cell with non-empty formula text, so each such node is evaluated exactly once in every
sweep and exactly 30 times in the pass. -/
theorem C13_thirty_sweeps (fuel : Nat) (newDepParser : (String → Bool) → DepParser)
    (formulaParser : FormulaParser) (workbook : WorkbookData)
    (sorted : TopologicallySortedNodes)
    (hsort : _topologicallySortCells fuel newDepParser (allCells workbook) workbook.variables_
      = some sorted) :
    MAX_ITER = 30 ∧
    ∃ final, evaluateWorkbookTrace fuel newDepParser formulaParser workbook = some final ∧
      final.calls.filter (fun c => decide (c.pass ≠ Pass.acyclic))
        = (List.range 30).flatMap (sweepCalls workbook sorted.recursiveNodes) ∧
      ∀ n ∈ sorted.recursiveNodes, isFormulaCellNode workbook n = true →
        final.calls.filter (fun c => decide (c.nodeId = n.id) && decide (c.pass ≠ Pass.acyclic))
            = (List.range 30).map (fun iter => ⟨Pass.sweep iter, n.id⟩) ∧
          (final.calls.filter
            (fun c => decide (c.nodeId = n.id) && decide (c.pass ≠ Pass.acyclic))).length
            = 30 := by
  refine ⟨rfl, ?_⟩
  have hids : (sorted.recursiveNodes.map DependencyNode.id).Nodup :=
    residual_ids_nodup fuel _ sorted hsort
  obtain ⟨hshape, htag⟩ := acyclicPass_spec workbook formulaParser
    (buildEvalCellIndex workbook) (buildEvalVariableIndex workbook)
    sorted.topologicallySortedNodes ⟨workbook, []⟩ (SameShape.refl workbook)
    (by intro c hc; cases hc)
  obtain ⟨_, hcalls⟩ := circularPass_spec workbook formulaParser
    (buildEvalCellIndex workbook) (buildEvalVariableIndex workbook) sorted.recursiveNodes
    MAX_ITER 0 _ (by simp) hshape
  have hfilter : (circularPass formulaParser (buildEvalCellIndex workbook)
        (buildEvalVariableIndex workbook) sorted.recursiveNodes MAX_ITER 0
        (sorted.topologicallySortedNodes.foldl
          (evaluateOrderedNode formulaParser (buildEvalCellIndex workbook)
            (buildEvalVariableIndex workbook)) ⟨workbook, []⟩)).calls.filter
        (fun c => decide (c.pass ≠ Pass.acyclic))
      = (List.range 30).flatMap (sweepCalls workbook sorted.recursiveNodes) := by
    rw [hcalls, List.filter_append]
    have h1 : (sorted.topologicallySortedNodes.foldl
          (evaluateOrderedNode formulaParser (buildEvalCellIndex workbook)
            (buildEvalVariableIndex workbook)) ⟨workbook, []⟩).calls.filter
          (fun c => decide (c.pass ≠ Pass.acyclic)) = [] := by
      rw [List.filter_eq_nil_iff]
      intro c hc
      simp [htag c hc]
    rw [h1, List.nil_append, List.filter_eq_self.2, List.range_eq_range']
    · rfl
    · intro c hc
      obtain ⟨iter, _, hmem⟩ := List.mem_flatMap.1 hc
      obtain ⟨n, _, hn⟩ := List.mem_map.1 hmem
      rw [← hn]
      simp
  refine ⟨_, ?_, hfilter, ?_⟩
  · unfold evaluateWorkbookTrace
    rw [hsort]
    rfl
  · intro n hn hformula
    have heq : (circularPass formulaParser (buildEvalCellIndex workbook)
          (buildEvalVariableIndex workbook) sorted.recursiveNodes MAX_ITER 0
          (sorted.topologicallySortedNodes.foldl
            (evaluateOrderedNode formulaParser (buildEvalCellIndex workbook)
              (buildEvalVariableIndex workbook)) ⟨workbook, []⟩)).calls.filter
          (fun c => decide (c.nodeId = n.id) && decide (c.pass ≠ Pass.acyclic))
        = (List.range 30).map (fun iter => ⟨Pass.sweep iter, n.id⟩) := by
      rw [← List.filter_filter, hfilter, List.range_eq_range']
      have hsw : ∀ iter, sweepCalls workbook sorted.recursiveNodes iter
          = ((sorted.recursiveNodes.filter (isFormulaCellNode workbook)).map
              DependencyNode.id).map (fun k => (⟨Pass.sweep iter, k⟩ : EvalCall)) := by
        intro iter
        unfold sweepCalls
        rw [List.map_map]
        rfl
      rw [funext hsw]
      exact sweeps_filter_node n.id _
        (List.Nodup.sublist (List.Sublist.map _ (List.filter_sublist _)) hids)
        (List.mem_map_of_mem _ (List.mem_filter.2 ⟨hn, hformula⟩)) 30 0
    exact ⟨heq, by rw [heq, List.length_map, List.length_range]⟩

/-- C13 at two mutually circular cells, `A1 = A2 + 1` and `A2 = A1 + 1`: both are residual. -/
theorem C13_thirty_sweeps_witness :
    _topologicallySortCells 2 cycleDepParser (allCells cycleWorkbook) cycleWorkbook.variables_
      = some ⟨[], cycleResidual⟩ ∧
    (MAX_ITER = 30 ∧
    ∃ final, evaluateWorkbookTrace 2 cycleDepParser cycleFormulaParser cycleWorkbook
        = some final ∧
      final.calls.filter (fun c => decide (c.pass ≠ Pass.acyclic))
        = (List.range 30).flatMap (sweepCalls cycleWorkbook
            (TopologicallySortedNodes.mk [] cycleResidual).recursiveNodes) ∧
      ∀ n ∈ (TopologicallySortedNodes.mk [] cycleResidual).recursiveNodes,
        isFormulaCellNode cycleWorkbook n = true →
        final.calls.filter (fun c => decide (c.nodeId = n.id) && decide (c.pass ≠ Pass.acyclic))
            = (List.range 30).map (fun iter => ⟨Pass.sweep iter, n.id⟩) ∧
          (final.calls.filter
            (fun c => decide (c.nodeId = n.id) && decide (c.pass ≠ Pass.acyclic))).length
            = 30) :=
  ⟨by decide, C13_thirty_sweeps 2 cycleDepParser cycleFormulaParser cycleWorkbook
    ⟨[], cycleResidual⟩ (by decide)⟩

/-! ## The two lookup objects of `evaluateWorkbook` -/

theorem pairsFold_other {α : Type} (k : String) (ps : List (String × α)) :
    ∀ (acc : JSObject α), k ∉ ps.map Prod.fst →
      objGet (ps.foldl (fun o p => objSet o p.1 p.2) acc) k = objGet acc k := by
  induction ps with
  | nil =>
    intro acc _
    rfl
  | cons p ps ih =>
    intro acc hk
    rw [List.map_cons, List.mem_cons, not_or] at hk
    rw [List.foldl_cons, ih _ hk.2, objGet_objSet, if_neg hk.1]

theorem pairsFold_sound {α : Type} (k : String) (v : α) (ps : List (String × α)) :
    ∀ (acc : JSObject α), objGet (ps.foldl (fun o p => objSet o p.1 p.2) acc) k = some v →
      (k, v) ∈ ps ∨ objGet acc k = some v := by
  induction ps with
  | nil =>
    intro acc h
    exact Or.inr h
  | cons p ps ih =>
    intro acc h
    rw [List.foldl_cons] at h
    rcases ih _ h with h1 | h1
    · exact Or.inl (List.mem_cons_of_mem _ h1)
    · rw [objGet_objSet] at h1
      by_cases hk : k = p.1
      · rw [if_pos hk] at h1
        refine Or.inl ?_
        rw [← Option.some.inj h1, hk]
        exact List.mem_cons_self _ _
      · rw [if_neg hk] at h1
        exact Or.inr h1

theorem pairsFold_complete {α : Type} (k : String) (v : α) (ps : List (String × α)) :
    ∀ (acc : JSObject α), (ps.map Prod.fst).Nodup → (k, v) ∈ ps →
      objGet (ps.foldl (fun o p => objSet o p.1 p.2) acc) k = some v := by
  induction ps with
  | nil =>
    intro acc _ h
    cases h
  | cons p ps ih =>
    intro acc hnd h
    rw [List.map_cons, List.nodup_cons] at hnd
    rw [List.foldl_cons]
    rcases List.mem_cons.1 h with h1 | h1
    · rw [← h1] at hnd
      rw [pairsFold_other k ps _ hnd.1, ← h1, objGet_objSet, if_pos rfl]
    · exact ih _ hnd.2 h1

/-- The pairs that the loop `for (const cell of allCells)` writes into `cellIndex`. -/
theorem buildEvalCellIndex_eq (workbook : WorkbookData) :
    buildEvalCellIndex workbook
      = ((allCellLocs workbook).filterMap (fun loc =>
          (cellAt workbook loc).map (fun c => (_hashCellAddress c.address, loc)))).foldl
          (fun o p => objSet o p.1 p.2) [] := by
  unfold buildEvalCellIndex
  generalize ([] : JSObject CellLoc) = acc
  induction allCellLocs workbook generalizing acc with
  | nil => rfl
  | cons loc locs ih =>
    rw [List.foldl_cons]
    cases hc : cellAt workbook loc with
    | none =>
      rw [List.filterMap_cons_none (by rw [hc]; rfl)]
      exact ih acc
    | some c =>
      rw [List.filterMap_cons_some (by rw [hc]; rfl), List.foldl_cons]
      exact ih _

theorem cellIndex_keys (workbook : WorkbookData) :
    ((allCellLocs workbook).filterMap (fun loc =>
        (cellAt workbook loc).map (fun c => (_hashCellAddress c.address, loc)))).map Prod.fst
      = (allCells workbook).map (fun c => _hashCellAddress c.address) := by
  unfold allCells
  induction allCellLocs workbook with
  | nil => rfl
  | cons loc locs ih =>
    cases hc : cellAt workbook loc with
    | none =>
      rw [List.filterMap_cons_none (by rw [hc]; rfl), List.filterMap_cons_none hc]
      exact ih
    | some c =>
      rw [List.filterMap_cons_some (by rw [hc]; rfl), List.filterMap_cons_some hc,
        List.map_cons, List.map_cons, ih]

theorem mem_allCellLocs (workbook : WorkbookData) (loc : CellLoc) (c : CellData)
    (h : cellAt workbook loc = some c) : loc ∈ allCellLocs workbook := by
  obtain ⟨sk, ak⟩ := loc
  unfold cellAt at h
  simp only at h
  cases hs : objGet workbook.sheets sk with
  | none =>
    rw [hs] at h
    cases h
  | some sheet =>
    rw [hs, Option.some_bind] at h
    unfold allCellLocs
    rw [List.mem_flatMap]
    refine ⟨sk, ?_, ?_⟩
    · rw [mem_objKeys, ← objGet_isSome_iff, hs]
      rfl
    · rw [hs]
      simp only [List.mem_map]
      refine ⟨ak, ?_, rfl⟩
      rw [mem_objKeys, ← objGet_isSome_iff, h]
      rfl

/-- Every entry of `cellIndex` leads from the identity of a cell object to its place. -/
theorem cellIndex_sound (workbook : WorkbookData) (k : String) (loc : CellLoc)
    (h : objGet (buildEvalCellIndex workbook) k = some loc) :
    ∃ c, cellAt workbook loc = some c ∧ _hashCellAddress c.address = k := by
  rw [buildEvalCellIndex_eq] at h
  rcases pairsFold_sound k loc _ [] h with h1 | h1
  · obtain ⟨l, _, hl⟩ := List.mem_filterMap.1 h1
    cases hc : cellAt workbook l with
    | none =>
      rw [hc] at hl
      cases hl
    | some c =>
      rw [hc, Option.map_some', Option.some.injEq, Prod.mk.injEq] at hl
      exact ⟨c, hl.2 ▸ hc, hl.1⟩
  · simp [objGet] at h1

/-- When the cell objects have pairwise distinct identities, `cellIndex` leads from the
identity of every cell object to its own place. -/
theorem cellIndex_complete (workbook : WorkbookData)
    (hid : ((allCells workbook).map (fun c => _hashCellAddress c.address)).Nodup)
    (loc : CellLoc) (c : CellData) (h : cellAt workbook loc = some c) :
    objGet (buildEvalCellIndex workbook) (_hashCellAddress c.address) = some loc := by
  rw [buildEvalCellIndex_eq]
  apply pairsFold_complete
  · rw [cellIndex_keys]
    exact hid
  · rw [List.mem_filterMap]
    exact ⟨loc, mem_allCellLocs workbook loc c h, by rw [h]; rfl⟩

theorem buildEvalVariableIndex_eq (workbook : WorkbookData) :
    buildEvalVariableIndex workbook
      = (workbook.variables_.enum.map (fun p => (p.2.name, p.1))).foldl
          (fun o p => objSet o p.1 p.2) [] := by
  unfold buildEvalVariableIndex
  rw [List.foldl_map]

/-- Every entry of `variableIndex` leads from the name of a variable object to its position. -/
theorem variableIndex_sound (workbook : WorkbookData) (k : String) (i : Nat)
    (h : objGet (buildEvalVariableIndex workbook) k = some i) :
    ∃ v, workbook.variables_[i]? = some v ∧ v.name = k := by
  rw [buildEvalVariableIndex_eq] at h
  rcases pairsFold_sound k i _ [] h with h1 | h1
  · obtain ⟨p, hp, hpk⟩ := List.mem_map.1 h1
    rw [Prod.mk.injEq] at hpk
    rw [List.mem_enum_iff_getElem?] at hp
    exact ⟨p.2, hpk.2 ▸ hp, hpk.1⟩
  · simp [objGet] at h1

/-- When the variables have pairwise distinct names, `variableIndex` leads from the name of
every variable object to its own position. -/
theorem variableIndex_complete (workbook : WorkbookData)
    (hid : (workbook.variables_.map VariableData.name).Nodup) (i : Nat) (v : VariableData)
    (h : workbook.variables_[i]? = some v) :
    objGet (buildEvalVariableIndex workbook) v.name = some i := by
  rw [buildEvalVariableIndex_eq]
  apply pairsFold_complete
  · rw [List.map_map]
    have : (Prod.fst ∘ fun (p : Nat × VariableData) => (p.2.name, p.1))
        = VariableData.name ∘ Prod.snd := rfl
    rw [this, ← List.map_map, List.enum_map_snd]
    exact hid
  · rw [List.mem_map]
    exact ⟨(i, v), List.mk_mem_enum_iff_getElem?.2 h, rfl⟩

/-! ## The ids of the nodes that the graph builder returns -/

theorem createNode_id (parser : DepParser) (id formula : String) (row col : Nat)
    (sheet : Option String) (cellIndex : Option CellIndex) :
    (_createDependencyNodeWithFormula parser id formula row col sheet cellIndex).id = id := by
  unfold _createDependencyNodeWithFormula
  cases parser (stripEquals formula) (orOne row) (orOne col) <;> rfl

theorem convertCell_id (parser : DepParser) (cell : CellData) (cellIndex : Option CellIndex) :
    (_convertCellToDependencyNode parser cell cellIndex).id
      = _hashCellAddress cell.address := by
  obtain ⟨type, address, formulaData, value⟩ := cell
  unfold _convertCellToDependencyNode
  cases type with
  | constant => rfl
  | formula =>
    cases formulaData with
    | none => rfl
    | some fd =>
      by_cases h : fd.formulaString = ""
      · simp only [h, if_true]
      · simp only [h, if_false]
        exact createNode_id _ _ _ _ _ _ _

theorem convertVariable_id (parser : DepParser) (variableData : VariableData)
    (cellIndex : Option CellIndex) :
    (_convertVariableToDependencyNode parser variableData cellIndex).id
      = variableData.name := by
  unfold _convertVariableToDependencyNode
  by_cases h : truthy variableData.formula = true
  · rw [if_pos h]
    exact createNode_id _ _ _ _ _ _ _
  · rw [if_neg h]

theorem buildDependencies_ids (newDepParser : (String → Bool) → DepParser)
    (workbook : WorkbookData) :
    (buildDependencies newDepParser (allCells workbook) workbook.variables_).map
        DependencyNode.id = nodeIds workbook := by
  unfold buildDependencies nodeIds
  simp only [List.map_append, List.map_map]
  congr 1
  · apply List.map_congr_left
    intro c _
    exact convertCell_id _ _ _
  · apply List.map_congr_left
    intro v _
    exact convertVariable_id _ _ _

/-- On a workbook with pairwise distinct node ids `evaluateWorkbook` returns as soon as the
fuel covers one scheduler iteration per node, whatever the reference extractor and the
evaluator do. -/
theorem evaluateWorkbookTrace_returns (fuel : Nat)
    (newDepParser : (String → Bool) → DepParser) (formulaParser : FormulaParser)
    (workbook : WorkbookData) (hid : (nodeIds workbook).Nodup)
    (hfuel : (nodeIds workbook).length ≤ fuel) :
    ∃ sorted final,
      _topologicallySortCells fuel newDepParser (allCells workbook) workbook.variables_
        = some sorted ∧
      TopoFacts (buildDependencies newDepParser (allCells workbook) workbook.variables_)
        sorted ∧
      evaluateWorkbookTrace fuel newDepParser formulaParser workbook = some final ∧
      final = circularPass formulaParser (buildEvalCellIndex workbook)
        (buildEvalVariableIndex workbook) sorted.recursiveNodes MAX_ITER 0
        (sorted.topologicallySortedNodes.foldl
          (evaluateOrderedNode formulaParser (buildEvalCellIndex workbook)
            (buildEvalVariableIndex workbook)) ⟨workbook, []⟩) := by
  have hid2 : ((buildDependencies newDepParser (allCells workbook)
      workbook.variables_).map DependencyNode.id).Nodup := by
    rw [buildDependencies_ids]
    exact hid
  have hlen : (buildDependencies newDepParser (allCells workbook)
      workbook.variables_).length ≤ fuel := by
    rw [← List.length_map _ DependencyNode.id, buildDependencies_ids]
    exact hfuel
  obtain ⟨sorted, hs⟩ := topo_terminates _ hid2 fuel hlen
  refine ⟨sorted, _, hs, topo_facts _ hid2 fuel sorted hs, ?_, rfl⟩
  unfold evaluateWorkbookTrace
  have hs2 : _topologicallySortCells fuel newDepParser (allCells workbook)
      workbook.variables_ = some sorted := hs
  rw [hs2]
  rfl

/-! ## What a step leaves alone -/

theorem evaluateOrderedNode_frame_cell (initial : WorkbookData) (formulaParser : FormulaParser)
    (variableIndex : JSObject Nat) (st : EvalState) (node : DependencyNode)
    (loc : CellLoc) (c0 : CellData) (hc0 : cellAt initial loc = some c0)
    (hne : node.id ≠ _hashCellAddress c0.address) :
    cellAt (evaluateOrderedNode formulaParser (buildEvalCellIndex initial) variableIndex st
      node).workbook loc = cellAt st.workbook loc := by
  rcases (evaluateOrderedNode_spec formulaParser (buildEvalCellIndex initial) variableIndex st
    node).2 with h1 | ⟨l, f, hl, _, h1⟩ | ⟨i, result, _, h1⟩
  · rw [h1]
  · rw [h1, cellAt_updateCell]
    by_cases hll : loc = l
    · exfalso
      obtain ⟨c, hc, hck⟩ := cellIndex_sound initial node.id l hl
      rw [← hll, hc0, Option.some.injEq] at hc
      exact hne (hc ▸ hck.symm)
    · rw [if_neg hll]
  · rw [h1]
    rfl

theorem evaluateRecursiveNode_frame_cell (initial : WorkbookData)
    (formulaParser : FormulaParser) (variableIndex : JSObject Nat) (iter : Nat)
    (st : EvalState) (node : DependencyNode) (loc : CellLoc) (c0 : CellData)
    (hc0 : cellAt initial loc = some c0) (hne : node.id ≠ _hashCellAddress c0.address) :
    cellAt (evaluateRecursiveNode formulaParser (buildEvalCellIndex initial) variableIndex iter
      st node).workbook loc = cellAt st.workbook loc := by
  rcases (evaluateRecursiveNode_spec formulaParser (buildEvalCellIndex initial) variableIndex
    iter st node).2 with h1 | ⟨l, result, hl, h1⟩
  · rw [h1]
  · rw [h1, cellAt_updateCell]
    by_cases hll : loc = l
    · exfalso
      obtain ⟨c, hc, hck⟩ := cellIndex_sound initial node.id l hl
      rw [← hll, hc0, Option.some.injEq] at hc
      exact hne (hc ▸ hck.symm)
    · rw [if_neg hll]

theorem evaluateOrderedNode_frame_variable (initial : WorkbookData)
    (formulaParser : FormulaParser) (cellIndex : JSObject CellLoc) (st : EvalState)
    (node : DependencyNode) (i : Nat)
    (v0 : VariableData) (hv0 : initial.variables_[i]? = some v0) (hne : node.id ≠ v0.name) :
    (evaluateOrderedNode formulaParser cellIndex (buildEvalVariableIndex initial) st
      node).workbook.variables_[i]? = st.workbook.variables_[i]? := by
  rcases (evaluateOrderedNode_spec formulaParser cellIndex (buildEvalVariableIndex initial) st
    node).2 with h1 | ⟨l, f, _, _, h1⟩ | ⟨j, result, hj, h1⟩
  · rw [h1]
  · rw [h1, updateCell_variables]
  · rw [h1]
    unfold updateVariable
    simp only
    rw [List.getElem?_modify]
    by_cases hji : j = i
    · exfalso
      obtain ⟨v, hv, hvk⟩ := variableIndex_sound initial node.id j hj
      rw [hji, hv0, Option.some.injEq] at hv
      exact hne (hv ▸ hvk.symm)
    · simp only [hji, if_false]
      cases st.workbook.variables_[i]? <;> rfl

/-! ## A cached cell in the acyclic pass, and what the circular pass leaves alone -/

theorem evaluateOrderedNode_cached (formulaParser : FormulaParser)
    (cellIndex : JSObject CellLoc) (variableIndex : JSObject Nat) (st : EvalState)
    (node : DependencyNode) (loc : CellLoc) (cell : CellData) (fd : FormulaData)
    (hl : objGet cellIndex node.id = some loc) (hc : cellAt st.workbook loc = some cell)
    (hfd : cell.formulaData = some fd)
    (hcache : fd.cachesResult ≠ JSValue.undefined ∧ fd.cachesResult ≠ JSValue.null) :
    (evaluateOrderedNode formulaParser cellIndex variableIndex st node).calls = st.calls ∧
    cellAt (evaluateOrderedNode formulaParser cellIndex variableIndex st node).workbook loc
      = some { cell with value := fd.cachesResult } := by
  rw [evaluateOrderedNode_cell formulaParser cellIndex variableIndex st node loc cell hl hc]
  obtain ⟨type, address, formulaData, value⟩ := cell
  simp only at hfd
  subst hfd
  simp only [hcache, and_self, if_true, ne_eq, not_false_eq_true]
  rw [cellAt_updateCell, if_pos rfl, hc]
  exact ⟨trivial, rfl⟩

theorem evaluateOrderedNode_calls_mem (formulaParser : FormulaParser)
    (cellIndex : JSObject CellLoc) (variableIndex : JSObject Nat) (st : EvalState)
    (node : DependencyNode) (c : EvalCall)
    (hc : c ∈ (evaluateOrderedNode formulaParser cellIndex variableIndex st node).calls) :
    c ∈ st.calls ∨ c = ⟨Pass.acyclic, node.id⟩ := by
  rw [(evaluateOrderedNode_spec formulaParser cellIndex variableIndex st node).1] at hc
  rcases List.mem_append.1 hc with h1 | h1
  · exact Or.inl h1
  · by_cases hne : needsEvaluation st.workbook cellIndex variableIndex node.id = true
    · rw [if_pos hne, List.mem_singleton] at h1
      exact Or.inr h1
    · rw [if_neg hne] at h1
      cases h1

/-- A cell with a cached result goes through the acyclic pass unevaluated; once its node has
been met, its `value` is its cached result. -/
theorem acyclicPass_cached (initial : WorkbookData) (formulaParser : FormulaParser)
    (variableIndex : JSObject Nat)
    (hid : ((allCells initial).map (fun c => _hashCellAddress c.address)).Nodup)
    (loc : CellLoc) (cell : CellData) (fd : FormulaData)
    (hcell : cellAt initial loc = some cell) (hfd : cell.formulaData = some fd)
    (hcache : fd.cachesResult ≠ JSValue.undefined ∧ fd.cachesResult ≠ JSValue.null)
    (nodes : List DependencyNode) : ∀ (st : EvalState),
    (cellAt st.workbook loc = some cell
      ∨ cellAt st.workbook loc = some { cell with value := fd.cachesResult }) →
    (∀ c ∈ st.calls, c.nodeId ≠ _hashCellAddress cell.address) →
    (cellAt (nodes.foldl (evaluateOrderedNode formulaParser (buildEvalCellIndex initial)
          variableIndex) st).workbook loc = some cell
      ∨ cellAt (nodes.foldl (evaluateOrderedNode formulaParser (buildEvalCellIndex initial)
          variableIndex) st).workbook loc = some { cell with value := fd.cachesResult }) ∧
    (∀ c ∈ (nodes.foldl (evaluateOrderedNode formulaParser (buildEvalCellIndex initial)
        variableIndex) st).calls, c.nodeId ≠ _hashCellAddress cell.address) ∧
    ((_hashCellAddress cell.address ∈ nodes.map DependencyNode.id
        ∨ cellAt st.workbook loc = some { cell with value := fd.cachesResult }) →
      cellAt (nodes.foldl (evaluateOrderedNode formulaParser (buildEvalCellIndex initial)
          variableIndex) st).workbook loc = some { cell with value := fd.cachesResult }) := by
  induction nodes with
  | nil =>
    intro st hinv hcalls
    refine ⟨hinv, hcalls, ?_⟩
    rintro (h | h)
    · cases h
    · exact h
  | cons n nodes ih =>
    intro st hinv hcalls
    rw [List.foldl_cons]
    by_cases hn : n.id = _hashCellAddress cell.address
    · have hl : objGet (buildEvalCellIndex initial) n.id = some loc := by
        rw [hn]
        exact cellIndex_complete initial hid loc cell hcell
      have hstep : (evaluateOrderedNode formulaParser (buildEvalCellIndex initial)
            variableIndex st n).calls = st.calls ∧
          cellAt (evaluateOrderedNode formulaParser (buildEvalCellIndex initial)
            variableIndex st n).workbook loc = some { cell with value := fd.cachesResult } := by
        rcases hinv with h | h
        · exact evaluateOrderedNode_cached formulaParser _ variableIndex st n loc cell fd hl h
            hfd hcache
        · exact evaluateOrderedNode_cached formulaParser _ variableIndex st n loc
            { cell with value := fd.cachesResult } fd hl h hfd hcache
      obtain ⟨h1, h2, h3⟩ := ih _ (Or.inr hstep.2) (by rw [hstep.1]; exact hcalls)
      exact ⟨h1, h2, fun _ => h3 (Or.inr hstep.2)⟩
    · have hframe := evaluateOrderedNode_frame_cell initial formulaParser variableIndex st n
        loc cell hcell hn
      have hcalls1 : ∀ c ∈ (evaluateOrderedNode formulaParser (buildEvalCellIndex initial)
          variableIndex st n).calls, c.nodeId ≠ _hashCellAddress cell.address := by
        intro c hc
        rcases evaluateOrderedNode_calls_mem formulaParser _ variableIndex st n c hc
          with h | h
        · exact hcalls c h
        · rw [h]
          exact hn
      obtain ⟨h1, h2, h3⟩ := ih _ (by rw [hframe]; exact hinv) hcalls1
      refine ⟨h1, h2, ?_⟩
      rintro (h | h)
      · rcases List.mem_cons.1 h with h4 | h4
        · exact absurd h4.symm hn
        · exact h3 (Or.inl h4)
      · exact h3 (Or.inr (by rw [hframe]; exact h))

theorem sweep_frame (initial : WorkbookData) (formulaParser : FormulaParser)
    (variableIndex : JSObject Nat) (iter : Nat) (loc : CellLoc) (c0 : CellData)
    (hc0 : cellAt initial loc = some c0) (nodes : List DependencyNode)
    (hnodes : ∀ n ∈ nodes, n.id ≠ _hashCellAddress c0.address) : ∀ (st : EvalState),
    cellAt (nodes.foldl (evaluateRecursiveNode formulaParser (buildEvalCellIndex initial)
        variableIndex iter) st).workbook loc = cellAt st.workbook loc ∧
    ∀ c ∈ (nodes.foldl (evaluateRecursiveNode formulaParser (buildEvalCellIndex initial)
        variableIndex iter) st).calls,
      c ∈ st.calls ∨ c.nodeId ≠ _hashCellAddress c0.address := by
  induction nodes with
  | nil =>
    intro st
    exact ⟨rfl, fun c hc => Or.inl hc⟩
  | cons n nodes ih =>
    intro st
    rw [List.foldl_cons]
    have hn := hnodes n (List.mem_cons_self _ _)
    obtain ⟨h1, h2⟩ := ih (fun m hm => hnodes m (List.mem_cons_of_mem _ hm))
      (evaluateRecursiveNode formulaParser (buildEvalCellIndex initial) variableIndex iter st n)
    refine ⟨?_, ?_⟩
    · rw [h1]
      exact evaluateRecursiveNode_frame_cell initial formulaParser variableIndex iter st n loc
        c0 hc0 hn
    · intro c hc
      rcases h2 c hc with h3 | h3
      · rw [(evaluateRecursiveNode_spec formulaParser (buildEvalCellIndex initial)
          variableIndex iter st n).1] at h3
        rcases List.mem_append.1 h3 with h4 | h4
        · exact Or.inl h4
        · refine Or.inr ?_
          by_cases hf : shapeIsFormula ((nodeCell st.workbook (buildEvalCellIndex initial)
              n.id).map cellShape) = true
          · rw [if_pos hf, List.mem_singleton] at h4
            rw [h4]
            exact hn
          · rw [if_neg hf] at h4
            cases h4
      · exact Or.inr h3

/-- The circular pass neither changes nor evaluates a cell whose identity is the id of no
residual node. -/
theorem circularPass_frame (initial : WorkbookData) (formulaParser : FormulaParser)
    (variableIndex : JSObject Nat) (loc : CellLoc) (c0 : CellData)
    (hc0 : cellAt initial loc = some c0) (nodes : List DependencyNode)
    (hnodes : ∀ n ∈ nodes, n.id ≠ _hashCellAddress c0.address) (remaining : Nat) :
    ∀ (iter : Nat) (st : EvalState),
    cellAt (circularPass formulaParser (buildEvalCellIndex initial) variableIndex nodes
        remaining iter st).workbook loc = cellAt st.workbook loc ∧
    ∀ c ∈ (circularPass formulaParser (buildEvalCellIndex initial) variableIndex nodes
        remaining iter st).calls,
      c ∈ st.calls ∨ c.nodeId ≠ _hashCellAddress c0.address := by
  induction remaining with
  | zero =>
    intro iter st
    unfold circularPass
    exact ⟨rfl, fun c hc => Or.inl hc⟩
  | succ remaining ih =>
    intro iter st
    unfold circularPass
    by_cases hlt : iter < MAX_ITER
    · rw [if_pos hlt]
      obtain ⟨h1, h2⟩ := sweep_frame initial formulaParser variableIndex iter loc c0 hc0 nodes
        hnodes st
      obtain ⟨h3, h4⟩ := ih (iter + 1) (nodes.foldl (evaluateRecursiveNode formulaParser
        (buildEvalCellIndex initial) variableIndex iter) st)
      refine ⟨h3.trans h1, ?_⟩
      intro c hc
      rcases h4 c hc with h5 | h5
      · exact h2 c h5
      · exact Or.inr h5
    · rw [if_neg hlt]
      exact ⟨rfl, fun c hc => Or.inl hc⟩

set_option maxRecDepth 100000 in
/-- C12 fails as stated. The cell `A1 = A1` with cached result 5 lands in the residual list,
is passed to the evaluator in each of the 30 sweeps and ends with the value 7 that the evaluator
returned. And a cached formula cell whose identity is shared by a cell object stored after it
is never looked at: its value stays `undefined`. -/
theorem C12_counterexample :
    (cellAt cachedSelfWorkbook ⟨"Sheet1", "A1"⟩
        = some ⟨CellType.formula, ⟨1, 1, some "Sheet1"⟩,
            some ⟨"=A1", JSValue.number 5⟩, JSValue.number 5⟩ ∧
      (evaluateWorkbookTrace 1 sampleDepParser sevenFormulaParser cachedSelfWorkbook).map
          (fun final => (final.calls, cellAt final.workbook ⟨"Sheet1", "A1"⟩))
        = some ((List.range 30).map (fun iter => ⟨Pass.sweep iter, "Sheet1-1-1"⟩),
            some ⟨CellType.formula, ⟨1, 1, some "Sheet1"⟩,
              some ⟨"=A1", JSValue.number 7⟩, JSValue.number 7⟩)) ∧
    (cellAt shadowedWorkbook ⟨"Sheet1", "A1"⟩
        = some ⟨CellType.formula, ⟨1, 1, some "Sheet1"⟩,
            some ⟨"=1", JSValue.number 5⟩, JSValue.undefined⟩ ∧
      (evaluateWorkbookTrace 2 sampleDepParser sevenFormulaParser shadowedWorkbook).map
          (fun final => (final.calls, cellAt final.workbook ⟨"Sheet1", "A1"⟩))
        = some ([], some ⟨CellType.formula, ⟨1, 1, some "Sheet1"⟩,
            some ⟨"=1", JSValue.number 5⟩, JSValue.undefined⟩)) := by
  decide

/-- C12 as amended: on a workbook with pairwise distinct node ids the call returns, and a cell
whose `cachesResult` is set (neither `undefined` nor `null`) at the call and whose node lands in
the sorted list is never passed to the evaluator, in either pass; after the call it is the cell
it was with `value` overwritten by exactly that `cachesResult`. -/
theorem C12_cached_ordered (fuel : Nat) (newDepParser : (String → Bool) → DepParser)
    (formulaParser : FormulaParser) (workbook : WorkbookData)
    (hid : (nodeIds workbook).Nodup) (hfuel : (nodeIds workbook).length ≤ fuel)
    (loc : CellLoc) (cell : CellData) (fd : FormulaData)
    (hcell : cellAt workbook loc = some cell) (hfd : cell.formulaData = some fd)
    (hcache : fd.cachesResult ≠ JSValue.undefined ∧ fd.cachesResult ≠ JSValue.null) :
    ∃ sorted final,
      _topologicallySortCells fuel newDepParser (allCells workbook) workbook.variables_
        = some sorted ∧
      evaluateWorkbookTrace fuel newDepParser formulaParser workbook = some final ∧
      (_hashCellAddress cell.address ∈ sorted.topologicallySortedNodes.map DependencyNode.id →
        (∀ c ∈ final.calls, c.nodeId ≠ _hashCellAddress cell.address) ∧
        cellAt final.workbook loc = some { cell with value := fd.cachesResult }) := by
  obtain ⟨sorted, final, hsort, facts, htrace, hfinal⟩ :=
    evaluateWorkbookTrace_returns fuel newDepParser formulaParser workbook hid hfuel
  refine ⟨sorted, final, hsort, htrace, ?_⟩
  intro hmem
  have hidc : ((allCells workbook).map (fun c => _hashCellAddress c.address)).Nodup :=
    (List.nodup_append.1 hid).1
  have hid2 : ((buildDependencies newDepParser (allCells workbook)
      workbook.variables_).map DependencyNode.id).Nodup := by
    rw [buildDependencies_ids]
    exact hid
  obtain ⟨_, hcalls1, hvalue1⟩ := acyclicPass_cached workbook formulaParser
    (buildEvalVariableIndex workbook) hidc loc cell fd hcell hfd hcache
    sorted.topologicallySortedNodes ⟨workbook, []⟩ (Or.inl hcell)
    (by intro c hc; cases hc)
  have hres : ∀ n ∈ sorted.recursiveNodes, n.id ≠ _hashCellAddress cell.address := by
    intro n hn hnid
    obtain ⟨m, hm, hmid⟩ := List.mem_map.1 hmem
    have hn2 := (facts.residual n).1 hn
    have := eq_of_id_eq _ hid2 m n (facts.sortedMem m hm) hn2.1 (hmid.trans hnid.symm)
    exact hn2.2 (this ▸ hm)
  obtain ⟨hcell2, hcalls2⟩ := circularPass_frame workbook formulaParser
    (buildEvalVariableIndex workbook) loc cell hcell sorted.recursiveNodes hres MAX_ITER 0
    (sorted.topologicallySortedNodes.foldl
      (evaluateOrderedNode formulaParser (buildEvalCellIndex workbook)
        (buildEvalVariableIndex workbook)) ⟨workbook, []⟩)
  rw [hfinal]
  refine ⟨?_, ?_⟩
  · intro c hc
    rcases hcalls2 c hc with h | h
    · exact hcalls1 c h
    · exact h
  · rw [hcell2]
    exact hvalue1 (Or.inl hmem)

/-- C12 as amended, at the cached cell `A2 = A1 * 2` next to the constant `A1`: the cell keeps
its cached result 7 and gets it as value. -/
theorem C12_cached_ordered_witness :
    (nodeIds cachedWorkbook).Nodup ∧ (nodeIds cachedWorkbook).length ≤ 2 ∧
    cellAt cachedWorkbook ⟨"Sheet1", "A2"⟩
      = some ⟨CellType.formula, ⟨2, 1, some "Sheet1"⟩,
          some ⟨"=A1 * 2", JSValue.number 7⟩, JSValue.undefined⟩ ∧
    ∃ sorted final,
      _topologicallySortCells 2 chainDepParser (allCells cachedWorkbook)
        cachedWorkbook.variables_ = some sorted ∧
      evaluateWorkbookTrace 2 chainDepParser chainFormulaParser cachedWorkbook = some final ∧
      ("Sheet1-2-1" ∈ sorted.topologicallySortedNodes.map DependencyNode.id →
        (∀ c ∈ final.calls, c.nodeId ≠ "Sheet1-2-1") ∧
        cellAt final.workbook ⟨"Sheet1", "A2"⟩
          = some ⟨CellType.formula, ⟨2, 1, some "Sheet1"⟩,
              some ⟨"=A1 * 2", JSValue.number 7⟩, JSValue.number 7⟩) :=
  ⟨by decide, by decide, by decide,
    C12_cached_ordered 2 chainDepParser chainFormulaParser cachedWorkbook (by decide)
      (by decide) ⟨"Sheet1", "A2"⟩
      ⟨CellType.formula, ⟨2, 1, some "Sheet1"⟩, some ⟨"=A1 * 2", JSValue.number 7⟩,
        JSValue.undefined⟩
      ⟨"=A1 * 2", JSValue.number 7⟩ (by decide) rfl (by decide)⟩

/-! ## The calls of the acyclic pass -/

theorem evaluateOrderedNode_frame_needs (initial : WorkbookData)
    (formulaParser : FormulaParser) (st : EvalState) (node : DependencyNode) (id : String)
    (hne : node.id ≠ id) :
    needsEvaluation (evaluateOrderedNode formulaParser (buildEvalCellIndex initial)
        (buildEvalVariableIndex initial) st node).workbook (buildEvalCellIndex initial)
        (buildEvalVariableIndex initial) id
      = needsEvaluation st.workbook (buildEvalCellIndex initial)
          (buildEvalVariableIndex initial) id := by
  have hcell : nodeCell (evaluateOrderedNode formulaParser (buildEvalCellIndex initial)
        (buildEvalVariableIndex initial) st node).workbook (buildEvalCellIndex initial) id
      = nodeCell st.workbook (buildEvalCellIndex initial) id := by
    unfold nodeCell
    cases hl : objGet (buildEvalCellIndex initial) id with
    | none => rfl
    | some loc =>
      obtain ⟨c0, hc0, hk⟩ := cellIndex_sound initial id loc hl
      exact evaluateOrderedNode_frame_cell initial formulaParser _ st node loc c0 hc0
        (by rw [hk]; exact hne)
  have hvar : nodeVariable (evaluateOrderedNode formulaParser (buildEvalCellIndex initial)
        (buildEvalVariableIndex initial) st node).workbook (buildEvalVariableIndex initial) id
      = nodeVariable st.workbook (buildEvalVariableIndex initial) id := by
    unfold nodeVariable
    cases hi : objGet (buildEvalVariableIndex initial) id with
    | none => rfl
    | some i =>
      obtain ⟨v0, hv0, hk⟩ := variableIndex_sound initial id i hi
      exact evaluateOrderedNode_frame_variable initial formulaParser _ st node i v0 hv0
        (by rw [hk]; exact hne)
  unfold needsEvaluation
  rw [hcell, hvar]

/-- On a list of nodes with pairwise distinct ids the acyclic pass calls the evaluator once for
each node that needed evaluation when the pass began, in list order, and for nothing else. -/
theorem acyclicPass_calls (initial : WorkbookData) (formulaParser : FormulaParser)
    (nodes : List DependencyNode) : ∀ (st : EvalState),
    (nodes.map DependencyNode.id).Nodup →
    (∀ n ∈ nodes, needsEvaluation st.workbook (buildEvalCellIndex initial)
        (buildEvalVariableIndex initial) n.id
      = needsEvaluation initial (buildEvalCellIndex initial)
          (buildEvalVariableIndex initial) n.id) →
    (nodes.foldl (evaluateOrderedNode formulaParser (buildEvalCellIndex initial)
        (buildEvalVariableIndex initial)) st).calls
      = st.calls ++ (nodes.filter (fun n => needsEvaluation initial
          (buildEvalCellIndex initial) (buildEvalVariableIndex initial) n.id)).map
          (fun n => ⟨Pass.acyclic, n.id⟩) := by
  induction nodes with
  | nil =>
    intro st _ _
    simp
  | cons n nodes ih =>
    intro st hnd hneeds
    rw [List.map_cons, List.nodup_cons] at hnd
    rw [List.foldl_cons, ih _ hnd.2, (evaluateOrderedNode_spec formulaParser _ _ st n).1,
      hneeds n (List.mem_cons_self _ _)]
    · by_cases hp : needsEvaluation initial (buildEvalCellIndex initial)
          (buildEvalVariableIndex initial) n.id = true
      · rw [if_pos hp]
        simp [List.filter_cons, hp]
      · rw [if_neg hp]
        simp [List.filter_cons, hp]
    · intro m hm
      rw [evaluateOrderedNode_frame_needs initial formulaParser st n m.id]
      · exact hneeds m (List.mem_cons_of_mem _ hm)
      · intro h
        exact hnd.1 (h ▸ List.mem_map_of_mem _ hm)

theorem needsEvaluation_cell (workbook : WorkbookData) (hid : (nodeIds workbook).Nodup)
    (loc : CellLoc) (cell : CellData) (hcell : cellAt workbook loc = some cell) :
    needsEvaluation workbook (buildEvalCellIndex workbook) (buildEvalVariableIndex workbook)
        (_hashCellAddress cell.address) = cellNeedsEval cell := by
  unfold needsEvaluation nodeCell
  rw [cellIndex_complete workbook (List.nodup_append.1 hid).1 loc cell hcell,
    Option.some_bind, hcell]

theorem needsEvaluation_variable (workbook : WorkbookData) (hid : (nodeIds workbook).Nodup)
    (i : Nat) (v : VariableData) (hv : workbook.variables_[i]? = some v) :
    needsEvaluation workbook (buildEvalCellIndex workbook) (buildEvalVariableIndex workbook)
        v.name = truthy v.formula := by
  have hcell : nodeCell workbook (buildEvalCellIndex workbook) v.name = none := by
    unfold nodeCell
    cases hl : objGet (buildEvalCellIndex workbook) v.name with
    | none => rfl
    | some loc =>
      exfalso
      obtain ⟨c, hc, hk⟩ := cellIndex_sound workbook v.name loc hl
      have h1 : v.name ∈ (allCells workbook).map (fun c => _hashCellAddress c.address) := by
        rw [← hk]
        refine List.mem_map_of_mem (fun (c : CellData) => _hashCellAddress c.address) ?_
        unfold allCells
        rw [List.mem_filterMap]
        exact ⟨loc, mem_allCellLocs workbook loc c hc, hc⟩
      have h2 : v.name ∈ workbook.variables_.map VariableData.name :=
        List.mem_map_of_mem _ (List.getElem?_mem hv)
      exact (List.nodup_append.1 hid).2.2 h1 h2
  unfold needsEvaluation nodeVariable
  rw [hcell, variableIndex_complete workbook (List.nodup_append.1 hid).2.1 i v hv,
    Option.some_bind, hv]

theorem count_calls (nodes : List DependencyNode) (hnd : (nodes.map DependencyNode.id).Nodup)
    (p : DependencyNode → Bool) (n : DependencyNode) (hn : n ∈ nodes) (hp : p n = true) :
    ((nodes.filter p).map (fun n => (⟨Pass.acyclic, n.id⟩ : EvalCall))).count
      ⟨Pass.acyclic, n.id⟩ = 1 := by
  apply List.count_eq_one_of_mem
  · have h1 : ((nodes.filter p).map DependencyNode.id).Nodup :=
      List.Nodup.sublist (List.Sublist.map _ (List.filter_sublist _)) hnd
    have h2 : (fun n : DependencyNode => (⟨Pass.acyclic, n.id⟩ : EvalCall))
        = (fun k => (⟨Pass.acyclic, k⟩ : EvalCall)) ∘ DependencyNode.id := rfl
    rw [h2, ← List.map_map]
    apply List.Nodup.map _ h1
    intro a b hab
    simp only [EvalCall.mk.injEq, true_and] at hab
    exact hab
  · exact List.mem_map_of_mem _ (List.mem_filter.2 ⟨hn, hp⟩)

/-- C15 fails as stated. Of two uncached formula cells with the same address, both of whose
nodes land in the sorted list, the one stored first is never evaluated (it stays uncached) and
the evaluator is called once in all; and an uncached cell of type formula with empty formula
text lands in the sorted list and is never evaluated. -/
theorem C15_counterexample :
    (_topologicallySortCells 2 sampleDepParser (allCells twinWorkbook) twinWorkbook.variables_
        = some ⟨[⟨"Sheet1-1-1", JSSet.empty⟩, ⟨"Sheet1-1-1", JSSet.empty⟩], []⟩ ∧
      (evaluateWorkbookTrace 2 sampleDepParser sevenFormulaParser twinWorkbook).map
          (fun final => (final.calls, cellAt final.workbook ⟨"Sheet1", "A1"⟩,
            cellAt final.workbook ⟨"Sheet1", "B1"⟩))
        = some ([⟨Pass.acyclic, "Sheet1-1-1"⟩],
            some ⟨CellType.formula, ⟨1, 1, some "Sheet1"⟩,
              some ⟨"=1", JSValue.undefined⟩, JSValue.undefined⟩,
            some ⟨CellType.formula, ⟨1, 1, some "Sheet1"⟩,
              some ⟨"=2", JSValue.number 7⟩, JSValue.number 7⟩)) ∧
    (_topologicallySortCells 1 sampleDepParser (allCells blankFormulaWorkbook)
          blankFormulaWorkbook.variables_
        = some ⟨[⟨"Sheet1-1-1", JSSet.empty⟩], []⟩ ∧
      (evaluateWorkbookTrace 1 sampleDepParser sevenFormulaParser blankFormulaWorkbook).map
          EvalState.calls = some []) := by
  decide

/-! ## Results stored by the acyclic pass -/

theorem acyclicPass_frame_cell (initial : WorkbookData) (formulaParser : FormulaParser)
    (variableIndex : JSObject Nat) (loc : CellLoc) (c0 : CellData)
    (hc0 : cellAt initial loc = some c0) (nodes : List DependencyNode)
    (hnodes : ∀ n ∈ nodes, n.id ≠ _hashCellAddress c0.address) : ∀ (st : EvalState),
    cellAt (nodes.foldl (evaluateOrderedNode formulaParser (buildEvalCellIndex initial)
        variableIndex) st).workbook loc = cellAt st.workbook loc := by
  induction nodes with
  | nil =>
    intro st
    rfl
  | cons n nodes ih =>
    intro st
    rw [List.foldl_cons, ih (fun m hm => hnodes m (List.mem_cons_of_mem _ hm))]
    exact evaluateOrderedNode_frame_cell initial formulaParser variableIndex st n loc c0 hc0
      (hnodes n (List.mem_cons_self _ _))

theorem acyclicPass_frame_variable (initial : WorkbookData) (formulaParser : FormulaParser)
    (cellIndex : JSObject CellLoc) (i : Nat) (v0 : VariableData)
    (hv0 : initial.variables_[i]? = some v0) (nodes : List DependencyNode)
    (hnodes : ∀ n ∈ nodes, n.id ≠ v0.name) : ∀ (st : EvalState),
    (nodes.foldl (evaluateOrderedNode formulaParser cellIndex
        (buildEvalVariableIndex initial)) st).workbook.variables_[i]?
      = st.workbook.variables_[i]? := by
  induction nodes with
  | nil =>
    intro st
    rfl
  | cons n nodes ih =>
    intro st
    rw [List.foldl_cons, ih (fun m hm => hnodes m (List.mem_cons_of_mem _ hm))]
    exact evaluateOrderedNode_frame_variable initial formulaParser cellIndex st n i v0 hv0
      (hnodes n (List.mem_cons_self _ _))

theorem evaluateOrderedNode_stores (formulaParser : FormulaParser)
    (cellIndex : JSObject CellLoc) (variableIndex : JSObject Nat) (st : EvalState)
    (node : DependencyNode) (loc : CellLoc) (cell : CellData)
    (hl : objGet cellIndex node.id = some loc) (hc : cellAt st.workbook loc = some cell)
    (hneeds : cellNeedsEval cell = true) :
    ∃ result, cellAt (evaluateOrderedNode formulaParser cellIndex variableIndex st
      node).workbook loc = some (storeResult result cell) := by
  rw [evaluateOrderedNode_cell formulaParser cellIndex variableIndex st node loc cell hl hc]
  obtain ⟨type, address, formulaData, value⟩ := cell
  unfold cellNeedsEval at hneeds
  cases formulaData with
  | none => simp at hneeds
  | some fd =>
    simp only at hneeds
    by_cases hcache : fd.cachesResult ≠ JSValue.undefined ∧ fd.cachesResult ≠ JSValue.null
    · rw [if_pos hcache] at hneeds
      cases hneeds
    · rw [if_neg hcache, decide_eq_true_eq] at hneeds
      obtain ⟨htype, htext⟩ := hneeds
      subst htype
      simp only [hcache, if_false, htext, and_self, if_true, ne_eq, not_false_eq_true]
      exact ⟨_, by rw [cellAt_updateCell, if_pos rfl, hc]; rfl⟩

/-- Once the acyclic pass has met the node of an uncached formula cell with formula text, the
cell holds the evaluator's result in `value` and in `cachesResult`. -/
theorem acyclicPass_stores_cell (initial : WorkbookData) (formulaParser : FormulaParser)
    (variableIndex : JSObject Nat)
    (hid : ((allCells initial).map (fun c => _hashCellAddress c.address)).Nodup)
    (loc : CellLoc) (cell : CellData) (hcell : cellAt initial loc = some cell)
    (hneeds : cellNeedsEval cell = true) (nodes : List DependencyNode) :
    ∀ (st : EvalState), (nodes.map DependencyNode.id).Nodup →
    _hashCellAddress cell.address ∈ nodes.map DependencyNode.id →
    cellAt st.workbook loc = some cell →
    ∃ result, cellAt (nodes.foldl (evaluateOrderedNode formulaParser
        (buildEvalCellIndex initial) variableIndex) st).workbook loc
      = some (storeResult result cell) := by
  induction nodes with
  | nil =>
    intro st _ hmem _
    cases hmem
  | cons n nodes ih =>
    intro st hnd hmem hc
    rw [List.map_cons, List.nodup_cons] at hnd
    rw [List.foldl_cons]
    by_cases hn : n.id = _hashCellAddress cell.address
    · obtain ⟨result, hr⟩ := evaluateOrderedNode_stores formulaParser
        (buildEvalCellIndex initial) variableIndex st n loc cell
        (by rw [hn]; exact cellIndex_complete initial hid loc cell hcell) hc hneeds
      refine ⟨result, ?_⟩
      rw [acyclicPass_frame_cell initial formulaParser variableIndex loc cell hcell nodes]
      · exact hr
      · intro m hm hmid
        exact hnd.1 (by rw [hn, ← hmid]; exact List.mem_map_of_mem _ hm)
    · apply ih _ hnd.2
      · rcases List.mem_cons.1 hmem with h | h
        · exact absurd h.symm hn
        · exact h
      · rw [evaluateOrderedNode_frame_cell initial formulaParser variableIndex st n loc cell
          hcell hn]
        exact hc

theorem cellIndex_variable_none (workbook : WorkbookData) (hid : (nodeIds workbook).Nodup)
    (i : Nat) (v : VariableData) (hv : workbook.variables_[i]? = some v) :
    objGet (buildEvalCellIndex workbook) v.name = none := by
  cases hl : objGet (buildEvalCellIndex workbook) v.name with
  | none => rfl
  | some loc =>
    exfalso
    obtain ⟨c, hc, hk⟩ := cellIndex_sound workbook v.name loc hl
    have h1 : v.name ∈ (allCells workbook).map (fun c => _hashCellAddress c.address) := by
      rw [← hk]
      refine List.mem_map_of_mem (fun (c : CellData) => _hashCellAddress c.address) ?_
      unfold allCells
      rw [List.mem_filterMap]
      exact ⟨loc, mem_allCellLocs workbook loc c hc, hc⟩
    have h2 : v.name ∈ workbook.variables_.map VariableData.name :=
      List.mem_map_of_mem _ (List.getElem?_mem hv)
    exact (List.nodup_append.1 hid).2.2 h1 h2

/-- Once the acyclic pass has met the node of a variable with a formula, the variable holds
the evaluator's result in `result`. -/
theorem acyclicPass_stores_variable (initial : WorkbookData) (formulaParser : FormulaParser)
    (hid : (nodeIds initial).Nodup) (i : Nat) (v : VariableData)
    (hv : initial.variables_[i]? = some v) (hformula : truthy v.formula = true)
    (nodes : List DependencyNode) :
    ∀ (st : EvalState), (nodes.map DependencyNode.id).Nodup →
    v.name ∈ nodes.map DependencyNode.id →
    st.workbook.variables_[i]? = some v →
    ∃ result, (nodes.foldl (evaluateOrderedNode formulaParser (buildEvalCellIndex initial)
        (buildEvalVariableIndex initial)) st).workbook.variables_[i]?
      = some { v with result := result } := by
  induction nodes with
  | nil =>
    intro st _ hmem _
    cases hmem
  | cons n nodes ih =>
    intro st hnd hmem hc
    rw [List.map_cons, List.nodup_cons] at hnd
    rw [List.foldl_cons]
    by_cases hn : n.id = v.name
    · have hnone : nodeCell st.workbook (buildEvalCellIndex initial) n.id = none := by
        unfold nodeCell
        rw [hn, cellIndex_variable_none initial hid i v hv]
        rfl
      have hstep := evaluateOrderedNode_variable formulaParser (buildEvalCellIndex initial)
        (buildEvalVariableIndex initial) st n hnone
      rw [hn, variableIndex_complete initial (List.nodup_append.1 hid).2.1 i v hv] at hstep
      simp only [hc, hformula, if_true] at hstep
      refine ⟨evaluateFormula
        (formulaParser (hooksOf st.workbook (buildEvalVariableIndex initial)))
        (v.formula.getD "") none, ?_⟩
      rw [acyclicPass_frame_variable initial formulaParser _ i v hv nodes]
      · rw [hstep]
        unfold updateVariable
        simp only
        rw [List.getElem?_modify, hc]
        simp
      · intro m hm hmid
        exact hnd.1 (by rw [hn, ← hmid]; exact List.mem_map_of_mem _ hm)
    · apply ih _ hnd.2
      · rcases List.mem_cons.1 hmem with h | h
        · exact absurd h.symm hn
        · exact h
      · rw [evaluateOrderedNode_frame_variable initial formulaParser _ st n i v hv hn]
        exact hc

/-- C15 as amended: on a workbook with pairwise distinct node ids the call returns, and when
all nodes land in the sorted list the evaluator is called exactly once for each uncached formula
cell with non-empty formula text and for each variable with a formula, and for nothing else, in
the order of the sorted list. The call for a node comes after the calls for all the nodes of
its dependency set that need evaluation; every id of its dependency set is the id of a node
met earlier; and in the state reached after the first `j` nodes, in which node `j` is
evaluated, every such cell met so far holds its result in `value` and `cachesResult` and every
such variable met so far holds its result in `result`. -/
theorem C15_dependency_order (fuel : Nat) (newDepParser : (String → Bool) → DepParser)
    (formulaParser : FormulaParser) (workbook : WorkbookData)
    (hid : (nodeIds workbook).Nodup) (hfuel : (nodeIds workbook).length ≤ fuel) :
    ∃ sorted final,
      _topologicallySortCells fuel newDepParser (allCells workbook) workbook.variables_
        = some sorted ∧
      evaluateWorkbookTrace fuel newDepParser formulaParser workbook = some final ∧
      (sorted.recursiveNodes = [] →
        final.calls = (sorted.topologicallySortedNodes.filter (fun n =>
            needsEvaluation workbook (buildEvalCellIndex workbook)
              (buildEvalVariableIndex workbook) n.id)).map (fun n => ⟨Pass.acyclic, n.id⟩) ∧
        (∀ (loc : CellLoc) (cell : CellData), cellAt workbook loc = some cell →
          cellNeedsEval cell = true →
          final.calls.count ⟨Pass.acyclic, _hashCellAddress cell.address⟩ = 1) ∧
        (∀ (i : Nat) (v : VariableData), workbook.variables_[i]? = some v →
          truthy v.formula = true →
          final.calls.count ⟨Pass.acyclic, v.name⟩ = 1) ∧
        (∀ n ∈ sorted.topologicallySortedNodes,
          needsEvaluation workbook (buildEvalCellIndex workbook)
            (buildEvalVariableIndex workbook) n.id = true →
          ∃ before after, final.calls = before ++ ⟨Pass.acyclic, n.id⟩ :: after ∧
            ∀ y ∈ n.dependencyIds.elems,
              needsEvaluation workbook (buildEvalCellIndex workbook)
                (buildEvalVariableIndex workbook) y = true →
              ⟨Pass.acyclic, y⟩ ∈ before) ∧
        (∀ (j : Nat) (n : DependencyNode), sorted.topologicallySortedNodes[j]? = some n →
          ∀ y ∈ n.dependencyIds.elems,
            y ∈ (sorted.topologicallySortedNodes.take j).map DependencyNode.id) ∧
        (∀ (j : Nat) (loc : CellLoc) (cell : CellData), cellAt workbook loc = some cell →
          cellNeedsEval cell = true →
          _hashCellAddress cell.address
            ∈ (sorted.topologicallySortedNodes.take j).map DependencyNode.id →
          ∃ result, cellAt ((sorted.topologicallySortedNodes.take j).foldl
              (evaluateOrderedNode formulaParser (buildEvalCellIndex workbook)
                (buildEvalVariableIndex workbook)) ⟨workbook, []⟩).workbook loc
            = some (storeResult result cell)) ∧
        (∀ (j i : Nat) (v : VariableData), workbook.variables_[i]? = some v →
          truthy v.formula = true →
          v.name ∈ (sorted.topologicallySortedNodes.take j).map DependencyNode.id →
          ∃ result, ((sorted.topologicallySortedNodes.take j).foldl
              (evaluateOrderedNode formulaParser (buildEvalCellIndex workbook)
                (buildEvalVariableIndex workbook)) ⟨workbook, []⟩).workbook.variables_[i]?
            = some { v with result := result })) := by
  obtain ⟨sorted, final, hsort, facts, htrace, hfinal⟩ :=
    evaluateWorkbookTrace_returns fuel newDepParser formulaParser workbook hid hfuel
  refine ⟨sorted, final, hsort, htrace, ?_⟩
  intro hres
  have hid2 : ((buildDependencies newDepParser (allCells workbook)
      workbook.variables_).map DependencyNode.id).Nodup := by
    rw [buildDependencies_ids]
    exact hid
  have hcalls : final.calls = (sorted.topologicallySortedNodes.filter (fun n =>
      needsEvaluation workbook (buildEvalCellIndex workbook)
        (buildEvalVariableIndex workbook) n.id)).map (fun n => ⟨Pass.acyclic, n.id⟩) := by
    obtain ⟨hshape, _⟩ := acyclicPass_spec workbook formulaParser
      (buildEvalCellIndex workbook) (buildEvalVariableIndex workbook)
      sorted.topologicallySortedNodes ⟨workbook, []⟩ (SameShape.refl workbook)
      (by intro c hc; cases hc)
    obtain ⟨_, h2⟩ := circularPass_spec workbook formulaParser
      (buildEvalCellIndex workbook) (buildEvalVariableIndex workbook) sorted.recursiveNodes
      MAX_ITER 0 _ (by simp) hshape
    rw [hfinal, h2, acyclicPass_calls workbook formulaParser sorted.topologicallySortedNodes
      ⟨workbook, []⟩ facts.sortedNodup (fun _ _ => rfl), hres]
    simp
  have hall : ∀ k ∈ nodeIds workbook, ∃ n ∈ sorted.topologicallySortedNodes, n.id = k := by
    intro k hk
    rw [← buildDependencies_ids newDepParser] at hk
    obtain ⟨d, hd, hdk⟩ := List.mem_map.1 hk
    refine ⟨d, ?_, hdk⟩
    by_contra hnot
    have := (facts.residual d).2 ⟨hd, hnot⟩
    rw [hres] at this
    cases this
  have htake : ∀ j, ((sorted.topologicallySortedNodes.take j).map DependencyNode.id).Nodup :=
    fun j => List.Nodup.sublist (List.Sublist.map _ (List.take_sublist _ _)) facts.sortedNodup
  refine ⟨hcalls, ?_, ?_, ?_, ?_, ?_, ?_⟩
  · intro loc cell hcell hneeds
    obtain ⟨n, hn, hnk⟩ := hall (_hashCellAddress cell.address) (by
      unfold nodeIds
      refine List.mem_append_left _ ?_
      refine List.mem_map_of_mem (fun (c : CellData) => _hashCellAddress c.address) ?_
      unfold allCells
      rw [List.mem_filterMap]
      exact ⟨loc, mem_allCellLocs workbook loc cell hcell, hcell⟩)
    rw [hcalls, ← hnk]
    apply count_calls _ facts.sortedNodup _ n hn
    show needsEvaluation workbook _ _ n.id = true
    rw [hnk, needsEvaluation_cell workbook hid loc cell hcell]
    exact hneeds
  · intro i v hv hformula
    obtain ⟨n, hn, hnk⟩ := hall v.name (by
      unfold nodeIds
      exact List.mem_append_right _ (List.mem_map_of_mem _ (List.getElem?_mem hv)))
    rw [hcalls, ← hnk]
    apply count_calls _ facts.sortedNodup _ n hn
    show needsEvaluation workbook _ _ n.id = true
    rw [hnk, needsEvaluation_variable workbook hid i v hv]
    exact hformula
  · intro n hn hneeds
    obtain ⟨j, hj, hjn⟩ := List.getElem_of_mem hn
    have hsplit : sorted.topologicallySortedNodes
        = sorted.topologicallySortedNodes.take j
          ++ n :: sorted.topologicallySortedNodes.drop (j + 1) := by
      rw [← hjn, ← List.drop_eq_getElem_cons hj, List.take_append_drop]
    refine ⟨((sorted.topologicallySortedNodes.take j).filter (fun n =>
          needsEvaluation workbook (buildEvalCellIndex workbook)
            (buildEvalVariableIndex workbook) n.id)).map (fun n => ⟨Pass.acyclic, n.id⟩),
      ((sorted.topologicallySortedNodes.drop (j + 1)).filter (fun n =>
          needsEvaluation workbook (buildEvalCellIndex workbook)
            (buildEvalVariableIndex workbook) n.id)).map (fun n => ⟨Pass.acyclic, n.id⟩),
      ?_, ?_⟩
    · rw [hcalls]
      conv_lhs => rw [hsplit]
      rw [List.filter_append, List.filter_cons_of_pos (by simpa using hneeds),
        List.map_append, List.map_cons]
    · intro y hy hyneeds
      obtain ⟨i, m, hij, hm, hmy⟩ := facts.order j n
        (by rw [List.getElem?_eq_getElem hj, hjn]) y hy
      have hmem : m ∈ sorted.topologicallySortedNodes.take j := by
        apply List.getElem?_mem (n := i)
        rw [List.getElem?_take_of_lt hij]
        exact hm
      rw [← hmy]
      exact List.mem_map_of_mem (fun (n : DependencyNode) => (⟨Pass.acyclic, n.id⟩ : EvalCall))
        (List.mem_filter.2 ⟨hmem, by simpa [hmy] using hyneeds⟩)
  · intro j n hjn y hy
    obtain ⟨i, m, hij, hm, hmy⟩ := facts.order j n hjn y hy
    rw [← hmy]
    apply List.mem_map_of_mem
    apply List.getElem?_mem (n := i)
    rw [List.getElem?_take_of_lt hij]
    exact hm
  · intro j loc cell hcell hneeds hmem
    exact acyclicPass_stores_cell workbook formulaParser (buildEvalVariableIndex workbook)
      (List.nodup_append.1 hid).1 loc cell hcell hneeds _ ⟨workbook, []⟩ (htake j) hmem hcell
  · intro j i v hv hformula hmem
    exact acyclicPass_stores_variable workbook formulaParser hid i v hv hformula _
      ⟨workbook, []⟩ (htake j) hmem hv

/-- C15 as amended, at the chain `A1 = 100`, `A2 = A1 * 2`, `A3 = A2 + 50` stored in the order
A3, A2, A1: all nodes land in the sorted list, and the call gives `A2.value = 200` and
`A3.value = 250`. -/
theorem C15_dependency_order_witness :
    (nodeIds chainWorkbook).Nodup ∧ (nodeIds chainWorkbook).length ≤ 3 ∧
    (_topologicallySortCells 3 chainDepParser (allCells chainWorkbook)
        chainWorkbook.variables_).map TopologicallySortedNodes.recursiveNodes = some [] ∧
    (evaluateWorkbook 3 chainDepParser chainFormulaParser chainWorkbook).map
        (fun result => ((cellAt result ⟨"Sheet1", "A2"⟩).map CellData.value,
          (cellAt result ⟨"Sheet1", "A3"⟩).map CellData.value))
      = some (some (JSValue.number 200), some (JSValue.number 250)) ∧
    ∃ sorted final,
      _topologicallySortCells 3 chainDepParser (allCells chainWorkbook)
        chainWorkbook.variables_ = some sorted ∧
      evaluateWorkbookTrace 3 chainDepParser chainFormulaParser chainWorkbook = some final ∧
      (sorted.recursiveNodes = [] →
        final.calls = (sorted.topologicallySortedNodes.filter (fun n =>
            needsEvaluation chainWorkbook (buildEvalCellIndex chainWorkbook)
              (buildEvalVariableIndex chainWorkbook) n.id)).map
            (fun n => ⟨Pass.acyclic, n.id⟩) ∧
        (∀ (loc : CellLoc) (cell : CellData), cellAt chainWorkbook loc = some cell →
          cellNeedsEval cell = true →
          final.calls.count ⟨Pass.acyclic, _hashCellAddress cell.address⟩ = 1) ∧
        (∀ (i : Nat) (v : VariableData), chainWorkbook.variables_[i]? = some v →
          truthy v.formula = true →
          final.calls.count ⟨Pass.acyclic, v.name⟩ = 1) ∧
        (∀ n ∈ sorted.topologicallySortedNodes,
          needsEvaluation chainWorkbook (buildEvalCellIndex chainWorkbook)
            (buildEvalVariableIndex chainWorkbook) n.id = true →
          ∃ before after, final.calls = before ++ ⟨Pass.acyclic, n.id⟩ :: after ∧
            ∀ y ∈ n.dependencyIds.elems,
              needsEvaluation chainWorkbook (buildEvalCellIndex chainWorkbook)
                (buildEvalVariableIndex chainWorkbook) y = true →
              ⟨Pass.acyclic, y⟩ ∈ before) ∧
        (∀ (j : Nat) (n : DependencyNode), sorted.topologicallySortedNodes[j]? = some n →
          ∀ y ∈ n.dependencyIds.elems,
            y ∈ (sorted.topologicallySortedNodes.take j).map DependencyNode.id) ∧
        (∀ (j : Nat) (loc : CellLoc) (cell : CellData), cellAt chainWorkbook loc = some cell →
          cellNeedsEval cell = true →
          _hashCellAddress cell.address
            ∈ (sorted.topologicallySortedNodes.take j).map DependencyNode.id →
          ∃ result, cellAt ((sorted.topologicallySortedNodes.take j).foldl
              (evaluateOrderedNode chainFormulaParser (buildEvalCellIndex chainWorkbook)
                (buildEvalVariableIndex chainWorkbook)) ⟨chainWorkbook, []⟩).workbook loc
            = some (storeResult result cell)) ∧
        (∀ (j i : Nat) (v : VariableData), chainWorkbook.variables_[i]? = some v →
          truthy v.formula = true →
          v.name ∈ (sorted.topologicallySortedNodes.take j).map DependencyNode.id →
          ∃ result, ((sorted.topologicallySortedNodes.take j).foldl
              (evaluateOrderedNode chainFormulaParser (buildEvalCellIndex chainWorkbook)
                (buildEvalVariableIndex chainWorkbook))
              ⟨chainWorkbook, []⟩).workbook.variables_[i]?
            = some { v with result := result })) :=
  ⟨by decide, by decide, by decide, by decide,
    C15_dependency_order 3 chainDepParser chainFormulaParser chainWorkbook (by decide)
      (by decide)⟩

/-! ## Claims about the graph builder and the sparse index -/

theorem createNode_throws (parser : DepParser) (id formula : String) (row col : Nat)
    (sheet : Option String) (cellIndex : Option CellIndex)
    (h : parser (stripEquals formula) (orOne row) (orOne col) = none) :
    (_createDependencyNodeWithFormula parser id formula row col sheet cellIndex).dependencyIds
      = JSSet.empty := by
  unfold _createDependencyNodeWithFormula
  rw [h]

theorem builder_ids (newDepParser : (String → Bool) → DepParser) (cells : List CellData)
    (variableList : List VariableData) :
    (buildDependencies newDepParser cells variableList).map DependencyNode.id
      = cells.map (fun c => _hashCellAddress c.address)
        ++ variableList.map VariableData.name := by
  unfold buildDependencies
  simp only [List.map_append, List.map_map]
  congr 1
  · apply List.map_congr_left
    intro c _
    exact convertCell_id _ _ _
  · apply List.map_congr_left
    intro v _
    exact convertVariable_id _ _ _

/-- C22: for every cell the graph builder returns a node whose id is the cell's identity, and
for every variable a node whose id is the variable's name; the list of nodes holds one node per
cell, in the order of the cells, then one per variable. The dependency set of the node is
empty when the cell is a constant, when the cell has no formula data or an empty formula text,
when the variable has no formula or an empty one, and whenever the reference extractor throws on
the formula: the node is returned all the same. -/
theorem C22_builder_nodes (parser : DepParser) (cellIndex : Option CellIndex) :
    (∀ (newDepParser : (String → Bool) → DepParser) (cells : List CellData)
        (variableList : List VariableData),
      (buildDependencies newDepParser cells variableList).map DependencyNode.id
        = cells.map (fun c => _hashCellAddress c.address)
          ++ variableList.map VariableData.name) ∧
    (∀ cell : CellData,
      (_convertCellToDependencyNode parser cell cellIndex).id
          = _hashCellAddress cell.address ∧
        (cell.type = CellType.constant →
          (_convertCellToDependencyNode parser cell cellIndex).dependencyIds
            = JSSet.empty) ∧
        (cell.formulaData = none →
          (_convertCellToDependencyNode parser cell cellIndex).dependencyIds
            = JSSet.empty) ∧
        (∀ fd, cell.formulaData = some fd →
          (fd.formulaString = "" →
            (_convertCellToDependencyNode parser cell cellIndex).dependencyIds
              = JSSet.empty) ∧
          (parser (stripEquals fd.formulaString) (orOne cell.address.row)
              (orOne cell.address.col) = none →
            (_convertCellToDependencyNode parser cell cellIndex).dependencyIds
              = JSSet.empty))) ∧
    (∀ variableData : VariableData,
      (_convertVariableToDependencyNode parser variableData cellIndex).id
          = variableData.name ∧
        (truthy variableData.formula = false →
          (_convertVariableToDependencyNode parser variableData cellIndex).dependencyIds
            = JSSet.empty) ∧
        (parser (stripEquals (variableData.formula.getD "")) 1 1 = none →
          (_convertVariableToDependencyNode parser variableData cellIndex).dependencyIds
            = JSSet.empty)) := by
  refine ⟨builder_ids, ?_, ?_⟩
  · intro cell
    refine ⟨convertCell_id parser cell cellIndex, ?_, ?_, ?_⟩
    · intro hconst
      obtain ⟨type, address, formulaData, value⟩ := cell
      simp only at hconst
      subst hconst
      rfl
    · intro hnone
      obtain ⟨type, address, formulaData, value⟩ := cell
      simp only at hnone
      subst hnone
      cases type <;> rfl
    · intro fd hfd
      obtain ⟨type, address, formulaData, value⟩ := cell
      simp only at hfd
      subst hfd
      constructor
      · intro hempty
        cases type with
        | constant => rfl
        | formula =>
          unfold _convertCellToDependencyNode
          simp only [hempty, if_true]
      · intro hthrow
        cases type with
        | constant => rfl
        | formula =>
          unfold _convertCellToDependencyNode
          by_cases hempty : fd.formulaString = ""
          · simp only [hempty, if_true]
          · simp only [hempty, if_false]
            exact createNode_throws _ _ _ _ _ _ _ hthrow
  · intro variableData
    refine ⟨convertVariable_id parser variableData cellIndex, ?_, ?_⟩
    · intro hno
      unfold _convertVariableToDependencyNode
      simp [hno]
    · intro hthrow
      unfold _convertVariableToDependencyNode
      by_cases hf : truthy variableData.formula = true
      · rw [if_pos hf]
        exact createNode_throws _ _ _ _ _ _ _ hthrow
      · rw [if_neg hf]

/-- C22 at the formula cell A2 of `Sheet1` with an extractor that throws on every formula. -/
theorem C22_builder_nodes_witness :
    cellA2.formulaData = some ⟨"=A1", JSValue.undefined⟩ ∧
    throwingDepParser (stripEquals "=A1") (orOne cellA2.address.row)
      (orOne cellA2.address.col) = none ∧
    _convertCellToDependencyNode throwingDepParser cellA2 none
      = ⟨"Sheet1-2-1", JSSet.empty⟩ ∧
    (_convertCellToDependencyNode throwingDepParser cellA2 none).dependencyIds
      = JSSet.empty :=
  ⟨by decide, by decide, by decide,
    (((C22_builder_nodes throwingDepParser none).2.1 cellA2).2.2.2
      ⟨"=A1", JSValue.undefined⟩ (by decide)).2 (by decide)⟩

/-- C23: the sparse index built by `_topologicallySortCells` records exactly the population of
the input cells: row `r` is in `index[s][c]` if and only if some cell of the input has the
address with sheet `s`, row `r` and column `c`. -/
theorem C23_sparse_index_exact (cells : List CellData) (sheet : Option String)
    (col row : Nat) :
    indexHas (buildCellIndex cells) sheet col row ↔
      ∃ cell ∈ cells, cell.address = { row := row, col := col, sheet := sheet } :=
  indexHas_buildCellIndex cells sheet col row

/-! ## Dangling references -/

/-- On a list of nodes with pairwise distinct ids, none of them the name of a property
inherited from `Object.prototype`, the scheduler returns, and a node that lists an id that is
the id of no node of the list, as well as every node from which such a node can be reached
along dependency edges, is in the residual list and not in the sorted list, whether or not the
graph has a cycle. -/
theorem dangling_residual (nodes : List DependencyNode)
    (hid : (nodes.map DependencyNode.id).Nodup) (_ : PlainIds nodes) (fuel : Nat)
    (hfuel : nodes.length ≤ fuel) :
    ∃ r, _topologicalSorting fuel nodes = some r ∧
      ∀ n ∈ nodes, ∀ m, Relation.ReflTransGen (DependsOn nodes) n.id m → Dangling nodes m →
        n ∈ r.recursiveNodes ∧ n ∉ r.topologicallySortedNodes := by
  obtain ⟨r, hr⟩ := topo_terminates nodes hid fuel hfuel
  have tf := topo_facts nodes hid fuel r hr
  refine ⟨r, hr, ?_⟩
  intro n hn m hreach hdangling
  have hres : n ∈ r.recursiveNodes :=
    (TopoFacts.residual_iff_blocked nodes hid r tf n hn).2 ⟨m, hreach, Or.inr hdangling⟩
  exact ⟨hres, ((tf.residual n).1 hres).2⟩

/-- A graph without a cycle: `X` lists the missing id `ghost`, `Y` reads `X`, `Z` reads `Y`;
the three are residual and only the leaf `L` is sorted. -/
theorem dangling_residual_example :
    (ghostChain.map DependencyNode.id).Nodup ∧ PlainIds ghostChain ∧ ghostChain.length ≤ 4 ∧
    Acyclic ghostChain ∧
    _topologicalSorting 4 ghostChain
      = some ⟨[⟨"L", ⟨[], by decide⟩⟩],
          [⟨"X", ⟨["ghost"], by decide⟩⟩, ⟨"Y", ⟨["X"], by decide⟩⟩,
            ⟨"Z", ⟨["Y"], by decide⟩⟩]⟩ ∧
    ∃ r, _topologicalSorting 4 ghostChain = some r ∧
      ∀ n ∈ ghostChain, ∀ m, Relation.ReflTransGen (DependsOn ghostChain) n.id m →
        Dangling ghostChain m →
        n ∈ r.recursiveNodes ∧ n ∉ r.topologicallySortedNodes :=
  ⟨by decide, by decide, by decide,
    acyclic_of_rank ghostChain
      (fun k => if k = "X" then 1 else if k = "Y" then 2 else if k = "Z" then 3 else 0)
      (by decide),
    by decide, dangling_residual ghostChain (by decide) (by decide) 4 (by decide)⟩

/-! ## The scheduler on an arbitrary input list -/

theorem pairsFold_keys {α : Type} (k : String) (ps : List (String × α)) :
    ∀ (acc : JSObject α),
      (objGet (ps.foldl (fun o p => objSet o p.1 p.2) acc) k).isSome = true ↔
        (objGet acc k).isSome = true ∨ k ∈ ps.map Prod.fst := by
  induction ps with
  | nil =>
    intro acc
    simp
  | cons p ps ih =>
    intro acc
    rw [List.foldl_cons, ih, objGet_objSet, List.map_cons, List.mem_cons]
    by_cases hk : k = p.1
    · simp [hk]
    · simp [hk]

theorem unmodified_index (deps : List DependencyNode) (k : String) :
    ((objGet (deps.foldl (fun o d => objSet o d.id d) []) k).isSome = true ↔
        k ∈ deps.map DependencyNode.id) ∧
    ∀ n, objGet (deps.foldl (fun o d => objSet o d.id d) []) k = some n →
      n.id = k ∧ n ∈ deps := by
  have heq : deps.foldl (fun o d => objSet o d.id d) []
      = (deps.map (fun d => (d.id, d))).foldl (fun o p => objSet o p.1 p.2) [] := by
    rw [List.foldl_map]
  constructor
  · rw [heq, pairsFold_keys, index_keys]
    simp [objGet]
  · intro n hn
    rw [heq] at hn
    rcases pairsFold_sound k n _ [] hn with h | h
    · obtain ⟨d, hd, hdk⟩ := List.mem_map.1 h
      rw [Prod.mk.injEq] at hdk
      exact ⟨by rw [← hdk.2, hdk.1], hdk.2 ▸ hd⟩
    · simp [objGet] at h

theorem delete_size_zero (s : JSSet String) (x : String) (h : s.size = 0) :
    (s.delete x).size = 0 := by
  rw [size_eq_zero_iff] at h ⊢
  intro y hy
  exact h y ((mem_delete_iff s x y).1 hy).2

theorem SortFacts.initial (deps : List DependencyNode) :
    SortFacts deps ⟨deps.foldl (fun o d => objSet o d.id
      { id := d.id, dependencyIds := d.dependencyIds }) [], [],
      deps.filter (fun d => d.dependencyIds.size = 0)⟩ := by
  have hcopy : deps.foldl (fun o d => objSet o d.id
      ({ id := d.id, dependencyIds := d.dependencyIds } : DependencyNode)) []
      = deps.foldl (fun o d => objSet o d.id d) [] := rfl
  refine ⟨?_, ?_, ?_, ?_, ?_⟩
  · intro k n hn
    rw [hcopy] at hn
    obtain ⟨hid, hmem⟩ := (unmodified_index deps k).2 n hn
    exact ⟨hid, hid ▸ List.mem_map_of_mem _ hmem⟩
  · intro k hk
    rw [hcopy]
    exact (unmodified_index deps k).1.2 hk
  · intro n hn
    exact List.mem_map_of_mem _ (List.mem_filter.1 hn).1
  · intro k n hn hsize
    rw [hcopy] at hn
    obtain ⟨hid, hmem⟩ := (unmodified_index deps k).2 n hn
    refine Or.inr ?_
    rw [← hid]
    exact List.mem_map_of_mem _ (List.mem_filter.2 ⟨hmem, by simpa using hsize⟩)
  · rintro a huniq (h | h) n hn
    · cases h
    · rw [hcopy] at hn
      obtain ⟨hid, hmem⟩ := (unmodified_index deps a).2 n hn
      obtain ⟨d, hd, hda⟩ := List.mem_map.1 h
      obtain ⟨hd1, hd2⟩ := List.mem_filter.1 hd
      rw [huniq n hmem d hd1 hid hda]
      simpa using hd2

theorem SortFacts.resolve (deps : List DependencyNode) (sorted : List DependencyNode)
    (currentId : String) (acc : JSObject DependencyNode × List DependencyNode) (id : String)
    (h : SortFacts deps ⟨acc.1, sorted, acc.2⟩) :
    SortFacts deps ⟨(resolveDependent currentId acc id).1, sorted,
      (resolveDependent currentId acc id).2⟩ := by
  unfold resolveDependent
  cases hget : objGet acc.1 id with
  | none => exact h
  | some dn =>
    obtain ⟨hdn, hidmem⟩ := h.valueId id dn hget
    by_cases hsize : (dn.dependencyIds.delete currentId).size = 0
    · simp only [hsize, if_true]
      refine ⟨?_, ?_, ?_, ?_, ?_⟩
      · intro k n hn
        rw [objGet_objSet] at hn
        by_cases hk : k = id
        · rw [if_pos hk, Option.some.injEq] at hn
          rw [← hn, hk]
          exact ⟨hdn, hidmem⟩
        · rw [if_neg hk] at hn
          exact h.valueId k n hn
      · intro k hk
        rw [objGet_objSet]
        by_cases hkid : k = id
        · rw [if_pos hkid]
          rfl
        · rw [if_neg hkid]
          exact h.present k hk
      · intro n hn
        rcases List.mem_append.1 hn with h1 | h1
        · exact h.queueMem n h1
        · rw [List.mem_singleton] at h1
          rw [h1]
          exact hdn ▸ hidmem
      · intro k n hn hn0
        rw [objGet_objSet] at hn
        rw [List.map_append, List.mem_append]
        by_cases hk : k = id
        · refine Or.inr (Or.inr ?_)
          rw [hk, List.map_singleton, List.mem_singleton]
          exact hdn.symm
        · rw [if_neg hk] at hn
          rcases h.covered k n hn hn0 with h1 | h1
          · exact Or.inl h1
          · exact Or.inr (Or.inl h1)
      · intro a huniq hmem n hn
        rw [objGet_objSet] at hn
        by_cases ha : a = id
        · rw [if_pos ha, Option.some.injEq] at hn
          rw [← hn]
          exact hsize
        · rw [if_neg ha] at hn
          apply h.settled a huniq _ n hn
          rcases hmem with h1 | h1
          · exact Or.inl h1
          · rw [List.map_append, List.mem_append] at h1
            rcases h1 with h2 | h2
            · exact Or.inr h2
            · rw [List.map_singleton, List.mem_singleton] at h2
              exact absurd (h2.trans hdn) ha
    · simp only [hsize, if_false]
      refine ⟨?_, ?_, h.queueMem, ?_, ?_⟩
      · intro k n hn
        rw [objGet_objSet] at hn
        by_cases hk : k = id
        · rw [if_pos hk, Option.some.injEq] at hn
          rw [← hn, hk]
          exact ⟨hdn, hidmem⟩
        · rw [if_neg hk] at hn
          exact h.valueId k n hn
      · intro k hk
        rw [objGet_objSet]
        by_cases hkid : k = id
        · rw [if_pos hkid]
          rfl
        · rw [if_neg hkid]
          exact h.present k hk
      · intro k n hn hn0
        rw [objGet_objSet] at hn
        by_cases hk : k = id
        · rw [if_pos hk, Option.some.injEq] at hn
          rw [← hn] at hn0
          exact absurd hn0 hsize
        · rw [if_neg hk] at hn
          exact h.covered k n hn hn0
      · intro a huniq hmem n hn
        rw [objGet_objSet] at hn
        by_cases ha : a = id
        · rw [if_pos ha, Option.some.injEq] at hn
          rw [← hn]
          exact delete_size_zero _ _ (h.settled a huniq hmem dn (ha ▸ hget))
        · rw [if_neg ha] at hn
          exact h.settled a huniq hmem n hn

theorem SortFacts.resolve_all (deps : List DependencyNode) (sorted : List DependencyNode)
    (currentId : String) (ids : List String) :
    ∀ (acc : JSObject DependencyNode × List DependencyNode),
      SortFacts deps ⟨acc.1, sorted, acc.2⟩ →
      SortFacts deps ⟨(ids.foldl (resolveDependent currentId) acc).1, sorted,
        (ids.foldl (resolveDependent currentId) acc).2⟩ := by
  induction ids with
  | nil =>
    intro acc h
    exact h
  | cons id ids ih =>
    intro acc h
    rw [List.foldl_cons]
    exact ih _ (SortFacts.resolve deps sorted currentId acc id h)

/-- One iteration of the scheduler loop keeps the general facts. -/
theorem SortFacts.iterate (deps : List DependencyNode) (st : SortState)
    (h : SortFacts deps st) (cur : DependencyNode) (rest : List DependencyNode)
    (hq : st.recentlyResolvedDependencies = cur :: rest) :
    SortFacts deps (sortStep (deps.foldl (fun o d => objSet o d.id d) [])
      (_buildReverseDependencyMappings deps) st.indexedDependencies
      st.topologicallySortedNodes cur rest) := by
  have hcur : cur.id ∈ deps.map DependencyNode.id :=
    h.queueMem cur (by rw [hq]; exact List.mem_cons_self _ _)
  obtain ⟨node, hnode⟩ := Option.isSome_iff_exists.1
    ((unmodified_index deps cur.id).1.2 hcur)
  have hnid : node.id = cur.id := ((unmodified_index deps cur.id).2 node hnode).1
  have hpop : SortFacts deps ⟨st.indexedDependencies, st.topologicallySortedNodes ++ [node],
      rest⟩ := by
    refine ⟨h.valueId, h.present, ?_, ?_, ?_⟩
    · intro n hn
      exact h.queueMem n (by rw [hq]; exact List.mem_cons_of_mem _ hn)
    · intro k n hn hn0
      rcases h.covered k n hn hn0 with h1 | h1
      · exact Or.inl (by rw [List.map_append]; exact List.mem_append_left _ h1)
      · rw [hq, List.map_cons, List.mem_cons] at h1
        rcases h1 with h2 | h2
        · refine Or.inl ?_
          rw [List.map_append, List.mem_append, List.map_singleton, List.mem_singleton]
          exact Or.inr (h2.trans hnid.symm)
        · exact Or.inr h2
    · intro a huniq hmem n hn
      apply h.settled a huniq _ n hn
      rcases hmem with h1 | h1
      · rw [List.map_append, List.mem_append, List.map_singleton, List.mem_singleton] at h1
        rcases h1 with h2 | h2
        · exact Or.inl h2
        · refine Or.inr ?_
          rw [hq, List.map_cons, List.mem_cons]
          exact Or.inl (h2.trans hnid)
      · refine Or.inr ?_
        rw [hq, List.map_cons, List.mem_cons]
        exact Or.inr h1
  unfold sortStep
  rw [hnode]
  cases hrev : objGet (_buildReverseDependencyMappings deps) cur.id with
  | none => exact hpop
  | some ids =>
    exact SortFacts.resolve_all deps _ cur.id ids (st.indexedDependencies, rest) hpop

theorem sortLoop_facts (deps : List DependencyNode) (fuel : Nat) :
    ∀ (st fin : SortState), SortFacts deps st →
      sortLoop (deps.foldl (fun o d => objSet o d.id d) [])
        (_buildReverseDependencyMappings deps) fuel st = some fin →
      SortFacts deps fin ∧ fin.recentlyResolvedDependencies = [] := by
  induction fuel with
  | zero =>
    intro st fin h hloop
    unfold sortLoop at hloop
    cases hq : st.recentlyResolvedDependencies with
    | nil =>
      rw [hq] at hloop
      simp only [Option.some.injEq] at hloop
      exact hloop ▸ ⟨h, hq⟩
    | cons cur rest =>
      rw [hq] at hloop
      simp at hloop
  | succ fuel ih =>
    intro st fin h hloop
    unfold sortLoop at hloop
    cases hq : st.recentlyResolvedDependencies with
    | nil =>
      rw [hq] at hloop
      simp only [Option.some.injEq] at hloop
      exact hloop ▸ ⟨h, hq⟩
    | cons cur rest =>
      rw [hq] at hloop
      simp only at hloop
      exact ih _ fin (SortFacts.iterate deps st h cur rest hq) hloop

/-- What every result of the scheduler satisfies, whatever the input list: every input id is
the id of a sorted or of a residual node, and an id that occurs once in the input is not the id
of both. -/
theorem topo_general (fuel : Nat) (deps : List DependencyNode) (r : TopologicallySortedNodes)
    (h : _topologicalSorting fuel deps = some r) :
    (∀ k ∈ deps.map DependencyNode.id,
      k ∈ r.topologicallySortedNodes.map DependencyNode.id
        ∨ k ∈ r.recursiveNodes.map DependencyNode.id) ∧
    (∀ a, UniqueId deps a → a ∈ r.recursiveNodes.map DependencyNode.id →
      a ∉ r.topologicallySortedNodes.map DependencyNode.id) := by
  unfold _topologicalSorting at h
  simp only at h
  cases hloop : sortLoop (deps.foldl (fun o d => objSet o d.id d) [])
      (_buildReverseDependencyMappings deps) fuel
      ⟨deps.foldl (fun o d => objSet o d.id
        { id := d.id, dependencyIds := d.dependencyIds }) [], [],
        deps.filter (fun d => d.dependencyIds.size = 0)⟩ with
  | none =>
    rw [hloop] at h
    cases h
  | some fin =>
    rw [hloop] at h
    simp only [Option.some.injEq] at h
    obtain ⟨facts, hq⟩ := sortLoop_facts deps fuel _ fin (SortFacts.initial deps) hloop
    rw [← h]
    simp only
    constructor
    · intro k hk
      obtain ⟨n, hn⟩ := Option.isSome_iff_exists.1 (facts.present k hk)
      by_cases hsize : n.dependencyIds.size = 0
      · rcases facts.covered k n hn hsize with h1 | h1
        · exact Or.inl h1
        · rw [hq] at h1
          cases h1
      · refine Or.inr ?_
        obtain ⟨d, hd⟩ := Option.isSome_iff_exists.1 ((unmodified_index deps k).1.2 hk)
        rw [List.mem_map]
        refine ⟨d, ?_, ((unmodified_index deps k).2 d hd).1⟩
        rw [List.mem_filterMap]
        refine ⟨k, ?_, hd⟩
        rw [List.mem_filter]
        refine ⟨?_, ?_⟩
        · rw [mem_objKeys, ← objGet_isSome_iff, hd]
          rfl
        · rw [hn]
          simp only [gt_iff_lt, decide_eq_true_eq]
          omega
    · intro a huniq hres hsorted
      obtain ⟨d, hd, hda⟩ := List.mem_map.1 hres
      rw [List.mem_filterMap] at hd
      obtain ⟨k, hk, hkd⟩ := hd
      have hka : k = a := by
        rw [← hda]
        exact (((unmodified_index deps k).2 d hkd).1).symm
      subst hka
      rw [List.mem_filter] at hk
      cases hn : objGet fin.indexedDependencies k with
      | none =>
        rw [hn] at hk
        simp at hk
      | some n =>
        rw [hn] at hk
        have := facts.settled k huniq (Or.inl hsorted) n hn
        simp only [gt_iff_lt, decide_eq_true_eq] at hk
        omega

/-! ## Value and cached result of a formula cell agree after the call -/

theorem shapeIsFormula_elim (c : CellData) (h : shapeIsFormula (some (cellShape c)) = true) :
    c.type = CellType.formula ∧ ∃ fd, c.formulaData = some fd ∧ fd.formulaString ≠ "" := by
  obtain ⟨type, address, formulaData, value⟩ := c
  cases type with
  | constant => simp [shapeIsFormula, cellShape] at h
  | formula =>
    cases formulaData with
    | none => simp [shapeIsFormula, cellShape] at h
    | some fd =>
      refine ⟨rfl, fd, rfl, ?_⟩
      simpa [shapeIsFormula, cellShape] using h

theorem evaluateOrderedNode_good (formulaParser : FormulaParser)
    (cellIndex : JSObject CellLoc) (variableIndex : JSObject Nat) (st : EvalState)
    (node : DependencyNode) (loc : CellLoc) (c : CellData)
    (hl : objGet cellIndex node.id = some loc) (hc : cellAt st.workbook loc = some c)
    (hform : shapeIsFormula (some (cellShape c)) = true) :
    GoodAt (evaluateOrderedNode formulaParser cellIndex variableIndex st node).workbook
      loc := by
  obtain ⟨htype, fd, hfd, htext⟩ := shapeIsFormula_elim c hform
  rw [evaluateOrderedNode_cell formulaParser cellIndex variableIndex st node loc c hl hc]
  obtain ⟨type, address, formulaData, value⟩ := c
  simp only at htype hfd
  subst htype
  subst hfd
  by_cases hcache : fd.cachesResult ≠ JSValue.undefined ∧ fd.cachesResult ≠ JSValue.null
  · simp only [hcache, and_self, if_true, ne_eq, not_false_eq_true]
    refine ⟨_, by rw [cellAt_updateCell, if_pos rfl, hc]; rfl, ?_⟩
    intro fd2 hfd2
    simp only [Option.some.injEq] at hfd2
    rw [← hfd2]
  · simp only [hcache, if_false, htext, and_self, if_true, ne_eq, not_false_eq_true]
    refine ⟨_, by rw [cellAt_updateCell, if_pos rfl, hc]; rfl, ?_⟩
    intro fd2 hfd2
    simp only [storeResult, Option.map_some', Option.some.injEq] at hfd2
    rw [← hfd2]
    rfl

theorem evaluateRecursiveNode_good (formulaParser : FormulaParser)
    (cellIndex : JSObject CellLoc) (variableIndex : JSObject Nat) (iter : Nat)
    (st : EvalState) (node : DependencyNode) (loc : CellLoc) (c : CellData)
    (hl : objGet cellIndex node.id = some loc) (hc : cellAt st.workbook loc = some c)
    (hform : shapeIsFormula (some (cellShape c)) = true) :
    GoodAt (evaluateRecursiveNode formulaParser cellIndex variableIndex iter st node).workbook
      loc := by
  obtain ⟨htype, fd, hfd, htext⟩ := shapeIsFormula_elim c hform
  obtain ⟨type, address, formulaData, value⟩ := c
  simp only at htype hfd
  subst htype
  subst hfd
  unfold evaluateRecursiveNode
  simp only [hl, Option.some_bind, hc, Option.map_some', ne_eq, htext, not_false_eq_true,
    if_true]
  refine ⟨_, by rw [cellAt_updateCell, if_pos rfl, hc]; rfl, ?_⟩
  intro fd2 hfd2
  simp only [storeResult, Option.map_some', Option.some.injEq] at hfd2
  rw [← hfd2]
  rfl

theorem sameShape_formula (initial workbook : WorkbookData) (h : SameShape initial workbook)
    (loc : CellLoc) (c0 : CellData) (hc0 : cellAt initial loc = some c0)
    (hform : shapeIsFormula (some (cellShape c0)) = true) :
    ∃ c, cellAt workbook loc = some c ∧ shapeIsFormula (some (cellShape c)) = true := by
  have hs := h.1 loc
  rw [hc0] at hs
  cases hc : cellAt workbook loc with
  | none =>
    rw [hc] at hs
    cases hs
  | some c =>
    rw [hc, Option.map_some', Option.map_some', Option.some.injEq] at hs
    exact ⟨c, rfl, by rw [hs]; exact hform⟩

/-- The acyclic pass leaves a formula cell with formula text with `value` equal to
`cachesResult` when it was so before or when the pass meets the node of the cell. -/
theorem acyclicPass_good (initial : WorkbookData) (formulaParser : FormulaParser)
    (variableIndex : JSObject Nat)
    (hid : ((allCells initial).map (fun c => _hashCellAddress c.address)).Nodup)
    (loc : CellLoc) (c0 : CellData) (hc0 : cellAt initial loc = some c0)
    (hform : shapeIsFormula (some (cellShape c0)) = true) (nodes : List DependencyNode) :
    ∀ (st : EvalState), SameShape initial st.workbook →
    (GoodAt st.workbook loc ∨ _hashCellAddress c0.address ∈ nodes.map DependencyNode.id) →
    GoodAt (nodes.foldl (evaluateOrderedNode formulaParser (buildEvalCellIndex initial)
      variableIndex) st).workbook loc := by
  induction nodes with
  | nil =>
    intro st _ h
    rcases h with h | h
    · exact h
    · cases h
  | cons n nodes ih =>
    intro st hshape h
    rw [List.foldl_cons]
    apply ih _ (evaluateOrderedNode_shape initial formulaParser _ variableIndex st n hshape)
    by_cases hn : n.id = _hashCellAddress c0.address
    · obtain ⟨c, hc, hcform⟩ := sameShape_formula initial st.workbook hshape loc c0 hc0 hform
      exact Or.inl (evaluateOrderedNode_good formulaParser _ variableIndex st n loc c
        (by rw [hn]; exact cellIndex_complete initial hid loc c0 hc0) hc hcform)
    · rcases h with h | h
      · refine Or.inl ?_
        unfold GoodAt
        rw [evaluateOrderedNode_frame_cell initial formulaParser variableIndex st n loc c0
          hc0 hn]
        exact h
      · rcases List.mem_cons.1 h with h1 | h1
        · exact absurd h1.symm hn
        · exact Or.inr h1

theorem sweep_good (initial : WorkbookData) (formulaParser : FormulaParser)
    (variableIndex : JSObject Nat) (iter : Nat)
    (hid : ((allCells initial).map (fun c => _hashCellAddress c.address)).Nodup)
    (loc : CellLoc) (c0 : CellData) (hc0 : cellAt initial loc = some c0)
    (hform : shapeIsFormula (some (cellShape c0)) = true) (nodes : List DependencyNode) :
    ∀ (st : EvalState), SameShape initial st.workbook →
    (GoodAt st.workbook loc ∨ _hashCellAddress c0.address ∈ nodes.map DependencyNode.id) →
    GoodAt (nodes.foldl (evaluateRecursiveNode formulaParser (buildEvalCellIndex initial)
      variableIndex iter) st).workbook loc := by
  induction nodes with
  | nil =>
    intro st _ h
    rcases h with h | h
    · exact h
    · cases h
  | cons n nodes ih =>
    intro st hshape h
    rw [List.foldl_cons]
    apply ih _ (evaluateRecursiveNode_shape initial formulaParser _ variableIndex iter st n
      hshape)
    by_cases hn : n.id = _hashCellAddress c0.address
    · obtain ⟨c, hc, hcform⟩ := sameShape_formula initial st.workbook hshape loc c0 hc0 hform
      exact Or.inl (evaluateRecursiveNode_good formulaParser _ variableIndex iter st n loc c
        (by rw [hn]; exact cellIndex_complete initial hid loc c0 hc0) hc hcform)
    · rcases h with h | h
      · refine Or.inl ?_
        unfold GoodAt
        rw [evaluateRecursiveNode_frame_cell initial formulaParser variableIndex iter st n loc
          c0 hc0 hn]
        exact h
      · rcases List.mem_cons.1 h with h1 | h1
        · exact absurd h1.symm hn
        · exact Or.inr h1

theorem circularPass_good (initial : WorkbookData) (formulaParser : FormulaParser)
    (variableIndex : JSObject Nat)
    (hid : ((allCells initial).map (fun c => _hashCellAddress c.address)).Nodup)
    (loc : CellLoc) (c0 : CellData) (hc0 : cellAt initial loc = some c0)
    (hform : shapeIsFormula (some (cellShape c0)) = true) (nodes : List DependencyNode)
    (remaining : Nat) : ∀ (iter : Nat) (st : EvalState), SameShape initial st.workbook →
    (GoodAt st.workbook loc ∨ (_hashCellAddress c0.address ∈ nodes.map DependencyNode.id
      ∧ 0 < remaining ∧ iter < MAX_ITER)) →
    GoodAt (circularPass formulaParser (buildEvalCellIndex initial) variableIndex nodes
      remaining iter st).workbook loc := by
  induction remaining with
  | zero =>
    intro iter st _ h
    unfold circularPass
    rcases h with h | ⟨_, h, _⟩
    · exact h
    · omega
  | succ remaining ih =>
    intro iter st hshape h
    unfold circularPass
    by_cases hlt : iter < MAX_ITER
    · rw [if_pos hlt]
      apply ih (iter + 1) _
        (sweep_spec initial formulaParser _ variableIndex iter nodes st hshape).1
      refine Or.inl (sweep_good initial formulaParser variableIndex iter hid loc c0 hc0 hform
        nodes st hshape ?_)
      rcases h with h | ⟨h, _, _⟩
      · exact Or.inl h
      · exact Or.inr h
    · rw [if_neg hlt]
      rcases h with h | ⟨_, _, h⟩
      · exact h
      · exact absurd h hlt

theorem identities_nodup (cells : List CellData)
    (haddr : (cells.map CellData.address).Nodup)
    (hsheet : ∀ c ∈ cells, c.address.sheet ≠ none) :
    (cells.map (fun c => _hashCellAddress c.address)).Nodup := by
  have hcomp : cells.map (fun c => _hashCellAddress c.address)
      = (cells.map CellData.address).map _hashCellAddress := by
    rw [List.map_map]
    rfl
  rw [hcomp]
  apply List.Nodup.map_on _ haddr
  intro a ha b hb hab
  obtain ⟨ca, hca, hcaa⟩ := List.mem_map.1 ha
  obtain ⟨cb, hcb, hcbb⟩ := List.mem_map.1 hb
  have hsa := hsheet ca hca
  have hsb := hsheet cb hcb
  rw [hcaa] at hsa
  rw [hcbb] at hsb
  obtain ⟨h1, h2, h3⟩ := hashCellAddress_injective a b hab
  obtain ⟨rowa, cola, sheeta⟩ := a
  obtain ⟨rowb, colb, sheetb⟩ := b
  simp only at h1 h2 h3 hsa hsb
  cases sheeta with
  | none => exact absurd rfl hsa
  | some s =>
    cases sheetb with
    | none => exact absurd rfl hsb
    | some t =>
      simp only [templateText, Option.getD_some] at h1
      rw [h1, h2, h3]

/-- C24: on a workbook whose cell objects have pairwise distinct addresses (each with a sheet
name, as the type of a cell address requires), whenever the scheduler returns the call returns,
and afterwards every cell of type formula with non-empty formula text has `value` equal to its
`cachesResult`, whether it was cached before the call, evaluated in the acyclic pass or
evaluated in the sweeps of the circular pass. -/
theorem C24_value_is_cache (fuel : Nat) (newDepParser : (String → Bool) → DepParser)
    (formulaParser : FormulaParser) (workbook : WorkbookData)
    (haddr : ((allCells workbook).map CellData.address).Nodup)
    (hsheet : ∀ c ∈ allCells workbook, c.address.sheet ≠ none)
    (sorted : TopologicallySortedNodes)
    (hsort : _topologicallySortCells fuel newDepParser (allCells workbook) workbook.variables_
      = some sorted) :
    ∃ final, evaluateWorkbookTrace fuel newDepParser formulaParser workbook = some final ∧
      ∀ (loc : CellLoc) (cell : CellData) (fd : FormulaData),
        cellAt final.workbook loc = some cell → cell.type = CellType.formula →
        cell.formulaData = some fd → fd.formulaString ≠ "" →
        cell.value = fd.cachesResult := by
  have hid := identities_nodup (allCells workbook) haddr hsheet
  obtain ⟨hshape1, _⟩ := acyclicPass_spec workbook formulaParser
    (buildEvalCellIndex workbook) (buildEvalVariableIndex workbook)
    sorted.topologicallySortedNodes ⟨workbook, []⟩ (SameShape.refl workbook)
    (by intro c hc; cases hc)
  obtain ⟨hshape2, _⟩ := circularPass_spec workbook formulaParser
    (buildEvalCellIndex workbook) (buildEvalVariableIndex workbook) sorted.recursiveNodes
    MAX_ITER 0 _ (by simp) hshape1
  refine ⟨circularPass formulaParser (buildEvalCellIndex workbook)
    (buildEvalVariableIndex workbook) sorted.recursiveNodes MAX_ITER 0
    (sorted.topologicallySortedNodes.foldl
      (evaluateOrderedNode formulaParser (buildEvalCellIndex workbook)
        (buildEvalVariableIndex workbook)) ⟨workbook, []⟩), ?_, ?_⟩
  · unfold evaluateWorkbookTrace
    rw [hsort]
    rfl
  · intro loc cell fd hcell htype hfd htext
    have hs := hshape2.1 loc
    rw [hcell] at hs
    cases hc0 : cellAt workbook loc with
    | none =>
      rw [hc0] at hs
      cases hs
    | some c0 =>
      rw [hc0, Option.map_some', Option.map_some', Option.some.injEq] at hs
      have hform : shapeIsFormula (some (cellShape c0)) = true := by
        rw [← hs]
        obtain ⟨type, address, formulaData, value⟩ := cell
        simp only at htype hfd
        subst htype
        subst hfd
        simpa [shapeIsFormula, cellShape] using htext
      have hmem : _hashCellAddress c0.address ∈ (buildDependencies newDepParser
          (allCells workbook) workbook.variables_).map DependencyNode.id := by
        rw [buildDependencies_ids]
        unfold nodeIds
        refine List.mem_append_left _ ?_
        refine List.mem_map_of_mem (fun (c : CellData) => _hashCellAddress c.address) ?_
        unfold allCells
        rw [List.mem_filterMap]
        exact ⟨loc, mem_allCellLocs workbook loc c0 hc0, hc0⟩
      have hgood : GoodAt (circularPass formulaParser (buildEvalCellIndex workbook)
          (buildEvalVariableIndex workbook) sorted.recursiveNodes MAX_ITER 0
          (sorted.topologicallySortedNodes.foldl
            (evaluateOrderedNode formulaParser (buildEvalCellIndex workbook)
              (buildEvalVariableIndex workbook)) ⟨workbook, []⟩)).workbook loc := by
        apply circularPass_good workbook formulaParser _ hid loc c0 hc0 hform _ _ _ _ hshape1
        rcases (topo_general fuel _ sorted hsort).1 _ hmem with h1 | h1
        · exact Or.inl (acyclicPass_good workbook formulaParser _ hid loc c0 hc0 hform _ _
            (SameShape.refl workbook) (Or.inr h1))
        · exact Or.inr ⟨h1, by decide, by decide⟩
      obtain ⟨c, hc, hgoodc⟩ := hgood
      rw [hcell, Option.some.injEq] at hc
      rw [← hc] at hgoodc
      exact hgoodc fd hfd

/-- C24 at a workbook with a cached formula cell and an uncached one in the sorted list and two
mutually circular formula cells in the residual list. -/
theorem C24_value_is_cache_witness :
    ((allCells mixedWorkbook).map CellData.address).Nodup ∧
    (∀ c ∈ allCells mixedWorkbook, c.address.sheet ≠ none) ∧
    _topologicallySortCells 4 cycleDepParser (allCells mixedWorkbook)
        mixedWorkbook.variables_
      = some ⟨[⟨"Sheet1-3-1", JSSet.empty⟩, ⟨"Sheet1-4-1", JSSet.empty⟩], cycleResidual⟩ ∧
    ∃ final, evaluateWorkbookTrace 4 cycleDepParser cycleFormulaParser mixedWorkbook
        = some final ∧
      ∀ (loc : CellLoc) (cell : CellData) (fd : FormulaData),
        cellAt final.workbook loc = some cell → cell.type = CellType.formula →
        cell.formulaData = some fd → fd.formulaString ≠ "" →
        cell.value = fd.cachesResult :=
  ⟨by decide, by decide, by decide,
    C24_value_is_cache 4 cycleDepParser cycleFormulaParser mixedWorkbook (by decide)
      (by decide) ⟨[⟨"Sheet1-3-1", JSSet.empty⟩, ⟨"Sheet1-4-1", JSSet.empty⟩], cycleResidual⟩
      (by decide)⟩

/-! ## A variable whose node is residual -/

theorem cellIndex_present (workbook : WorkbookData) (cell : CellData)
    (h : cell ∈ allCells workbook) :
    (objGet (buildEvalCellIndex workbook) (_hashCellAddress cell.address)).isSome = true := by
  rw [buildEvalCellIndex_eq, pairsFold_keys, cellIndex_keys]
  exact Or.inr (List.mem_map_of_mem (fun (c : CellData) => _hashCellAddress c.address) h)

/-- A step of the acyclic pass leaves the variable at position `i` alone unless it finds no
cell object under the node id and finds this variable under it. -/
theorem evaluateOrderedNode_variables (formulaParser : FormulaParser)
    (cellIndex : JSObject CellLoc) (variableIndex : JSObject Nat) (st : EvalState)
    (node : DependencyNode) (i : Nat) :
    (evaluateOrderedNode formulaParser cellIndex variableIndex st node).workbook.variables_[i]?
        = st.workbook.variables_[i]?
      ∨ (nodeCell st.workbook cellIndex node.id = none
        ∧ objGet variableIndex node.id = some i) := by
  cases hn : nodeCell st.workbook cellIndex node.id with
  | some cell =>
    refine Or.inl ?_
    have hn2 := hn
    unfold nodeCell at hn2
    cases hl : objGet cellIndex node.id with
    | none => simp [hl] at hn2
    | some loc =>
      rw [hl, Option.some_bind] at hn2
      rw [evaluateOrderedNode_cell formulaParser cellIndex variableIndex st node loc cell hl
        hn2]
      cases cell.formulaData with
      | none => rfl
      | some fd =>
        simp only
        split
        · rw [updateCell_variables]
        · split
          · rw [updateCell_variables]
          · rfl
  | none =>
    rw [evaluateOrderedNode_variable formulaParser cellIndex variableIndex st node hn]
    cases hj : objGet variableIndex node.id with
    | none => exact Or.inl rfl
    | some j =>
      by_cases hji : j = i
      · exact Or.inr ⟨rfl, by rw [hji]⟩
      · refine Or.inl ?_
        simp only
        cases hv : st.workbook.variables_[j]? with
        | none => rfl
        | some v =>
          simp only
          split
          · unfold updateVariable
            simp only
            rw [List.getElem?_modify]
            simp only [hji, if_false]
            cases st.workbook.variables_[i]? <;> rfl
          · rfl

theorem nodeCell_isSome (initial workbook : WorkbookData) (h : SameShape initial workbook)
    (id : String) (hid : (objGet (buildEvalCellIndex initial) id).isSome = true) :
    nodeCell workbook (buildEvalCellIndex initial) id ≠ none := by
  obtain ⟨loc, hl⟩ := Option.isSome_iff_exists.1 hid
  obtain ⟨c0, hc0, _⟩ := cellIndex_sound initial id loc hl
  have hs := h.1 loc
  rw [hc0] at hs
  unfold nodeCell
  rw [hl, Option.some_bind]
  intro hnone
  rw [hnone] at hs
  cases hs

/-- The acyclic pass leaves a variable alone when every node of the list that carries the
variable's name as id also has a cell object stored under that id. -/
theorem acyclicPass_variable_untouched (initial : WorkbookData)
    (formulaParser : FormulaParser) (i : Nat) (v : VariableData)
    (hv : initial.variables_[i]? = some v) (nodes : List DependencyNode)
    (hnodes : ∀ n ∈ nodes, n.id = v.name →
      (objGet (buildEvalCellIndex initial) v.name).isSome = true) :
    ∀ (st : EvalState), SameShape initial st.workbook →
    (nodes.foldl (evaluateOrderedNode formulaParser (buildEvalCellIndex initial)
        (buildEvalVariableIndex initial)) st).workbook.variables_[i]?
      = st.workbook.variables_[i]? := by
  induction nodes with
  | nil =>
    intro st _
    rfl
  | cons n nodes ih =>
    intro st hshape
    rw [List.foldl_cons, ih (fun m hm => hnodes m (List.mem_cons_of_mem _ hm)) _
      (evaluateOrderedNode_shape initial formulaParser _ _ st n hshape)]
    rcases evaluateOrderedNode_variables formulaParser (buildEvalCellIndex initial)
      (buildEvalVariableIndex initial) st n i with h | ⟨hnone, hi⟩
    · exact h
    · exfalso
      obtain ⟨v2, hv2, hname⟩ := variableIndex_sound initial n.id i hi
      rw [hv, Option.some.injEq] at hv2
      have hnid : n.id = v.name := by rw [hv2, hname]
      have hsome := hnodes n (List.mem_cons_self _ _) hnid
      exact nodeCell_isSome initial st.workbook hshape n.id (by rw [hnid]; exact hsome) hnone

theorem sweep_variables (formulaParser : FormulaParser) (cellIndex : JSObject CellLoc)
    (variableIndex : JSObject Nat) (iter : Nat) (nodes : List DependencyNode) :
    ∀ (st : EvalState),
    (nodes.foldl (evaluateRecursiveNode formulaParser cellIndex variableIndex iter)
      st).workbook.variables_ = st.workbook.variables_ := by
  induction nodes with
  | nil =>
    intro st
    rfl
  | cons n nodes ih =>
    intro st
    rw [List.foldl_cons, ih]
    rcases (evaluateRecursiveNode_spec formulaParser cellIndex variableIndex iter st n).2
      with h | ⟨loc, result, _, h⟩
    · rw [h]
    · rw [h, updateCell_variables]

/-- The circular pass never assigns to a variable. -/
theorem circularPass_variables (formulaParser : FormulaParser) (cellIndex : JSObject CellLoc)
    (variableIndex : JSObject Nat) (nodes : List DependencyNode) (remaining : Nat) :
    ∀ (iter : Nat) (st : EvalState),
    (circularPass formulaParser cellIndex variableIndex nodes remaining iter
      st).workbook.variables_ = st.workbook.variables_ := by
  induction remaining with
  | zero =>
    intro iter st
    unfold circularPass
    rfl
  | succ remaining ih =>
    intro iter st
    unfold circularPass
    by_cases hlt : iter < MAX_ITER
    · rw [if_pos hlt, ih, sweep_variables]
    · rw [if_neg hlt]

theorem acyclicPass_calls_mem (formulaParser : FormulaParser) (cellIndex : JSObject CellLoc)
    (variableIndex : JSObject Nat) (nodes : List DependencyNode) :
    ∀ (st : EvalState),
    ∀ c ∈ (nodes.foldl (evaluateOrderedNode formulaParser cellIndex variableIndex) st).calls,
      c ∈ st.calls ∨ ∃ n ∈ nodes, c = ⟨Pass.acyclic, n.id⟩ := by
  induction nodes with
  | nil =>
    intro st c hc
    exact Or.inl hc
  | cons n nodes ih =>
    intro st c hc
    rw [List.foldl_cons] at hc
    rcases ih _ c hc with h | ⟨m, hm, hcm⟩
    · rcases evaluateOrderedNode_calls_mem formulaParser cellIndex variableIndex st n c h
        with h1 | h1
      · exact Or.inl h1
      · exact Or.inr ⟨n, List.mem_cons_self _ _, h1⟩
    · exact Or.inr ⟨m, List.mem_cons_of_mem _ hm, hcm⟩

/-- When the variables have pairwise distinct names and no cell object carries the name of `v`
as identity, at most one node of the graph has that name as id. -/
theorem variable_uniqueId (newDepParser : (String → Bool) → DepParser)
    (workbook : WorkbookData) (hnames : (workbook.variables_.map VariableData.name).Nodup)
    (a : String) (hcells : ∀ cell ∈ allCells workbook, _hashCellAddress cell.address ≠ a) :
    UniqueId (buildDependencies newDepParser (allCells workbook) workbook.variables_) a := by
  intro d1 hd1 d2 hd2 h1 h2
  unfold buildDependencies at hd1 hd2
  simp only [List.mem_append, List.mem_map] at hd1 hd2
  rcases hd1 with ⟨c1, hc1, hcd1⟩ | ⟨v1, hv1, hvd1⟩
  · exfalso
    apply hcells c1 hc1
    rw [← h1, ← hcd1]
    exact (convertCell_id _ _ _).symm
  · rcases hd2 with ⟨c2, hc2, hcd2⟩ | ⟨v2, hv2, hvd2⟩
    · exfalso
      apply hcells c2 hc2
      rw [← h2, ← hcd2]
      exact (convertCell_id _ _ _).symm
    · have hn1 : v1.name = a := by rw [← h1, ← hvd1, convertVariable_id]
      have hn2 : v2.name = a := by rw [← h2, ← hvd2, convertVariable_id]
      have hv12 : v1 = v2 :=
        List.inj_on_of_nodup_map hnames hv1 hv2 (hn1.trans hn2.symm)
      rw [← hvd1, ← hvd2, hv12]

/-- C21 fails as stated: of two variables with the same name `a`, the second reads a cell that
no sheet holds, so its node is residual; the node is also sorted, because the first variable has
no dependencies, and the acyclic pass evaluates the second variable and stores 7 as its
`result`. -/
theorem C21_counterexample :
    _topologicallySortCells 1 sampleDepParser (allCells twinVariableWorkbook)
        twinVariableWorkbook.variables_
      = some ⟨[⟨"a", ⟨["undefined-1-1"], by decide⟩⟩],
          [⟨"a", ⟨["undefined-1-1"], by decide⟩⟩]⟩ ∧
    twinVariableWorkbook.variables_[1]?
      = some ⟨"a", some "A1", JSValue.undefined, JSValue.undefined⟩ ∧
    (evaluateWorkbookTrace 1 sampleDepParser sevenFormulaParser twinVariableWorkbook).map
        (fun final => (final.calls, final.workbook.variables_[1]?))
      = some ([⟨Pass.acyclic, "a"⟩],
          some ⟨"a", some "A1", JSValue.undefined, JSValue.number 7⟩) := by
  decide

/-- C21 as amended: on a workbook whose variables have pairwise distinct names, whenever the
scheduler returns the call returns, and a variable whose name is the id of a residual node (the
node is then the variable's own) is the same after the call as before, `result` and `value`
included; an evaluator call made under the variable's name, in either pass, is a call for a cell
object that carries this name as its identity, so there is none when no cell does. -/
theorem C21_residual_variable_untouched (fuel : Nat)
    (newDepParser : (String → Bool) → DepParser) (formulaParser : FormulaParser)
    (workbook : WorkbookData) (hnames : (workbook.variables_.map VariableData.name).Nodup)
    (sorted : TopologicallySortedNodes)
    (hsort : _topologicallySortCells fuel newDepParser (allCells workbook) workbook.variables_
      = some sorted)
    (i : Nat) (v : VariableData) (hv : workbook.variables_[i]? = some v)
    (hres : v.name ∈ sorted.recursiveNodes.map DependencyNode.id) :
    ∃ final, evaluateWorkbookTrace fuel newDepParser formulaParser workbook = some final ∧
      final.workbook.variables_[i]? = some v ∧
      (∀ c ∈ final.calls, c.nodeId = v.name →
        ∃ cell ∈ allCells workbook, _hashCellAddress cell.address = v.name) ∧
      ((∀ cell ∈ allCells workbook, _hashCellAddress cell.address ≠ v.name) →
        ∀ c ∈ final.calls, c.nodeId ≠ v.name) := by
  have hcellOf : (objGet (buildEvalCellIndex workbook) v.name).isSome = true →
      ∃ cell ∈ allCells workbook, _hashCellAddress cell.address = v.name := by
    intro hsome
    obtain ⟨loc, hl⟩ := Option.isSome_iff_exists.1 hsome
    obtain ⟨c, hc, hk⟩ := cellIndex_sound workbook v.name loc hl
    refine ⟨c, ?_, hk⟩
    unfold allCells
    rw [List.mem_filterMap]
    exact ⟨loc, mem_allCellLocs workbook loc c hc, hc⟩
  have hnodes : ∀ n ∈ sorted.topologicallySortedNodes, n.id = v.name →
      (objGet (buildEvalCellIndex workbook) v.name).isSome = true := by
    intro n hn hnid
    by_contra hnone
    have hcells : ∀ cell ∈ allCells workbook, _hashCellAddress cell.address ≠ v.name := by
      intro cell hcell hk
      exact hnone (hk ▸ cellIndex_present workbook cell hcell)
    exact (topo_general fuel _ sorted hsort).2 v.name
      (variable_uniqueId newDepParser workbook hnames v.name hcells) hres
      (hnid ▸ List.mem_map_of_mem _ hn)
  obtain ⟨hshape1, _⟩ := acyclicPass_spec workbook formulaParser
    (buildEvalCellIndex workbook) (buildEvalVariableIndex workbook)
    sorted.topologicallySortedNodes ⟨workbook, []⟩ (SameShape.refl workbook)
    (by intro c hc; cases hc)
  obtain ⟨_, hcalls2⟩ := circularPass_spec workbook formulaParser
    (buildEvalCellIndex workbook) (buildEvalVariableIndex workbook) sorted.recursiveNodes
    MAX_ITER 0 _ (by simp) hshape1
  have hcalls : ∀ c ∈ (circularPass formulaParser (buildEvalCellIndex workbook)
      (buildEvalVariableIndex workbook) sorted.recursiveNodes MAX_ITER 0
      (sorted.topologicallySortedNodes.foldl
        (evaluateOrderedNode formulaParser (buildEvalCellIndex workbook)
          (buildEvalVariableIndex workbook)) ⟨workbook, []⟩)).calls, c.nodeId = v.name →
      ∃ cell ∈ allCells workbook, _hashCellAddress cell.address = v.name := by
    intro c hc hcid
    rw [hcalls2] at hc
    rcases List.mem_append.1 hc with h1 | h1
    · rcases acyclicPass_calls_mem formulaParser _ _ _ _ c h1 with h2 | ⟨n, hn, hcn⟩
      · cases h2
      · rw [hcn] at hcid
        exact hcellOf (hnodes n hn hcid)
    · obtain ⟨iter, _, h2⟩ := List.mem_flatMap.1 h1
      obtain ⟨n, hn, hcn⟩ := List.mem_map.1 h2
      rw [← hcn] at hcid
      simp only at hcid
      have hform := (List.mem_filter.1 hn).2
      apply hcellOf
      rw [← hcid]
      cases hl : objGet (buildEvalCellIndex workbook) n.id with
      | none => simp [nodeCell, hl, shapeIsFormula] at hform
      | some loc => rfl
  refine ⟨circularPass formulaParser (buildEvalCellIndex workbook)
    (buildEvalVariableIndex workbook) sorted.recursiveNodes MAX_ITER 0
    (sorted.topologicallySortedNodes.foldl
      (evaluateOrderedNode formulaParser (buildEvalCellIndex workbook)
        (buildEvalVariableIndex workbook)) ⟨workbook, []⟩), ?_, ?_, hcalls, ?_⟩
  · unfold evaluateWorkbookTrace
    rw [hsort]
    rfl
  · rw [circularPass_variables, acyclicPass_variable_untouched workbook formulaParser i v hv
      sorted.topologicallySortedNodes hnodes ⟨workbook, []⟩ (SameShape.refl workbook)]
    exact hv
  · intro hcells c hc hcid
    obtain ⟨cell, hcell, hk⟩ := hcalls c hc hcid
    exact hcells cell hcell hk

/-- C21 as amended, at a variable without formula next to a variable that reads a cell no sheet
holds: the node of the second is residual, its record is unchanged and no call is made under
its name. -/
theorem C21_residual_variable_untouched_witness :
    (danglingVariableWorkbook.variables_.map VariableData.name).Nodup ∧
    _topologicallySortCells 1 sampleDepParser (allCells danglingVariableWorkbook)
        danglingVariableWorkbook.variables_
      = some ⟨[⟨"rate", JSSet.empty⟩], [⟨"total", ⟨["undefined-1-1"], by decide⟩⟩]⟩ ∧
    danglingVariableWorkbook.variables_[1]?
      = some ⟨"total", some "A1", JSValue.number 2, JSValue.undefined⟩ ∧
    ∃ final, evaluateWorkbookTrace 1 sampleDepParser sevenFormulaParser
        danglingVariableWorkbook = some final ∧
      final.workbook.variables_[1]?
        = some ⟨"total", some "A1", JSValue.number 2, JSValue.undefined⟩ ∧
      (∀ c ∈ final.calls, c.nodeId = "total" →
        ∃ cell ∈ allCells danglingVariableWorkbook,
          _hashCellAddress cell.address = "total") ∧
      ((∀ cell ∈ allCells danglingVariableWorkbook,
          _hashCellAddress cell.address ≠ "total") →
        ∀ c ∈ final.calls, c.nodeId ≠ "total") :=
  ⟨by decide, by decide, by decide,
    C21_residual_variable_untouched 1 sampleDepParser sevenFormulaParser
      danglingVariableWorkbook (by decide)
      ⟨[⟨"rate", JSSet.empty⟩], [⟨"total", ⟨["undefined-1-1"], by decide⟩⟩]⟩ (by decide) 1
      ⟨"total", some "A1", JSValue.number 2, JSValue.undefined⟩ (by decide) (by decide)⟩

end ExcelFormulate
